import Mathlib

/-!
Restaurant order lifecycle and billing (`Restaurant_Objects.js`), cart checkout
(`Cart&Customer_Validation.js`) and student notes (`Student_Notes_System.js`).

A shallow embedding of the three scripts: for the restaurant the menu catalog, the
discount engine, line-item mutation, the totals, the status state machine, the
report and the kitchen queue; for the cart the order processor with its loyalty
loop; for the student notes the two operations that store grades. The
definitions come first, by script, followed by the properties proved about them.

Modelling conventions.
* The restaurant functions that compute with numbers are given twice. The first
  version computes in exact arithmetic: money and rates are exact rationals, a
  JavaScript number is a rational or `NaN` (`JsNum`, with the two infinities in
  `Students.Num`), quantities are integers. The second version, in the namespace
  `Restaurant.Engine`, computes as the program does, in IEEE 754 double precision
  (`Dbl`): every operation returns the double nearest to the exact result. The
  two agree where every result is exactly representable, which for integer
  quantities means a magnitude of at most `2^53`.
* Points are integers, `n | 0` being the 32-bit conversion.
* `null` and `undefined` are one absent value (`Option.none`).
* A function that mutates its argument and may throw is a function to an outcome:
  what was thrown, if anything, and the state as the call leaves it.
* Objects have value semantics: no two places of a state share an object.
-/

namespace Restaurant

/-! ## Numbers -/

/-- A JavaScript number as far as this program is concerned: an exact value or `NaN`. -/
inductive JsNum where
  | val (q : ℚ)
  | nan
  deriving DecidableEq, Repr

namespace JsNum

/-- The operator `a + b`. -/
def add : JsNum → JsNum → JsNum
  | val a, val b => val (a + b)
  | _, _ => nan

/-- The operator `a - b`. -/
def sub : JsNum → JsNum → JsNum
  | val a, val b => val (a - b)
  | _, _ => nan

/-- The operator `a * b`. -/
def mul : JsNum → JsNum → JsNum
  | val a, val b => val (a * b)
  | _, _ => nan

/-- The function `Math.min(a, b)`: `NaN` as soon as one argument is. -/
def min : JsNum → JsNum → JsNum
  | val a, val b => val (Min.min a b)
  | _, _ => nan

/-- The function `Math.max(a, b)`: `NaN` as soon as one argument is. -/
def max : JsNum → JsNum → JsNum
  | val a, val b => val (Max.max a b)
  | _, _ => nan

end JsNum

/-! ## Menu catalog -/

/-- One entry of `menu`. -/
structure MenuItem where
  sku : String
  name : String
  price : ℚ
  category : String
  deriving DecidableEq, Repr

/-- The own properties of the object literal `menu`, in source order. -/
def menu : List (String × MenuItem) :=
  [ ("PZ01", ⟨"PZ01", "Margherita Pizza", 65, "pizza"⟩),
    ("PZ02", ⟨"PZ02", "Pepperoni Pizza", 75, "pizza"⟩),
    ("PS01", ⟨"PS01", "Caesar Salad", 42, "salad"⟩),
    ("DR01", ⟨"DR01", "Fresh Lemon Juice", 18, "drink"⟩),
    ("DR02", ⟨"DR02", "Mineral Water", 10, "drink"⟩),
    ("DS01", ⟨"DS01", "Chocolate Mousse", 28, "dessert"⟩) ]

/-- The keys of the menu catalog. -/
def menuKeys : List String := menu.map Prod.fst

/-- The property names every object literal inherits from `Object.prototype`.
`menu` and `transitions` are object literals, so `menu[k]` and `transitions[k]`
resolve these names to the inherited member (a function, or the prototype
object itself for `__proto__`), none of which is `null`, `undefined` or falsy. -/
def objectPrototypeKeys : List String :=
  [ "constructor", "hasOwnProperty", "isPrototypeOf", "propertyIsEnumerable",
    "toLocaleString", "toString", "valueOf", "__proto__",
    "__defineGetter__", "__defineSetter__", "__lookupGetter__", "__lookupSetter__" ]

/-- What `menu[sku]` evaluates to when it is not `undefined`. -/
inductive MenuValue where
  /-- An own property: a menu item. -/
  | item (m : MenuItem)
  /-- A member inherited from `Object.prototype`; it has no `price`, `name` or
  `category` property. -/
  | inherited
  deriving DecidableEq, Repr

/-- The expression `menu[sku]`: own properties first, then the prototype. -/
def menuGet (sku : String) : Option MenuValue :=
  match menu.lookup sku with
  | some m => some (MenuValue.item m)
  | none => if sku ∈ objectPrototypeKeys then some MenuValue.inherited else none

/-- The helper `getItem = (sku) => menu[sku] ?? null`. -/
def getItem (sku : String) : Option MenuValue := menuGet sku

/-! ## Discount engine -/

/-- The function `computeDiscount({ subtotal, coupon = null })` in exact arithmetic
(`Engine.computeDiscount` is the version in doubles). The `console.warn` of
the default case has no effect on the result. -/
def computeDiscount (subtotal : JsNum) (coupon : Option String) : JsNum :=
  match coupon with
  | some "WELCOME10" => JsNum.min (JsNum.val 10) (JsNum.mul subtotal (JsNum.val (1 / 10)))
  | some "DRINKS5" => JsNum.val 5
  | none => JsNum.val 0
  | some _ => JsNum.val 0

/-- The constant `TAX_RATE = 0.1`, as an exact rational. -/
def TAX_RATE : ℚ := 1 / 10

/-- The constant `SERVICE_RATE = 0.05`, as an exact rational. -/
def SERVICE_RATE : ℚ := 1 / 20

/-! ## Order model -/

/-- One line of `order.items`: the object `{ sku, qty }`. -/
structure Line where
  sku : String
  qty : ℤ
  deriving DecidableEq, Repr

/-- The order object built by `createOrder`. -/
structure Order where
  id : String
  table : Nat
  server : String
  status : String
  coupon : Option String
  items : List Line
  createdAt : Nat
  deriving DecidableEq, Repr

/-- What a call can throw. -/
inductive Err where
  /-- The error `new Error("Unknown SKU: " + sku)` of `addItem`. -/
  | unknownSku (sku : String)
  /-- The error `new Error("Invalid transition " + status + " → " + next)` of `setStatus`. -/
  | invalidTransition (status next : String)
  /-- A `TypeError` raised by the runtime (a member read on `undefined`, a call of
  something that is not a function). -/
  | typeError
  deriving DecidableEq, Repr

/-- The result of a call on a mutable order: what it threw, if anything, and the
order as the call leaves it. -/
structure Outcome where
  thrown : Option Err
  order : Order
  deriving DecidableEq, Repr

/-- The function `createOrder({ table, server, coupon = null })`. The random id of
`cryptoRandomId()` and the clock reading of `new Date()` are supplied by the
environment and taken as arguments. -/
def createOrder (id : String) (createdAt : Nat) (table : Nat) (server : String)
    (coupon : Option String) : Order :=
  { id := id, table := table, server := server, status := "OPEN", coupon := coupon,
    items := [], createdAt := createdAt }

/-- The helper `lineTotal({ sku, qty })`. For a member inherited from
`Object.prototype` the destructured `price` is `undefined`, and
`undefined * qty` is `NaN`. -/
def lineTotal (l : Line) : JsNum :=
  match getItem l.sku with
  | none => JsNum.val 0
  | some item =>
    if l.qty ≤ 0 then JsNum.val 0
    else
      match item with
      | MenuValue.item m => JsNum.mul (JsNum.val m.price) (JsNum.val l.qty)
      | MenuValue.inherited => JsNum.nan

/-- The method `Array.prototype.findIndex`: the position of the first element that
satisfies `p`, `none` standing for `-1`. `Array.prototype.find` returns the
element at that position. -/
def findIndex {α : Type} (p : α → Bool) : List α → Option Nat
  | [] => none
  | x :: xs => if p x then some 0 else (findIndex p xs).map (fun i => i + 1)

/-- The function `addItem(order, { sku, qty = 1 })` on integer quantities, in exact
arithmetic (`Engine.addItem` is the version in doubles); an omitted `qty` is
`none`. -/
def addItem (order : Order) (sku : String) (qty : Option ℤ) : Outcome :=
  let qty := qty.getD 1
  match getItem sku with
  | none => { thrown := some (Err.unknownSku sku), order := order }
  | some _ =>
    match findIndex (fun l => l.sku == sku) order.items with
    | some i =>
      { thrown := none,
        order := { order with
          items := order.items.modify (fun line => { line with qty := line.qty + qty }) i } }
    | none =>
      { thrown := none,
        order := { order with items := order.items ++ [{ sku := sku, qty := qty }] } }

/-- The function `removeItem(order, { sku, qty = 1 })` on integer quantities, in
exact arithmetic (`Engine.removeItem` is the version in doubles); an omitted
`qty` is `none`. -/
def removeItem (order : Order) (sku : String) (qty : Option ℤ) : Outcome :=
  let qty := qty.getD 1
  match findIndex (fun l => l.sku == sku) order.items with
  | none => { thrown := none, order := order }
  | some idx =>
    match order.items[idx]? with
    | none => { thrown := some Err.typeError, order := order }
    | some line =>
      let line := { line with qty := line.qty - qty }
      let items := order.items.set idx line
      if line.qty ≤ 0 then
        { thrown := none, order := { order with items := items.eraseIdx idx } }
      else
        { thrown := none, order := { order with items := items } }

/-- The result object of `computeTotals`. -/
structure Totals where
  subtotal : JsNum
  discount : JsNum
  taxes : JsNum
  service : JsNum
  total : JsNum
  deriving DecidableEq, Repr

/-- The function `computeTotals(order)` in exact arithmetic (`Engine.computeTotals`
is the version in doubles). -/
def computeTotals (order : Order) : Totals :=
  let subtotal := order.items.foldl (fun sum l => JsNum.add sum (lineTotal l)) (JsNum.val 0)
  let discount := computeDiscount subtotal order.coupon
  let afterDiscount := JsNum.max (JsNum.val 0) (JsNum.sub subtotal discount)
  let taxes := JsNum.mul afterDiscount (JsNum.val TAX_RATE)
  let service := JsNum.mul afterDiscount (JsNum.val SERVICE_RATE)
  let total := JsNum.add (JsNum.add afterDiscount taxes) service
  { subtotal := subtotal, discount := discount, taxes := taxes, service := service,
    total := total }

/-! ## Status state machine -/

/-- The own properties of the object literal `transitions` of `setStatus`. -/
def transitions : List (String × List String) :=
  [ ("OPEN", ["SENT_TO_KITCHEN", "CANCELLED"]),
    ("SENT_TO_KITCHEN", ["SERVED", "CANCELLED"]),
    ("SERVED", ["PAID"]),
    ("PAID", []),
    ("CANCELLED", []) ]

/-- The function `setStatus(order, next)`. With `allowed = transitions[order.status] || []`:
an own property gives its array, an absent one the empty array, and a member
inherited from `Object.prototype` is truthy but has no `includes`, so calling
`allowed.includes` throws a `TypeError`. -/
def setStatus (order : Order) (next : String) : Outcome :=
  match transitions.lookup order.status with
  | some allowed =>
    if allowed.contains next then
      { thrown := none, order := { order with status := next } }
    else
      { thrown := some (Err.invalidTransition order.status next), order := order }
  | none =>
    if order.status ∈ objectPrototypeKeys then
      { thrown := some Err.typeError, order := order }
    else
      { thrown := some (Err.invalidTransition order.status next), order := order }

/-! ## Reporting -/

/-- The helper `MAD = (n) => n.toFixed(2) + " MAD"` on a number; the built-in
`toFixed(2)` is taken as the argument `toFixed2`. -/
def MAD (toFixed2 : JsNum → String) (n : JsNum) : String := toFixed2 n ++ " MAD"

/-- One row of `orderReport(order).rows`. -/
structure ReportRow where
  sku : String
  name : String
  qty : ℤ
  price : String
  line : String
  deriving DecidableEq, Repr

/-- The object `orderReport(order).totals`. -/
structure ReportTotals where
  subtotal : String
  discount : String
  taxes : String
  service : String
  total : String
  deriving DecidableEq, Repr

/-- The result object of `orderReport`. -/
structure Report where
  rows : List ReportRow
  totals : ReportTotals
  deriving DecidableEq, Repr

/-- The callback of `order.items.map` in `orderReport`, on one line.
`const { name, price } = getItem(sku)` throws a `TypeError` when `getItem`
returns `null`; for a member inherited from `Object.prototype` the `price` is
`undefined` and `MAD(price)` throws a `TypeError` at `undefined.toFixed`. -/
def reportRow (toFixed2 : JsNum → String) (l : Line) : Except Err ReportRow :=
  match getItem l.sku with
  | none => Except.error Err.typeError
  | some MenuValue.inherited => Except.error Err.typeError
  | some (MenuValue.item m) =>
    Except.ok
      { sku := l.sku, name := m.name, qty := l.qty,
        price := MAD toFixed2 (JsNum.val m.price),
        line := MAD toFixed2 (JsNum.mul (JsNum.val m.price) (JsNum.val l.qty)) }

/-- The call `order.items.map(...)` of `orderReport`: the rows in line order, or
the first throw. -/
def reportRows (toFixed2 : JsNum → String) : List Line → Except Err (List ReportRow)
  | [] => Except.ok []
  | l :: ls =>
    match reportRow toFixed2 l with
    | Except.error e => Except.error e
    | Except.ok r =>
      match reportRows toFixed2 ls with
      | Except.error e => Except.error e
      | Except.ok rs => Except.ok (r :: rs)

/-- The function `orderReport(order)`; it does not mutate the order. -/
def orderReport (toFixed2 : JsNum → String) (order : Order) : Except Err Report :=
  let t := computeTotals order
  match reportRows toFixed2 order.items with
  | Except.error e => Except.error e
  | Except.ok rows =>
    Except.ok
      { rows := rows,
        totals :=
          { subtotal := MAD toFixed2 t.subtotal,
            discount := "- " ++ MAD toFixed2 t.discount,
            taxes := MAD toFixed2 t.taxes,
            service := MAD toFixed2 t.service,
            total := MAD toFixed2 t.total } }

/-! ## Kitchen queue -/

/-- One entry of `ticketItems`; `name` and `category` are `none` when `undefined`. -/
structure TicketItem where
  sku : String
  name : Option String
  category : Option String
  qty : ℤ
  deriving DecidableEq, Repr

/-- The rest object `restMeta` of `toKitchenTicket`: the fields of the order other
than `id`, `table`, `server` and `items`. -/
structure TicketMeta where
  status : String
  coupon : Option String
  createdAt : Nat
  deriving DecidableEq, Repr

/-- The ticket object built by `toKitchenTicket`. -/
structure KitchenTicket where
  id : String
  table : Nat
  server : String
  ticketItems : List TicketItem
  meta : TicketMeta
  deriving DecidableEq, Repr

/-- The `name` property of the member of `Object.prototype` under a key: the
methods are functions named after their key, `constructor` is the function
`Object`, and `__proto__` is the prototype object, which has no `name`. -/
def inheritedName (key : String) : Option String :=
  if key = "__proto__" then none
  else if key = "constructor" then some "Object"
  else some key

/-- The callback of `items.map` in `toKitchenTicket`, on one line.
`const { name, category } = getItem(sku)` throws a `TypeError` when `getItem`
returns `null`. -/
def ticketItem (l : Line) : Except Err TicketItem :=
  match getItem l.sku with
  | none => Except.error Err.typeError
  | some MenuValue.inherited =>
    Except.ok { sku := l.sku, name := inheritedName l.sku, category := none, qty := l.qty }
  | some (MenuValue.item m) =>
    Except.ok { sku := l.sku, name := some m.name, category := some m.category, qty := l.qty }

/-- The call `items.map(...)` of `toKitchenTicket`: the ticket items in line order,
or the first throw. -/
def ticketItems : List Line → Except Err (List TicketItem)
  | [] => Except.ok []
  | l :: ls =>
    match ticketItem l with
    | Except.error e => Except.error e
    | Except.ok t =>
      match ticketItems ls with
      | Except.error e => Except.error e
      | Except.ok ts => Except.ok (t :: ts)

/-- The function `toKitchenTicket(order)`. -/
def toKitchenTicket (order : Order) : Except Err KitchenTicket :=
  match ticketItems order.items with
  | Except.error e => Except.error e
  | Except.ok items =>
    Except.ok
      { id := order.id, table := order.table, server := order.server, ticketItems := items,
        meta := { status := order.status, coupon := order.coupon,
                  createdAt := order.createdAt } }

/-- The result of a call that works on an order and on `kitchenQueue`: what it
threw, if anything, and the order and the queue as the call leaves them. -/
structure KitchenOutcome where
  thrown : Option Err
  order : Order
  queue : List KitchenTicket
  deriving DecidableEq, Repr

/-- The function `sendToKitchen(order)`, with the module-level `kitchenQueue` as
explicit state. A throw of `toKitchenTicket` comes after `setStatus` has
already changed the status. -/
def sendToKitchen (queue : List KitchenTicket) (order : Order) : KitchenOutcome :=
  match (setStatus order "SENT_TO_KITCHEN").thrown with
  | some e => { thrown := some e, order := (setStatus order "SENT_TO_KITCHEN").order,
                queue := queue }
  | none =>
    match toKitchenTicket (setStatus order "SENT_TO_KITCHEN").order with
    | Except.error e =>
      { thrown := some e, order := (setStatus order "SENT_TO_KITCHEN").order, queue := queue }
    | Except.ok ticket =>
      { thrown := none, order := (setStatus order "SENT_TO_KITCHEN").order,
        queue := queue ++ [ticket] }

/-- The function `markServed(order)`, with the module-level `kitchenQueue` as
explicit state. -/
def markServed (queue : List KitchenTicket) (order : Order) : KitchenOutcome :=
  match (setStatus order "SERVED").thrown with
  | some e => { thrown := some e, order := (setStatus order "SERVED").order, queue := queue }
  | none =>
    match findIndex (fun t => t.id == (setStatus order "SERVED").order.id) queue with
    | some idx =>
      { thrown := none, order := (setStatus order "SERVED").order,
        queue := queue.eraseIdx idx }
    | none => { thrown := none, order := (setStatus order "SERVED").order, queue := queue }

/-- The comparison `a < b` of two numbers: false as soon as one is `NaN`. -/
def JsNum.lt : JsNum → JsNum → Bool
  | JsNum.val a, JsNum.val b => decide (a < b)
  | _, _ => false

/-! ## Double-precision arithmetic

The definitions above compute in exact arithmetic, with integer quantities. The
engine computes in IEEE 754 double precision: every `+`, `-` and `*` returns the
double nearest to the exact result, ties going to the even significand. The
definitions of this section and of the next give the same functions with that
rounding; the two agree wherever a result is exactly representable. The two
zeros of the format are not told apart. -/

/-- A number as the engine holds it: a finite double (given by its exact value), an
infinity or `NaN`. -/
inductive Dbl where
  | fin (q : ℚ)
  | posInf
  | negInf
  | nan
  deriving DecidableEq, Repr

/-- Rounding to the nearest integer, a tie going to the even one. -/
def roundHalfEven (t : ℚ) : ℤ :=
  if t - ⌊t⌋ < 1 / 2 then ⌊t⌋
  else if 1 / 2 < t - ⌊t⌋ then ⌊t⌋ + 1
  else if ⌊t⌋ % 2 = 0 then ⌊t⌋
  else ⌊t⌋ + 1

/-- The exponent of the unit in the last place of the doubles around `x ≠ 0`: 52
below the binary exponent of `x`, and not below that of the subnormal numbers. -/
def ulpExponent (x : ℚ) : ℤ := max (Int.log 2 |x|) (-1022) - 52

/-- The double nearest to an exact value, ties to even; a value that rounds to
`2^1024` or beyond in magnitude overflows to an infinity. -/
def Dbl.round (x : ℚ) : Dbl :=
  if x = 0 then Dbl.fin 0
  else
    let y : ℚ := roundHalfEven (x / 2 ^ ulpExponent x) * 2 ^ ulpExponent x
    if 2 ^ 1024 ≤ y then Dbl.posInf
    else if y ≤ -2 ^ 1024 then Dbl.negInf
    else Dbl.fin y

/-- The unary operator `-a`. -/
def Dbl.neg : Dbl → Dbl
  | Dbl.fin a => Dbl.fin (-a)
  | Dbl.posInf => Dbl.negInf
  | Dbl.negInf => Dbl.posInf
  | Dbl.nan => Dbl.nan

/-- The operator `a + b` on doubles. -/
def Dbl.add : Dbl → Dbl → Dbl
  | Dbl.nan, _ => Dbl.nan
  | _, Dbl.nan => Dbl.nan
  | Dbl.posInf, Dbl.negInf => Dbl.nan
  | Dbl.negInf, Dbl.posInf => Dbl.nan
  | Dbl.posInf, _ => Dbl.posInf
  | _, Dbl.posInf => Dbl.posInf
  | Dbl.negInf, _ => Dbl.negInf
  | _, Dbl.negInf => Dbl.negInf
  | Dbl.fin a, Dbl.fin b => Dbl.round (a + b)

/-- The operator `a - b` on doubles. -/
def Dbl.sub (a b : Dbl) : Dbl := Dbl.add a (Dbl.neg b)

/-- The operator `a * b` on doubles. -/
def Dbl.mul : Dbl → Dbl → Dbl
  | Dbl.nan, _ => Dbl.nan
  | _, Dbl.nan => Dbl.nan
  | Dbl.fin a, Dbl.fin b => Dbl.round (a * b)
  | Dbl.posInf, Dbl.fin b => if b = 0 then Dbl.nan else if 0 < b then Dbl.posInf else Dbl.negInf
  | Dbl.negInf, Dbl.fin b => if b = 0 then Dbl.nan else if 0 < b then Dbl.negInf else Dbl.posInf
  | Dbl.fin a, Dbl.posInf => if a = 0 then Dbl.nan else if 0 < a then Dbl.posInf else Dbl.negInf
  | Dbl.fin a, Dbl.negInf => if a = 0 then Dbl.nan else if 0 < a then Dbl.negInf else Dbl.posInf
  | Dbl.posInf, Dbl.posInf => Dbl.posInf
  | Dbl.negInf, Dbl.negInf => Dbl.posInf
  | Dbl.posInf, Dbl.negInf => Dbl.negInf
  | Dbl.negInf, Dbl.posInf => Dbl.negInf

/-- The function `Math.min(a, b)` on doubles. -/
def Dbl.min : Dbl → Dbl → Dbl
  | Dbl.nan, _ => Dbl.nan
  | _, Dbl.nan => Dbl.nan
  | Dbl.negInf, _ => Dbl.negInf
  | _, Dbl.negInf => Dbl.negInf
  | Dbl.posInf, b => b
  | a, Dbl.posInf => a
  | Dbl.fin a, Dbl.fin b => Dbl.fin (Min.min a b)

/-- The function `Math.max(a, b)` on doubles. -/
def Dbl.max : Dbl → Dbl → Dbl
  | Dbl.nan, _ => Dbl.nan
  | _, Dbl.nan => Dbl.nan
  | Dbl.posInf, _ => Dbl.posInf
  | _, Dbl.posInf => Dbl.posInf
  | Dbl.negInf, b => b
  | a, Dbl.negInf => a
  | Dbl.fin a, Dbl.fin b => Dbl.fin (Max.max a b)

/-- The test `a <= 0` on a double: false for `NaN`. -/
def Dbl.leZero : Dbl → Bool
  | Dbl.fin a => decide (a ≤ 0)
  | Dbl.negInf => true
  | Dbl.posInf => false
  | Dbl.nan => false

/-! ## The order aggregate in double-precision arithmetic -/

namespace Engine

/-- One line of `order.items`, its `qty` a double. -/
structure Line where
  sku : String
  qty : Dbl
  deriving DecidableEq, Repr

/-- The order object, its lines holding doubles. -/
structure Order where
  id : String
  table : Nat
  server : String
  status : String
  coupon : Option String
  items : List Line
  createdAt : Nat
  deriving DecidableEq, Repr

/-- The result of a call on a mutable order: what it threw, if anything, and the
order as the call leaves it. -/
structure Outcome where
  thrown : Option Err
  order : Order
  deriving DecidableEq, Repr

/-- The helper `lineTotal({ sku, qty })` in double arithmetic. -/
def lineTotal (l : Line) : Dbl :=
  match getItem l.sku with
  | none => Dbl.fin 0
  | some item =>
    if Dbl.leZero l.qty then Dbl.fin 0
    else
      match item with
      | MenuValue.item m => Dbl.mul (Dbl.fin m.price) l.qty
      | MenuValue.inherited => Dbl.nan

/-- The function `computeDiscount({ subtotal, coupon = null })` in double
arithmetic; the literal `0.1` denotes the double nearest to one tenth. -/
def computeDiscount (subtotal : Dbl) (coupon : Option String) : Dbl :=
  match coupon with
  | some "WELCOME10" => Dbl.min (Dbl.fin 10) (Dbl.mul subtotal (Dbl.round (1 / 10)))
  | some "DRINKS5" => Dbl.fin 5
  | none => Dbl.fin 0
  | some _ => Dbl.fin 0

/-- The constant `TAX_RATE = 0.1`: the double nearest to one tenth. -/
def TAX_RATE : Dbl := Dbl.round (1 / 10)

/-- The constant `SERVICE_RATE = 0.05`: the double nearest to one twentieth. -/
def SERVICE_RATE : Dbl := Dbl.round (1 / 20)

/-- The function `addItem(order, { sku, qty = 1 })` in double arithmetic. -/
def addItem (order : Order) (sku : String) (qty : Option Dbl) : Outcome :=
  let qty := qty.getD (Dbl.fin 1)
  match getItem sku with
  | none => { thrown := some (Err.unknownSku sku), order := order }
  | some _ =>
    match findIndex (fun l : Line => l.sku == sku) order.items with
    | some i =>
      { thrown := none,
        order := { order with
          items := order.items.modify (fun line => { line with qty := Dbl.add line.qty qty }) i } }
    | none =>
      { thrown := none,
        order := { order with items := order.items ++ [{ sku := sku, qty := qty }] } }

/-- The function `removeItem(order, { sku, qty = 1 })` in double arithmetic. -/
def removeItem (order : Order) (sku : String) (qty : Option Dbl) : Outcome :=
  let qty := qty.getD (Dbl.fin 1)
  match findIndex (fun l : Line => l.sku == sku) order.items with
  | none => { thrown := none, order := order }
  | some idx =>
    match order.items[idx]? with
    | none => { thrown := some Err.typeError, order := order }
    | some line =>
      let line := { line with qty := Dbl.sub line.qty qty }
      let items := order.items.set idx line
      if Dbl.leZero line.qty then
        { thrown := none, order := { order with items := items.eraseIdx idx } }
      else
        { thrown := none, order := { order with items := items } }

/-- The result object of `computeTotals`, its fields doubles. -/
structure Totals where
  subtotal : Dbl
  discount : Dbl
  taxes : Dbl
  service : Dbl
  total : Dbl
  deriving DecidableEq, Repr

/-- The function `computeTotals(order)` in double arithmetic. -/
def computeTotals (order : Order) : Totals :=
  let subtotal := order.items.foldl (fun sum l => Dbl.add sum (lineTotal l)) (Dbl.fin 0)
  let discount := computeDiscount subtotal order.coupon
  let afterDiscount := Dbl.max (Dbl.fin 0) (Dbl.sub subtotal discount)
  let taxes := Dbl.mul afterDiscount TAX_RATE
  let service := Dbl.mul afterDiscount SERVICE_RATE
  let total := Dbl.add (Dbl.add afterDiscount taxes) service
  { subtotal := subtotal, discount := discount, taxes := taxes, service := service,
    total := total }

/-- A call of one of the two line-item mutators of the engine, with its arguments. -/
inductive Call where
  /-- The call `addItem(order, { sku, qty })`. -/
  | add (sku : String) (qty : Option Dbl)
  /-- The call `removeItem(order, { sku, qty })`. -/
  | remove (sku : String) (qty : Option Dbl)
  deriving DecidableEq, Repr

/-- Running one call on an order. -/
def Call.run : Call → Order → Outcome
  | Call.add sku qty, order => addItem order sku qty
  | Call.remove sku qty, order => removeItem order sku qty

/-- Running a sequence of calls the way the top level of the script does: the first
call that throws ends the run (`none`). -/
def runScript (order : Order) : List Call → Option Order
  | [] => some order
  | c :: cs =>
    match (c.run order).thrown with
    | none => runScript (c.run order).order cs
    | some _ => none

/-- The four line-item calls of the demo flow on `orderA`. -/
def demoCalls : List Call :=
  [Call.add "PZ02" (some (Dbl.fin 2)), Call.add "DR01" (some (Dbl.fin 3)),
    Call.add "DS01" (some (Dbl.fin 1)), Call.remove "DR01" (some (Dbl.fin 1))]

end Engine

/-- An integer that the double format holds exactly together with all the integers
between it and 0: its magnitude is at most `2^53`. -/
def SafeInt (n : ℤ) : Prop := -2 ^ 53 ≤ n ∧ n ≤ 2 ^ 53

/-- A line with an integer quantity, as the engine holds it. -/
def Line.toEngine (l : Line) : Engine.Line := { sku := l.sku, qty := Dbl.fin l.qty }

/-- An order with integer quantities, as the engine holds it. -/
def Order.toEngine (o : Order) : Engine.Order :=
  { id := o.id, table := o.table, server := o.server, status := o.status, coupon := o.coupon,
    items := o.items.map Line.toEngine, createdAt := o.createdAt }

/-- An outcome on an order with integer quantities, as the engine holds it. -/
def Outcome.toEngine (r : Outcome) : Engine.Outcome :=
  { thrown := r.thrown, order := r.order.toEngine }

/-! ## Specification-side definitions -/

/-- The five order statuses. -/
def statuses : List String := ["OPEN", "SENT_TO_KITCHEN", "SERVED", "PAID", "CANCELLED"]

/-- The allowed-target table as the specification words it, source status by
source status. -/
def specAllowedTargets (status : String) : List String :=
  if status = "OPEN" then ["SENT_TO_KITCHEN", "CANCELLED"]
  else if status = "SENT_TO_KITCHEN" then ["SERVED", "CANCELLED"]
  else if status = "SERVED" then ["PAID"]
  else []

/-- The statuses an order goes through under a sequence of `setStatus` calls that
all succeed, the starting status included; `none` as soon as one call throws. -/
def statusTrace (order : Order) : List String → Option (List String)
  | [] => some [order.status]
  | next :: rest =>
    match (setStatus order next).thrown with
    | some _ => none
    | none => (statusTrace (setStatus order next).order rest).map (fun t => order.status :: t)

/-- A call of one of the two line-item mutators, with its arguments. -/
inductive Call where
  /-- The call `addItem(order, { sku, qty })`. -/
  | add (sku : String) (qty : Option ℤ)
  /-- The call `removeItem(order, { sku, qty })`. -/
  | remove (sku : String) (qty : Option ℤ)
  deriving DecidableEq, Repr

/-- Running one call on an order. -/
def Call.run : Call → Order → Outcome
  | Call.add sku qty, order => addItem order sku qty
  | Call.remove sku qty, order => removeItem order sku qty

/-- Running a sequence of calls on an order, one after the other; each call works
on the order as the previous one left it, whether that one returned or threw. -/
def runCalls (order : Order) : List Call → Order
  | [] => order
  | c :: cs => runCalls (c.run order).order cs

/-- The price of a sku read off the catalog entries, by the entry's own `sku`
field; `none` when no entry has that sku. -/
def catalogPrice (sku : String) : Option ℚ :=
  ((menu.map Prod.snd).find? (fun m => m.sku == sku)).map MenuItem.price

/-- The sum of `price(sku) * qty` over the lines, a sku without catalog entry
counting for nothing. -/
def specSubtotal (items : List Line) : ℚ :=
  (items.map (fun l => (catalogPrice l.sku).getD 0 * l.qty)).sum

/-- The sum of `lineTotal` over the lines. -/
def sumLineTotals (items : List Line) : JsNum :=
  (items.map lineTotal).foldr JsNum.add (JsNum.val 0)

/-- A sample order: table 12, coupon WELCOME10, two Pepperoni and three juices. -/
def sampleOrder : Order :=
  { id := "ORD-A", table := 12, server := "Mariam", status := "OPEN",
    coupon := some "WELCOME10",
    items := [{ sku := "PZ02", qty := 2 }, { sku := "DR01", qty := 3 }], createdAt := 0 }

/-- Running a sequence of calls the way the top level of the script does: the first
call that throws ends the run (`none`). -/
def runScript (order : Order) : List Call → Option Order
  | [] => some order
  | c :: cs =>
    match (c.run order).thrown with
    | none => runScript (c.run order).order cs
    | some _ => none

/-- The four line-item calls of the demo flow on `orderA`. -/
def demoCalls : List Call :=
  [Call.add "PZ02" (some 2), Call.add "DR01" (some 3), Call.add "DS01" (some 1),
    Call.remove "DR01" (some 1)]

/-- The catalog entry of a sku, found by the entry's own `sku` field; `none` when
no entry has that sku. -/
def catalogEntry (sku : String) : Option MenuItem :=
  (menu.map Prod.snd).find? (fun m => m.sku == sku)

/-- The ticket item the specification describes for a line: the sku and qty of
the line with the name and category of the catalog. -/
def specTicketItem (l : Line) : TicketItem :=
  { sku := l.sku, name := (catalogEntry l.sku).map MenuItem.name,
    category := (catalogEntry l.sku).map MenuItem.category, qty := l.qty }

/-- A sample kitchen queue: one ticket of another order, then the ticket of the
sample order. -/
def sampleQueue : List KitchenTicket :=
  [ { id := "ORD-B", table := 3, server := "Omar",
      ticketItems := [{ sku := "PS01", name := some "Caesar Salad",
                        category := some "salad", qty := 1 }],
      meta := { status := "SENT_TO_KITCHEN", coupon := none, createdAt := 1 } },
    { id := "ORD-A", table := 12, server := "Mariam",
      ticketItems := [{ sku := "PZ02", name := some "Pepperoni Pizza",
                        category := some "pizza", qty := 2 },
                      { sku := "DR01", name := some "Fresh Lemon Juice",
                        category := some "drink", qty := 3 }],
      meta := { status := "SENT_TO_KITCHEN", coupon := some "WELCOME10", createdAt := 0 } } ]

end Restaurant

/-! # Cart checkout (`Cart&Customer_Validation.js`) -/

namespace Cart

/-- The conversion `ToInt32` on an integer: the value of `n | 0`. -/
def toInt32 (n : ℤ) : ℤ := (n + 2 ^ 31) % 2 ^ 32 - 2 ^ 31

/-- One line of `cart`, a non-null object whose `price` and `qty` are numbers. -/
structure CartItem where
  sku : String
  name : String
  price : ℚ
  qty : ℚ
  coupon : Option String
  deriving DecidableEq, Repr

/-- The helper `applyCoupon(base, coupon)`. The `console.warn` of the default case
has no effect on the result. -/
def applyCoupon (base : ℚ) (coupon : Option String) : ℚ :=
  match coupon with
  | some "PERCENT10" => base * (1 / 10)
  | some "FLAT20" => min 20 base
  | none => 0
  | some _ => 0

/-- The helper `computeLineTotal(item)`; the guards on `null` and on `typeof` hold
by the type of `CartItem`. -/
def computeLineTotal (item : CartItem) : ℚ :=
  if item.price ≤ 0 ∨ item.qty ≤ 0 then 0
  else
    let base := item.price * item.qty
    let discount := applyCoupon base item.coupon
    base - discount

/-- The `for...of` loop of `processOrder` over the cart, from the running
`itemsTotal`: invalid lines are skipped, and the line `FRAUD-999` ends the loop
after it has been counted. -/
def itemsLoop (itemsTotal : ℚ) : List CartItem → ℚ
  | [] => itemsTotal
  | item :: rest =>
    if item.price ≤ 0 ∨ item.qty ≤ 0 then itemsLoop itemsTotal rest
    else if item.sku = "FRAUD-999" then itemsTotal + computeLineTotal item
    else itemsLoop (itemsTotal + computeLineTotal item) rest

/-- The `while` loop of `processOrder`, from the running `loyaltyDiscount` and
`points`; it returns both as the loop leaves them. -/
def loyaltyLoop (itemsTotal : ℚ) (loyaltyDiscount : ℚ) (points : ℤ) : ℚ × ℤ :=
  if points ≥ 10 ∧ itemsTotal - loyaltyDiscount > 0 then
    loyaltyLoop itemsTotal (loyaltyDiscount + 10) (points - 10)
  else (loyaltyDiscount, points)
termination_by points.toNat
decreasing_by omega

/-- The `do...while` loop of `processOrder` that simulates the payment, from the
running `attempt`; it returns `attempt` and `paid` as the loop leaves them. -/
def paymentLoop (attempt : Nat) : Nat × Bool :=
  if ¬ (attempt + 1 ≥ 2) ∧ attempt + 1 < 3 then paymentLoop (attempt + 1)
  else (attempt + 1, decide (attempt + 1 ≥ 2))
termination_by 3 - attempt
decreasing_by omega

/-- The object `totals` of the result of `processOrder`. -/
structure OrderTotals where
  itemsTotal : ℚ
  shipping : ℚ
  taxes : ℚ
  loyaltyDiscount : ℚ
  grandTotal : ℚ
  deriving DecidableEq, Repr

/-- The result object of `processOrder`. -/
structure ProcessResult where
  ok : Bool
  totals : OrderTotals
  remainingPoints : ℤ
  attempts : Nat
  deriving DecidableEq, Repr

/-- The function `processOrder(customer, cart)`. Of the customer only the integer
`loyaltyPoints` enters the result; the other fields feed the console output. -/
def processOrder (loyaltyPoints : ℤ) (cart : List CartItem) : ProcessResult :=
  let itemsTotal := itemsLoop 0 cart
  let shipping : ℚ := if itemsTotal ≥ 200 then 0 else 30
  let taxes := itemsTotal * (1 / 10)
  let loyalty := loyaltyLoop itemsTotal 0 (toInt32 loyaltyPoints)
  let payment := paymentLoop 0
  let grandTotal := max 0 (itemsTotal + shipping + taxes - loyalty.1)
  { ok := payment.2,
    totals := { itemsTotal := itemsTotal, shipping := shipping, taxes := taxes,
                loyaltyDiscount := loyalty.1, grandTotal := grandTotal },
    remainingPoints := loyalty.2,
    attempts := payment.1 }

/-- The mock `cart` of the script. -/
def cart : List CartItem :=
  [ { sku := "BK-100", name := "JS Book", price := 120, qty := 1, coupon := some "PERCENT10" },
    { sku := "HD-500", name := "Headphones", price := 300, qty := 1, coupon := none },
    { sku := "CS-200", name := "Course Voucher", price := 0, qty := 1, coupon := some "FLAT20" },
    { sku := "KB-220", name := "Keyboard", price := 210, qty := 0, coupon := some "UNKNOWN" } ]

end Cart

/-! # Student notes (`Student_Notes_System.js`) -/

namespace Students

/-- A JavaScript number: a finite value, `NaN`, `Infinity` or `-Infinity`. -/
inductive Num where
  | fin (q : ℚ)
  | nan
  | posInf
  | negInf
  deriving DecidableEq, Repr

/-- The function `Math.min(a, b)`. -/
def Num.min : Num → Num → Num
  | Num.nan, _ => Num.nan
  | _, Num.nan => Num.nan
  | Num.negInf, _ => Num.negInf
  | _, Num.negInf => Num.negInf
  | Num.posInf, b => b
  | a, Num.posInf => a
  | Num.fin a, Num.fin b => Num.fin (Min.min a b)

/-- The function `Math.max(a, b)`. -/
def Num.max : Num → Num → Num
  | Num.nan, _ => Num.nan
  | _, Num.nan => Num.nan
  | Num.posInf, _ => Num.posInf
  | _, Num.posInf => Num.posInf
  | Num.negInf, b => b
  | a, Num.negInf => a
  | Num.fin a, Num.fin b => Num.fin (Max.max a b)

/-- The helper `isNumber(x)` on a number: `typeof x === "number"` holds and
`Number.isFinite(x)` decides. -/
def isNumber (x : Num) : Bool :=
  match x with
  | Num.fin _ => true
  | _ => false

/-- The helper `clamp20 = (n) => Math.max(0, Math.min(20, n))`. -/
def clamp20 (n : Num) : Num := Num.max (Num.fin 0) (Num.min (Num.fin 20) n)

/-- One element of the student list. -/
structure Student where
  id : ℤ
  name : String
  grades : List Num
  deriving DecidableEq, Repr

/-- What `addStudent` and `addGrade` can throw. -/
inductive StudentErr where
  /-- The error `new Error("id and name are required")`. -/
  | idAndNameRequired
  /-- The error `new Error("Duplicate id")`. -/
  | duplicateId
  /-- The error `new Error("Student not found")`. -/
  | studentNotFound
  /-- The error `new Error("Invalid grade")`. -/
  | invalidGrade
  deriving DecidableEq, Repr

/-- The result of a call on the mutable student list: what it threw, if anything,
and the list as the call leaves it. -/
structure ListOutcome where
  thrown : Option StudentErr
  list : List Student
  deriving DecidableEq, Repr

/-- The second argument `{ id, name, grades = [] }` of `addStudent`; a field that is
`undefined` is `none`. The grades are values of any kind, of type `Val`. -/
structure NewStudent (Val : Type) where
  id : Option ℤ
  name : Option String
  grades : Option (List Val)

/-- The function `addStudent(list, { id, name, grades = [] })`. The built-in
conversion `Number` of a value to a number is the argument `Number`. An id is
falsy when it is absent or 0, a name when it is absent or empty. -/
def addStudent {Val : Type} (Number : Val → Num) (list : List Student)
    (arg : NewStudent Val) : ListOutcome :=
  match arg.id, arg.name with
  | none, _ => { thrown := some StudentErr.idAndNameRequired, list := list }
  | _, none => { thrown := some StudentErr.idAndNameRequired, list := list }
  | some id, some name =>
    if id = 0 ∨ name = "" then
      { thrown := some StudentErr.idAndNameRequired, list := list }
    else if list.any (fun s => s.id == id) then
      { thrown := some StudentErr.duplicateId, list := list }
    else
      let safeGrades := (((arg.grades.getD []).map Number).filter isNumber).map clamp20
      { thrown := none, list := list ++ [{ id := id, name := name, grades := safeGrades }] }

/-- The function `addGrade(list, id, grade)`: the student found by `list.find` is the
one at the position of the first match, and its `grades` array is pushed to in
place. -/
def addGrade {Val : Type} (Number : Val → Num) (list : List Student) (id : ℤ)
    (grade : Val) : ListOutcome :=
  match Restaurant.findIndex (fun s : Student => s.id == id) list with
  | none => { thrown := some StudentErr.studentNotFound, list := list }
  | some i =>
    let g := clamp20 (Number grade)
    if !isNumber g then { thrown := some StudentErr.invalidGrade, list := list }
    else
      { thrown := none,
        list := list.modify (fun s => { s with grades := s.grades ++ [g] }) i }

/-- The initial `students` of the script. -/
def students : List Student :=
  [ { id := 1, name := "Hamza", grades := [Num.fin 14, Num.fin 16, Num.fin 12, Num.fin 18] },
    { id := 2, name := "Sara", grades := [Num.fin 8, Num.fin 9, Num.fin 7, Num.fin 10] },
    { id := 3, name := "Youssef", grades := [Num.fin 15, Num.fin 13, Num.fin 17] },
    { id := 4, name := "Lina", grades := [Num.fin 19, Num.fin 18, Num.fin 20] } ]

/-- A grade lies in the range 0 to 20: it is a finite number `q` with
`0 ≤ q ≤ 20`. -/
def inRange (g : Num) : Prop :=
  match g with
  | Num.fin q => 0 ≤ q ∧ q ≤ 20
  | _ => False

/-- Every stored grade of every student lies in the range 0 to 20. -/
def GradesInRange (list : List Student) : Prop :=
  ∀ s ∈ list, ∀ g ∈ s.grades, inRange g

/-- The grades the specification has `addStudent` store: a finite number clamped to
the range 0 to 20, anything else dropped. -/
def specSafeGrades {Val : Type} (Number : Val → Num) (grades : List Val) : List Num :=
  grades.filterMap (fun v =>
    match Number v with
    | Num.fin q => some (Num.fin (max 0 (min 20 q)))
    | _ => none)

end Students

namespace Restaurant

/-! ## Discount engine: properties -/

/-- C1 (as amended): for a non-negative subtotal `computeDiscount` returns a number
`d` with `0 ≤ d`; `d` is the flat 5 for the coupon DRINKS5, and `d ≤ subtotal`
holds for every other coupon value and for DRINKS5 when `5 ≤ subtotal`. -/
theorem computeDiscount_bounds (s : ℚ) (hs : 0 ≤ s) (coupon : Option String) :
    ∃ d : ℚ, computeDiscount (JsNum.val s) coupon = JsNum.val d ∧ 0 ≤ d ∧
      (coupon = some "DRINKS5" → d = 5) ∧
      ((coupon ≠ some "DRINKS5" ∨ 5 ≤ s) → d ≤ s) := by
  unfold computeDiscount
  split
  · refine ⟨Min.min 10 (s * (1 / 10)), by simp [JsNum.min, JsNum.mul], ?_, by simp, ?_⟩
    · exact le_min (by norm_num) (by positivity)
    · intro _
      exact le_trans (min_le_right _ _) (by linarith)
  · refine ⟨5, rfl, by norm_num, fun _ => rfl, ?_⟩
    rintro (h | h)
    · exact absurd rfl h
    · exact h
  · exact ⟨0, rfl, le_refl _, by simp, fun _ => hs⟩
  · exact ⟨0, rfl, le_refl _, by intro h; simp_all, fun _ => hs⟩

/-- Witness of `computeDiscount_bounds`: subtotal 214 with the coupon WELCOME10. -/
theorem computeDiscount_bounds_witness :
    ∃ d : ℚ, computeDiscount (JsNum.val 214) (some "WELCOME10") = JsNum.val d ∧ 0 ≤ d ∧
      (some "WELCOME10" = some "DRINKS5" → d = 5) ∧
      (((some "WELCOME10" : Option String) ≠ some "DRINKS5" ∨ (5 : ℚ) ≤ 214) → d ≤ 214) :=
  computeDiscount_bounds 214 (by norm_num) (some "WELCOME10")

/-- C1 (counterexample): with subtotal 3 and the coupon DRINKS5 the discount is 5,
so no `d` with `0 ≤ d ≤ 3` is returned. -/
theorem computeDiscount_drinks5_exceeds_subtotal :
    computeDiscount (JsNum.val 3) (some "DRINKS5") = JsNum.val 5 ∧
      ¬ ∃ d : ℚ, computeDiscount (JsNum.val 3) (some "DRINKS5") = JsNum.val d ∧
        0 ≤ d ∧ d ≤ 3 := by
  refine ⟨rfl, ?_⟩
  rintro ⟨d, hd, _, h3⟩
  have h5 : computeDiscount (JsNum.val 3) (some "DRINKS5") = JsNum.val 5 := rfl
  rw [h5] at hd
  injection hd with hd
  rw [← hd] at h3
  norm_num at h3

/-! ## Status state machine: properties -/

/-- On each of the five statuses the table of `setStatus` is the table of the
specification. -/
theorem lookup_transitions (status : String) (h : status ∈ statuses) :
    transitions.lookup status = some (specAllowedTargets status) := by
  simp only [statuses, List.mem_cons, List.mem_singleton, List.not_mem_nil, or_false] at h
  rcases h with h | h | h | h | h <;> subst h <;> decide

/-- How `setStatus` behaves on an order whose status is one of the five. -/
theorem setStatus_eq (order : Order) (next : String) (h : order.status ∈ statuses) :
    setStatus order next =
      if next ∈ specAllowedTargets order.status then
        { thrown := none, order := { order with status := next } }
      else
        { thrown := some (Err.invalidTransition order.status next), order := order } := by
  unfold setStatus
  rw [lookup_transitions _ h]
  by_cases hn : next ∈ specAllowedTargets order.status <;> simp [hn]

/-- C2: on an order whose status is one of the five, `setStatus` throws exactly when
`next` is not an allowed target of the current status; when it throws the order
is unmodified, and when it succeeds only the status changed, to `next`. -/
theorem setStatus_raises_iff (order : Order) (next : String)
    (h : order.status ∈ statuses) :
    ((setStatus order next).thrown ≠ none ↔ next ∉ specAllowedTargets order.status) ∧
    ((setStatus order next).thrown ≠ none →
      (setStatus order next).thrown = some (Err.invalidTransition order.status next) ∧
      (setStatus order next).order = order) ∧
    ((setStatus order next).thrown = none →
      (setStatus order next).order = { order with status := next }) := by
  rw [setStatus_eq order next h]
  by_cases hn : next ∈ specAllowedTargets order.status <;> simp [hn]

/-- Witness of `setStatus_raises_iff`: a fresh order, asked to go to SERVED. -/
theorem setStatus_raises_iff_witness :
    ((setStatus (createOrder "ORD-A" 0 12 "Mariam" none) "SERVED").thrown ≠ none ↔
      "SERVED" ∉ specAllowedTargets (createOrder "ORD-A" 0 12 "Mariam" none).status) ∧
    ((setStatus (createOrder "ORD-A" 0 12 "Mariam" none) "SERVED").thrown ≠ none →
      (setStatus (createOrder "ORD-A" 0 12 "Mariam" none) "SERVED").thrown =
        some (Err.invalidTransition (createOrder "ORD-A" 0 12 "Mariam" none).status "SERVED") ∧
      (setStatus (createOrder "ORD-A" 0 12 "Mariam" none) "SERVED").order =
        createOrder "ORD-A" 0 12 "Mariam" none) ∧
    ((setStatus (createOrder "ORD-A" 0 12 "Mariam" none) "SERVED").thrown = none →
      (setStatus (createOrder "ORD-A" 0 12 "Mariam" none) "SERVED").order =
        { createOrder "ORD-A" 0 12 "Mariam" none with status := "SERVED" }) :=
  setStatus_raises_iff (createOrder "ORD-A" 0 12 "Mariam" none) "SERVED" (by decide)

/-- One step of `statusTrace` on an order whose status is one of the five. -/
theorem statusTrace_cons (order : Order) (next : String) (rest : List String)
    (h : order.status ∈ statuses) :
    statusTrace order (next :: rest) =
      if next ∈ specAllowedTargets order.status then
        (statusTrace { order with status := next } rest).map (fun t => order.status :: t)
      else none := by
  simp only [statusTrace]
  rw [setStatus_eq order next h]
  by_cases hn : next ∈ specAllowedTargets order.status <;> simp [hn]

/-- Every allowed target is one of the five statuses. -/
theorem specAllowedTargets_subset (status next : String)
    (h : next ∈ specAllowedTargets status) : next ∈ statuses := by
  unfold specAllowedTargets at h
  split_ifs at h
  · simp only [List.mem_cons, List.mem_singleton, List.not_mem_nil, or_false] at h
    rcases h with h | h <;> subst h <;> decide
  · simp only [List.mem_cons, List.mem_singleton, List.not_mem_nil, or_false] at h
    rcases h with h | h <;> subst h <;> decide
  · simp only [List.mem_cons, List.mem_singleton, List.not_mem_nil, or_false] at h
    subst h; decide
  · simp at h

/-- A successful call leaves the order in the status asked for. -/
theorem setStatus_status (order : Order) (next : String)
    (h : (setStatus order next).thrown = none) : (setStatus order next).order.status = next := by
  unfold setStatus at h ⊢
  split at h
  · split_ifs at h with hc
    rw [if_pos hc]
  · split_ifs at h

/-- A successful trace is the starting status followed by the targets asked for. -/
theorem statusTrace_eq (targets : List String) :
    ∀ (order : Order) (trace : List String),
      statusTrace order targets = some trace → trace = order.status :: targets := by
  induction targets with
  | nil => intro order trace h; simp [statusTrace] at h; exact h.symm
  | cons next rest ih =>
    intro order trace h
    simp only [statusTrace] at h
    split at h
    · exact absurd h (by simp)
    · rename_i hnone
      simp only [Option.map_eq_some'] at h
      obtain ⟨t, ht, rfl⟩ := h
      rw [ih _ t ht, setStatus_status order next hnone]

/-- A trace is never empty. -/
theorem statusTrace_ne_nil (targets : List String) :
    ∀ (order : Order) (trace : List String),
      statusTrace order targets = some trace → trace ≠ [] := by
  induction targets with
  | nil => intro order trace h; simp [statusTrace] at h; subst h; simp
  | cons next rest _ =>
    intro order trace h
    simp only [statusTrace] at h
    split at h
    · exact absurd h (by simp)
    · simp only [Option.map_eq_some'] at h
      obtain ⟨t, _, rfl⟩ := h
      simp

/-- A successful trace that ends in PAID is the tail of the one path to PAID that
starts at the status of the order. -/
theorem statusTrace_paid (targets : List String) :
    ∀ (order : Order) (trace : List String), order.status ∈ statuses →
      statusTrace order targets = some trace → trace.getLast? = some "PAID" →
      (order.status = "OPEN" ∧ trace = ["OPEN", "SENT_TO_KITCHEN", "SERVED", "PAID"]) ∨
      (order.status = "SENT_TO_KITCHEN" ∧ trace = ["SENT_TO_KITCHEN", "SERVED", "PAID"]) ∨
      (order.status = "SERVED" ∧ trace = ["SERVED", "PAID"]) ∨
      (order.status = "PAID" ∧ trace = ["PAID"]) := by
  induction targets with
  | nil =>
    intro order trace _ h hl
    simp only [statusTrace, Option.some.injEq] at h
    subst h
    simp only [List.getLast?_singleton, Option.some.injEq] at hl
    simp [hl]
  | cons next rest ih =>
    intro order trace hs h hl
    rw [statusTrace_cons order next rest hs] at h
    split_ifs at h with hn
    simp only [Option.map_eq_some'] at h
    obtain ⟨t, ht, rfl⟩ := h
    have hne : t ≠ [] := statusTrace_ne_nil rest _ t ht
    have hl2 : t.getLast? = some "PAID" := by
      cases t with
      | nil => exact absurd rfl hne
      | cons a as => simpa [List.getLast?_cons_cons] using hl
    have hnext := ih { order with status := next } t
      (specAllowedTargets_subset _ _ hn) ht hl2
    simp only at hnext
    unfold specAllowedTargets at hn
    split_ifs at hn with h1 h2 h3
    · simp only [List.mem_cons, List.mem_singleton, List.not_mem_nil, or_false] at hn
      rcases hn with hn | hn <;> subst hn <;> simp_all
    · simp only [List.mem_cons, List.mem_singleton, List.not_mem_nil, or_false] at hn
      rcases hn with hn | hn <;> subst hn <;> simp_all
    · simp only [List.mem_cons, List.mem_singleton, List.not_mem_nil, or_false] at hn
      subst hn
      simp_all
    · simp at hn

/-- C3: on an order in status OPEN, `setStatus(order, "PAID")` throws, and every
sequence of successful `setStatus` calls that ends in PAID visits exactly
OPEN, SENT_TO_KITCHEN, SERVED, PAID. -/
theorem paid_only_through_kitchen_and_served (order : Order) (h : order.status = "OPEN") :
    (setStatus order "PAID").thrown = some (Err.invalidTransition "OPEN" "PAID") ∧
    (setStatus order "PAID").order = order ∧
    statusTrace order ["SENT_TO_KITCHEN", "SERVED", "PAID"] =
      some ["OPEN", "SENT_TO_KITCHEN", "SERVED", "PAID"] ∧
    ∀ (targets trace : List String), statusTrace order targets = some trace →
      trace.getLast? = some "PAID" →
      trace = ["OPEN", "SENT_TO_KITCHEN", "SERVED", "PAID"] ∧
      targets = ["SENT_TO_KITCHEN", "SERVED", "PAID"] := by
  have hs : order.status ∈ statuses := by rw [h]; decide
  refine ⟨?_, ?_, ?_, ?_⟩
  · rw [setStatus_eq order "PAID" hs, h]; rfl
  · rw [setStatus_eq order "PAID" hs, h]; rfl
  · rw [statusTrace_cons _ _ _ hs, h, if_pos (by decide),
      statusTrace_cons _ _ _ (by simp [statuses]), if_pos (by simp [specAllowedTargets]),
      statusTrace_cons _ _ _ (by simp [statuses]), if_pos (by simp [specAllowedTargets])]
    rfl
  · intro targets trace ht hl
    have hpath := statusTrace_paid targets order trace hs ht hl
    have htr : trace = ["OPEN", "SENT_TO_KITCHEN", "SERVED", "PAID"] := by
      rcases hpath with ⟨_, ht⟩ | ⟨h2, _⟩ | ⟨h2, _⟩ | ⟨h2, _⟩
      · exact ht
      · rw [h] at h2; exact absurd h2 (by decide)
      · rw [h] at h2; exact absurd h2 (by decide)
      · rw [h] at h2; exact absurd h2 (by decide)
    refine ⟨htr, ?_⟩
    have heq := statusTrace_eq targets order trace ht
    rw [htr, h] at heq
    exact (List.cons.inj heq).2.symm

/-- Witness of `paid_only_through_kitchen_and_served`: the order `createOrder` builds. -/
theorem paid_only_through_kitchen_and_served_witness :
    (setStatus (createOrder "ORD-A" 0 12 "Mariam" (some "WELCOME10")) "PAID").thrown =
      some (Err.invalidTransition "OPEN" "PAID") ∧
    (setStatus (createOrder "ORD-A" 0 12 "Mariam" (some "WELCOME10")) "PAID").order =
      createOrder "ORD-A" 0 12 "Mariam" (some "WELCOME10") ∧
    statusTrace (createOrder "ORD-A" 0 12 "Mariam" (some "WELCOME10"))
        ["SENT_TO_KITCHEN", "SERVED", "PAID"] =
      some ["OPEN", "SENT_TO_KITCHEN", "SERVED", "PAID"] ∧
    ∀ (targets trace : List String),
      statusTrace (createOrder "ORD-A" 0 12 "Mariam" (some "WELCOME10")) targets = some trace →
      trace.getLast? = some "PAID" →
      trace = ["OPEN", "SENT_TO_KITCHEN", "SERVED", "PAID"] ∧
      targets = ["SENT_TO_KITCHEN", "SERVED", "PAID"] :=
  paid_only_through_kitchen_and_served (createOrder "ORD-A" 0 12 "Mariam" (some "WELCOME10")) rfl

/-! ## Array helpers: properties -/

/-- The search `findIndex` fails exactly when no element satisfies the predicate. -/
theorem findIndex_eq_none {α : Type} (p : α → Bool) (l : List α) :
    findIndex p l = none ↔ ∀ x ∈ l, p x = false := by
  induction l with
  | nil => simp [findIndex]
  | cons a as ih =>
    by_cases ha : p a = true
    · simp [findIndex, ha]
    · simp [findIndex, ha, ih]

/-- The search `findIndex` stops at the first element that satisfies the predicate. -/
theorem findIndex_append {α : Type} (p : α → Bool) (pre : List α) (x : α) (post : List α)
    (hpre : ∀ y ∈ pre, p y = false) (hx : p x = true) :
    findIndex p (pre ++ x :: post) = some pre.length := by
  induction pre with
  | nil => simp [findIndex, hx]
  | cons a as ih =>
    have ha : p a = false := hpre a (List.mem_cons_self _ _)
    have has : ∀ y ∈ as, p y = false := fun y hy => hpre y (List.mem_cons_of_mem _ hy)
    simp [findIndex, ha, ih has]

/-- A list with an element that satisfies the predicate splits at the first one. -/
theorem exists_first_split {α : Type} (p : α → Bool) (l : List α)
    (h : ∃ x ∈ l, p x = true) :
    ∃ pre x post, l = pre ++ x :: post ∧ (∀ y ∈ pre, p y = false) ∧ p x = true := by
  induction l with
  | nil => simp at h
  | cons a as ih =>
    by_cases ha : p a = true
    · exact ⟨[], a, as, rfl, by simp, ha⟩
    · have hex : ∃ x ∈ as, p x = true := by
        obtain ⟨x, hx, hpx⟩ := h
        rcases List.mem_cons.mp hx with rfl | hx
        · exact absurd hpx ha
        · exact ⟨x, hx, hpx⟩
      obtain ⟨pre, x, post, hl, hpre, hx⟩ := ih hex
      refine ⟨a :: pre, x, post, by simp [hl], ?_, hx⟩
      intro y hy
      rcases List.mem_cons.mp hy with rfl | hy
      · simp [ha]
      · exact hpre y hy

/-- Updating the element right after a prefix. -/
theorem modify_append_cons {α : Type} (f : α → α) (pre : List α) (x : α) (post : List α) :
    (pre ++ x :: post).modify f pre.length = pre ++ f x :: post := by
  induction pre with
  | nil => simp
  | cons a as ih => simp [ih]

/-- Reading the element right after a prefix. -/
theorem getElem?_append_cons {α : Type} (pre : List α) (x : α) (post : List α) :
    (pre ++ x :: post)[pre.length]? = some x := by
  induction pre with
  | nil => simp
  | cons a as ih => simpa using ih

/-- Overwriting the element right after a prefix. -/
theorem set_append_cons {α : Type} (pre : List α) (x y : α) (post : List α) :
    (pre ++ x :: post).set pre.length y = pre ++ y :: post := by
  induction pre with
  | nil => simp
  | cons a as ih => simp [ih]

/-- Deleting the element right after a prefix. -/
theorem eraseIdx_append_cons {α : Type} (pre : List α) (x : α) (post : List α) :
    (pre ++ x :: post).eraseIdx pre.length = pre ++ post := by
  induction pre with
  | nil => simp
  | cons a as ih => simpa using ih

/-! ## Line-item mutation: characterisation -/

/-- The call `addItem` throws `Unknown SKU` when `menu[sku]` resolves to nothing, and
leaves the order as it was. -/
theorem addItem_unresolved (order : Order) (sku : String) (qty : Option ℤ)
    (h : getItem sku = none) :
    addItem order sku qty = { thrown := some (Err.unknownSku sku), order := order } := by
  simp [addItem, h]

/-- The call `addItem` on a sku that resolves and has a line: the first such line is
incremented. -/
theorem addItem_found (order : Order) (sku : String) (qty : Option ℤ)
    (pre : List Line) (l : Line) (post : List Line)
    (h : getItem sku ≠ none) (hitems : order.items = pre ++ l :: post)
    (hpre : ∀ y ∈ pre, y.sku ≠ sku) (hl : l.sku = sku) :
    addItem order sku qty =
      { thrown := none,
        order := { order with
          items := pre ++ { sku := sku, qty := l.qty + qty.getD 1 } :: post } } := by
  obtain ⟨v, hv⟩ := Option.ne_none_iff_exists'.mp h
  have hfind : findIndex (fun l => l.sku == sku) order.items = some pre.length := by
    rw [hitems]
    exact findIndex_append _ pre l post (by simpa using hpre) (by simpa using hl)
  simp only [addItem, hv, hfind]
  rw [hitems, modify_append_cons, hl]

/-- The call `addItem` on a sku that resolves and has no line: a line is appended. -/
theorem addItem_absent (order : Order) (sku : String) (qty : Option ℤ)
    (h : getItem sku ≠ none) (hnone : ∀ y ∈ order.items, y.sku ≠ sku) :
    addItem order sku qty =
      { thrown := none,
        order := { order with
          items := order.items ++ [{ sku := sku, qty := qty.getD 1 }] } } := by
  obtain ⟨v, hv⟩ := Option.ne_none_iff_exists'.mp h
  have hfind : findIndex (fun l => l.sku == sku) order.items = none :=
    (findIndex_eq_none _ _).mpr (by simpa using hnone)
  simp only [addItem, hv, hfind]

/-- The call `removeItem` on a sku that has no line returns the order as it was. -/
theorem removeItem_absent (order : Order) (sku : String) (qty : Option ℤ)
    (hnone : ∀ y ∈ order.items, y.sku ≠ sku) :
    removeItem order sku qty = { thrown := none, order := order } := by
  have hfind : findIndex (fun l => l.sku == sku) order.items = none :=
    (findIndex_eq_none _ _).mpr (by simpa using hnone)
  simp only [removeItem, hfind]

/-- The call `removeItem` on a sku that has a line: the first such line is
decremented, and deleted when its quantity is then `≤ 0`. -/
theorem removeItem_found (order : Order) (sku : String) (qty : Option ℤ)
    (pre : List Line) (l : Line) (post : List Line)
    (hitems : order.items = pre ++ l :: post)
    (hpre : ∀ y ∈ pre, y.sku ≠ sku) (hl : l.sku = sku) :
    removeItem order sku qty =
      { thrown := none,
        order := { order with
          items := if l.qty - qty.getD 1 ≤ 0 then pre ++ post
            else pre ++ { sku := sku, qty := l.qty - qty.getD 1 } :: post } } := by
  have hfind : findIndex (fun l => l.sku == sku) order.items = some pre.length := by
    rw [hitems]
    exact findIndex_append _ pre l post (by simpa using hpre) (by simpa using hl)
  simp only [removeItem, hfind]
  rw [hitems, getElem?_append_cons]
  simp only [set_append_cons, eraseIdx_append_cons, hl]
  split_ifs <;> rfl

/-- Every key of the menu catalog resolves to its menu item. -/
theorem getItem_of_mem_menuKeys (sku : String) (h : sku ∈ menuKeys) :
    ∃ m : MenuItem, getItem sku = some (MenuValue.item m) ∧ m.sku = sku := by
  simp only [menuKeys, menu, List.map_cons, List.map_nil, List.mem_cons, List.mem_singleton,
    List.not_mem_nil, or_false] at h
  rcases h with h | h | h | h | h | h <;> subst h <;> exact ⟨_, rfl, rfl⟩

/-- Every key of the menu catalog resolves. -/
theorem getItem_ne_none_of_mem_menuKeys (sku : String) (h : sku ∈ menuKeys) :
    getItem sku ≠ none := by
  obtain ⟨m, hm, _⟩ := getItem_of_mem_menuKeys sku h
  simp [hm]

/-- The lookup `getItem` resolves to nothing exactly for the names that are neither
catalog keys nor inherited from `Object.prototype`. -/
theorem getItem_eq_none_iff (sku : String) :
    getItem sku = none ↔ sku ∉ menuKeys ∧ sku ∉ objectPrototypeKeys := by
  constructor
  · intro h
    constructor
    · intro hk
      exact getItem_ne_none_of_mem_menuKeys sku hk h
    · intro hk
      simp only [getItem, menuGet] at h
      split at h
      · simp at h
      · simp [hk] at h
  · rintro ⟨hk, hp⟩
    have hlook : menu.lookup sku = none := by
      cases hl : menu.lookup sku with
      | none => rfl
      | some m =>
        exfalso
        apply hk
        simp only [menu, List.lookup] at hl
        simp only [menuKeys, menu, List.map_cons, List.map_nil, List.mem_cons,
          List.mem_singleton, List.not_mem_nil, or_false]
        repeat (split at hl; · rename_i he; simp at he; simp [he])
        simp at hl
    simp [getItem, menuGet, hlook, hp]

/-- The call `addItem` throws exactly when `menu[sku]` resolves to nothing; it then
throws `Unknown SKU` and leaves the order as it was. -/
theorem addItem_throws_iff (order : Order) (sku : String) (qty : Option ℤ) :
    ((addItem order sku qty).thrown ≠ none ↔ getItem sku = none) ∧
    (getItem sku = none →
      addItem order sku qty = { thrown := some (Err.unknownSku sku), order := order }) := by
  refine ⟨?_, addItem_unresolved order sku qty⟩
  cases hg : getItem sku with
  | none => simp [addItem, hg]
  | some v =>
    simp only [addItem, hg]
    split <;> simp

/-- C4 (failing input): `"toString"` is not a key of the menu catalog, yet
`addItem(order, { sku: "toString" })` does not throw: `menu["toString"]` is the
method inherited from `Object.prototype`, and a line for it is appended. -/
theorem addItem_accepts_inherited_name :
    "toString" ∉ menuKeys ∧
    (addItem (createOrder "ORD-A" 0 12 "Mariam" none) "toString" none).thrown = none ∧
    (addItem (createOrder "ORD-A" 0 12 "Mariam" none) "toString" none).order.items =
      [{ sku := "toString", qty := 1 }] := by
  decide

/-- In exact integer arithmetic: for a catalog sku `addItem` does not throw and changes no field other than
`items`; when a line for the sku exists, the first such line has its `qty`
incremented by the given quantity, every other line, the line order and the
length staying as they were; otherwise the line `{ sku, qty }` is appended
after the existing lines; an omitted `qty` counts as 1. -/
theorem addItem_exact (order : Order) (sku : String) (qty : Option ℤ)
    (h : sku ∈ menuKeys) :
    (addItem order sku qty).thrown = none ∧
    (addItem order sku qty).order =
      { order with items := (addItem order sku qty).order.items } ∧
    ((∃ l ∈ order.items, l.sku = sku) →
      ∃ pre l post, order.items = pre ++ l :: post ∧ (∀ y ∈ pre, y.sku ≠ sku) ∧
        l.sku = sku ∧
        (addItem order sku qty).order.items =
          pre ++ { sku := sku, qty := l.qty + qty.getD 1 } :: post ∧
        (addItem order sku qty).order.items.length = order.items.length) ∧
    ((∀ l ∈ order.items, l.sku ≠ sku) →
      (addItem order sku qty).order.items =
        order.items ++ [{ sku := sku, qty := qty.getD 1 }]) ∧
    addItem order sku none = addItem order sku (some 1) := by
  have hg := getItem_ne_none_of_mem_menuKeys sku h
  have hsplit : (∃ l ∈ order.items, l.sku = sku) →
      ∃ pre l post, order.items = pre ++ l :: post ∧ (∀ y ∈ pre, y.sku ≠ sku) ∧
        l.sku = sku := by
    intro hex
    obtain ⟨pre, l, post, hl, hpre, hx⟩ :=
      exists_first_split (fun l : Line => l.sku == sku) order.items (by simpa using hex)
    exact ⟨pre, l, post, hl, by simpa using hpre, by simpa using hx⟩
  refine ⟨?_, ?_, ?_, ?_, rfl⟩
  · by_cases hex : ∃ l ∈ order.items, l.sku = sku
    · obtain ⟨pre, l, post, hl, hpre, hx⟩ := hsplit hex
      rw [addItem_found order sku qty pre l post hg hl hpre hx]
    · rw [addItem_absent order sku qty hg (by simpa using hex)]
  · by_cases hex : ∃ l ∈ order.items, l.sku = sku
    · obtain ⟨pre, l, post, hl, hpre, hx⟩ := hsplit hex
      rw [addItem_found order sku qty pre l post hg hl hpre hx]
    · rw [addItem_absent order sku qty hg (by simpa using hex)]
  · intro hex
    obtain ⟨pre, l, post, hl, hpre, hx⟩ := hsplit hex
    refine ⟨pre, l, post, hl, hpre, hx, ?_, ?_⟩
    · rw [addItem_found order sku qty pre l post hg hl hpre hx]
    · rw [addItem_found order sku qty pre l post hg hl hpre hx, hl]
      simp
  · intro hno
    rw [addItem_absent order sku qty hg hno]

/-- In exact integer arithmetic: on an order whose lines are unique by sku with positive quantities, for a
catalog sku and a positive `q`, `addItem` followed by `removeItem` with the same
sku and `q` returns normally twice and restores the order, so `order.items` is
exactly its prior sequence of lines. -/
theorem roundtrip_exact (order : Order) (sku : String) (q : ℤ)
    (_hu : (order.items.map Line.sku).Nodup) (hp : ∀ l ∈ order.items, 0 < l.qty)
    (hs : sku ∈ menuKeys) (_hq : 0 < q) :
    (addItem order sku (some q)).thrown = none ∧
    (removeItem (addItem order sku (some q)).order sku (some q)).thrown = none ∧
    (removeItem (addItem order sku (some q)).order sku (some q)).order = order ∧
    (removeItem (addItem order sku (some q)).order sku (some q)).order.items =
      order.items := by
  have hg := getItem_ne_none_of_mem_menuKeys sku hs
  by_cases hex : ∃ l ∈ order.items, (fun l : Line => l.sku == sku) l = true
  · obtain ⟨pre, l, post, hl, hpre, hx⟩ := exists_first_split _ order.items hex
    have hpre2 : ∀ y ∈ pre, y.sku ≠ sku := by simpa using hpre
    have hx2 : l.sku = sku := by simpa using hx
    have hlpos : 0 < l.qty := hp l (by rw [hl]; simp)
    rw [addItem_found order sku (some q) pre l post hg hl hpre2 hx2]
    rw [removeItem_found _ sku (some q) pre { sku := sku, qty := l.qty + q } post rfl hpre2 rfl]
    have hnot : ¬ (l.qty ≤ 0) := not_le.mpr hlpos
    have hleq : ({ sku := sku, qty := l.qty } : Line) = l := by
      cases l; simp_all
    simp only [Option.getD_some, add_sub_cancel_right, if_neg hnot, hleq, ← hl]
    exact ⟨trivial, trivial, trivial, trivial⟩
  · have hno : ∀ y ∈ order.items, y.sku ≠ sku := by simpa using hex
    rw [addItem_absent order sku (some q) hg hno]
    rw [removeItem_found _ sku (some q) order.items { sku := sku, qty := q } [] rfl hno rfl]
    simp

/-! ## Line-item invariant -/

/-- The call `addItem` with a positive quantity keeps every line positive. -/
theorem addItem_keeps_positive (order : Order) (sku : String) (qty : Option ℤ)
    (hq : 0 < qty.getD 1) (hp : ∀ l ∈ order.items, 0 < l.qty) :
    ∀ l ∈ (addItem order sku qty).order.items, 0 < l.qty := by
  cases hg : getItem sku with
  | none => rw [addItem_unresolved order sku qty hg]; exact hp
  | some v =>
    have hg2 : getItem sku ≠ none := by simp [hg]
    by_cases hex : ∃ l ∈ order.items, (fun l : Line => l.sku == sku) l = true
    · obtain ⟨pre, l, post, hl, hpre, hx⟩ := exists_first_split _ order.items hex
      rw [addItem_found order sku qty pre l post hg2 hl (by simpa using hpre)
        (by simpa using hx)]
      rw [hl] at hp
      intro x hx
      simp only [List.mem_append, List.mem_cons] at hx hp
      rcases hx with hx | rfl | hx
      · exact hp x (Or.inl hx)
      · have := hp l (Or.inr (Or.inl rfl))
        show 0 < l.qty + qty.getD 1
        omega
      · exact hp x (Or.inr (Or.inr hx))
    · rw [addItem_absent order sku qty hg2 (by simpa using hex)]
      intro x hx
      simp only [List.mem_append, List.mem_singleton] at hx
      rcases hx with hx | rfl
      · exact hp x hx
      · exact hq

/-- The call `removeItem`, whatever its quantity, keeps every line positive. -/
theorem removeItem_keeps_positive (order : Order) (sku : String) (qty : Option ℤ)
    (hp : ∀ l ∈ order.items, 0 < l.qty) :
    ∀ l ∈ (removeItem order sku qty).order.items, 0 < l.qty := by
  by_cases hex : ∃ l ∈ order.items, (fun l : Line => l.sku == sku) l = true
  · obtain ⟨pre, l, post, hl, hpre, hx⟩ := exists_first_split _ order.items hex
    rw [removeItem_found order sku qty pre l post hl (by simpa using hpre)
      (by simpa using hx)]
    rw [hl] at hp
    intro x hx
    simp only [List.mem_append, List.mem_cons] at hp
    by_cases hle : l.qty - qty.getD 1 ≤ 0
    · simp only [if_pos hle, List.mem_append] at hx
      rcases hx with hx | hx
      · exact hp x (Or.inl hx)
      · exact hp x (Or.inr (Or.inr hx))
    · simp only [if_neg hle, List.mem_append, List.mem_cons] at hx
      rcases hx with hx | rfl | hx
      · exact hp x (Or.inl hx)
      · show 0 < l.qty - qty.getD 1
        omega
      · exact hp x (Or.inr (Or.inr hx))
  · rw [removeItem_absent order sku qty (by simpa using hex)]
    exact hp

/-- A sequence of calls whose `addItem` quantities are positive keeps every line
positive. -/
theorem runCalls_keeps_positive (calls : List Call) :
    ∀ order : Order, (∀ l ∈ order.items, 0 < l.qty) →
      (∀ sku qty, Call.add sku qty ∈ calls → 0 < qty.getD 1) →
      ∀ l ∈ (runCalls order calls).items, 0 < l.qty := by
  induction calls with
  | nil => intro order hp _; exact hp
  | cons c cs ih =>
    intro order hp hq
    simp only [runCalls]
    apply ih
    · cases c with
      | add sku qty =>
        exact addItem_keeps_positive order sku qty (hq sku qty (List.mem_cons_self _ _)) hp
      | remove sku qty => exact removeItem_keeps_positive order sku qty hp
    · intro sku qty hmem
      exact hq sku qty (List.mem_cons_of_mem _ hmem)

/-- C5 (as amended): starting from the order `createOrder` builds, after each call of
a sequence of `addItem` calls with a positive quantity (or none) and
`removeItem` calls with any quantity, every line has `qty > 0`; and a
`removeItem` that brings the first line of its sku to `qty ≤ 0` removes that
line. -/
theorem lines_stay_positive (id : String) (createdAt table : Nat) (server : String)
    (coupon : Option String) (calls : List Call)
    (h : ∀ sku qty, Call.add sku qty ∈ calls → 0 < qty.getD 1) :
    (∀ n : Nat, ∀ l ∈
        (runCalls (createOrder id createdAt table server coupon) (calls.take n)).items,
      0 < l.qty) ∧
    (∀ (order : Order) (sku : String) (qty : Option ℤ) (pre : List Line) (l : Line)
        (post : List Line), order.items = pre ++ l :: post → (∀ y ∈ pre, y.sku ≠ sku) →
      l.sku = sku → l.qty - qty.getD 1 ≤ 0 →
      (removeItem order sku qty).order.items = pre ++ post) := by
  constructor
  · intro n
    apply runCalls_keeps_positive
    · intro l hl
      simp [createOrder] at hl
    · intro sku qty hmem
      exact h sku qty (List.mem_of_mem_take hmem)
  · intro order sku qty pre l post hitems hpre hl hle
    rw [removeItem_found order sku qty pre l post hitems hpre hl, if_pos hle]

/-- Witness of `lines_stay_positive`: the four calls of the demo flow. -/
theorem lines_stay_positive_witness :
    (∀ sku qty, Call.add sku qty ∈ demoCalls → 0 < qty.getD 1) ∧
    (∀ l ∈ (runCalls (createOrder "ORD-A" 0 12 "Mariam" (some "WELCOME10"))
        (demoCalls.take 4)).items, 0 < l.qty) := by
  have hcalls : ∀ sku qty, Call.add sku qty ∈ demoCalls → 0 < qty.getD 1 := by
    intro sku qty hmem
    simp only [demoCalls, List.mem_cons, List.mem_singleton, List.not_mem_nil, or_false,
      Call.add.injEq] at hmem
    rcases hmem with ⟨_, rfl⟩ | ⟨_, rfl⟩ | ⟨_, rfl⟩ | hmem
    · decide
    · decide
    · decide
    · exact absurd hmem (by simp)
  exact ⟨hcalls,
    (lines_stay_positive "ORD-A" 0 12 "Mariam" (some "WELCOME10") demoCalls hcalls).1 4⟩

/-- C5 (counterexample): on a fresh order, `addItem(order, { sku: "PZ01", qty: -2 })`
leaves a line with `qty = -2`. -/
theorem addItem_negative_qty_line :
    (runCalls (createOrder "ORD-A" 0 12 "Mariam" none) [Call.add "PZ01" (some (-2))]).items =
      [{ sku := "PZ01", qty := -2 }] ∧
    ¬ ∀ l ∈ (runCalls (createOrder "ORD-A" 0 12 "Mariam" none)
        [Call.add "PZ01" (some (-2))]).items, 0 < l.qty := by
  decide

/-! ## Totals -/

/-- Addition of `JsNum` is associative. -/
theorem jsAdd_assoc (a b c : JsNum) :
    JsNum.add (JsNum.add a b) c = JsNum.add a (JsNum.add b c) := by
  cases a <;> cases b <;> cases c <;> simp [JsNum.add, add_assoc]

/-- Adding zero changes nothing. -/
theorem jsAdd_zero (a : JsNum) : JsNum.add a (JsNum.val 0) = a := by
  cases a <;> simp [JsNum.add]

/-- The `reduce` of `computeTotals`, started from any accumulator. -/
theorem foldl_lineTotal (items : List Line) :
    ∀ acc : JsNum, items.foldl (fun sum l => JsNum.add sum (lineTotal l)) acc =
      JsNum.add acc (sumLineTotals items) := by
  induction items with
  | nil => intro acc; simp [sumLineTotals, jsAdd_zero]
  | cons a as ih =>
    intro acc
    simp only [List.foldl_cons, ih, sumLineTotals, List.map_cons, List.foldr_cons,
      jsAdd_assoc]

/-- The subtotal of `computeTotals` is the sum of the line totals. -/
theorem computeTotals_subtotal (order : Order) :
    (computeTotals order).subtotal = sumLineTotals order.items := by
  simp only [computeTotals, foldl_lineTotal]
  cases sumLineTotals order.items <;> simp [JsNum.add]

/-- The total of a line with a non-negative quantity whose sku is not a name
inherited from `Object.prototype`: the catalog price times the quantity, a sku
without catalog entry counting for nothing. -/
theorem lineTotal_eq (l : Line) (hq : 0 ≤ l.qty) (hs : l.sku ∉ objectPrototypeKeys) :
    lineTotal l = JsNum.val ((catalogPrice l.sku).getD 0 * l.qty) := by
  obtain ⟨sku, qty⟩ := l
  simp only at hq hs
  have hz : qty ≤ 0 → qty = 0 := fun h => le_antisymm h hq
  by_cases h1 : sku = "PZ01"
  · subst h1
    by_cases h0 : qty ≤ 0
    · simp [lineTotal, getItem, menuGet, menu, List.lookup, catalogPrice, hz h0]
    · simp [lineTotal, getItem, menuGet, menu, List.lookup, catalogPrice, h0, JsNum.mul]
  by_cases h2 : sku = "PZ02"
  · subst h2
    by_cases h0 : qty ≤ 0
    · simp [lineTotal, getItem, menuGet, menu, List.lookup, catalogPrice, hz h0]
    · simp [lineTotal, getItem, menuGet, menu, List.lookup, catalogPrice, h0, JsNum.mul]
  by_cases h3 : sku = "PS01"
  · subst h3
    by_cases h0 : qty ≤ 0
    · simp [lineTotal, getItem, menuGet, menu, List.lookup, catalogPrice, hz h0]
    · simp [lineTotal, getItem, menuGet, menu, List.lookup, catalogPrice, h0, JsNum.mul]
  by_cases h4 : sku = "DR01"
  · subst h4
    by_cases h0 : qty ≤ 0
    · simp [lineTotal, getItem, menuGet, menu, List.lookup, catalogPrice, hz h0]
    · simp [lineTotal, getItem, menuGet, menu, List.lookup, catalogPrice, h0, JsNum.mul]
  by_cases h5 : sku = "DR02"
  · subst h5
    by_cases h0 : qty ≤ 0
    · simp [lineTotal, getItem, menuGet, menu, List.lookup, catalogPrice, hz h0]
    · simp [lineTotal, getItem, menuGet, menu, List.lookup, catalogPrice, h0, JsNum.mul]
  by_cases h6 : sku = "DS01"
  · subst h6
    by_cases h0 : qty ≤ 0
    · simp [lineTotal, getItem, menuGet, menu, List.lookup, catalogPrice, hz h0]
    · simp [lineTotal, getItem, menuGet, menu, List.lookup, catalogPrice, h0, JsNum.mul]
  have e1 : (sku == "PZ01") = false := by simpa using h1
  have e2 : (sku == "PZ02") = false := by simpa using h2
  have e3 : (sku == "PS01") = false := by simpa using h3
  have e4 : (sku == "DR01") = false := by simpa using h4
  have e5 : (sku == "DR02") = false := by simpa using h5
  have e6 : (sku == "DS01") = false := by simpa using h6
  have f1 : ("PZ01" == sku) = false := by simpa using Ne.symm h1
  have f2 : ("PZ02" == sku) = false := by simpa using Ne.symm h2
  have f3 : ("PS01" == sku) = false := by simpa using Ne.symm h3
  have f4 : ("DR01" == sku) = false := by simpa using Ne.symm h4
  have f5 : ("DR02" == sku) = false := by simpa using Ne.symm h5
  have f6 : ("DS01" == sku) = false := by simpa using Ne.symm h6
  have hlook : menu.lookup sku = none := by
    simp only [menu, List.lookup, e1, e2, e3, e4, e5, e6]
  have hprice : catalogPrice sku = none := by
    simp only [catalogPrice, menu, List.map_cons, List.map_nil, List.find?, f1, f2, f3, f4,
      f5, f6, Option.map_none']
  simp [lineTotal, getItem, menuGet, hlook, hs, hprice]

/-- The sum of the line totals under the conditions of `lineTotal_eq`. -/
theorem sumLineTotals_eq (items : List Line)
    (h : ∀ l ∈ items, 0 ≤ l.qty ∧ l.sku ∉ objectPrototypeKeys) :
    sumLineTotals items = JsNum.val (specSubtotal items) := by
  induction items with
  | nil => simp [sumLineTotals, specSubtotal]
  | cons a as ih =>
    have ha := h a (List.mem_cons_self _ _)
    have ih2 := ih (fun l hl => h l (List.mem_cons_of_mem _ hl))
    simp only [sumLineTotals, List.map_cons, List.foldr_cons] at ih2 ⊢
    rw [ih2, lineTotal_eq a ha.1 ha.2]
    simp [JsNum.add, specSubtotal]

/-- C7 (as amended): for every order whose lines have `qty ≥ 0` and no sku that
names a member inherited from `Object.prototype`, the subtotal of
`computeTotals` is the sum of `price(sku) * qty` over the lines, the price read
off the catalog entries and a sku without entry counting for nothing. -/
theorem computeTotals_subtotal_eq_spec (order : Order)
    (h : ∀ l ∈ order.items, 0 ≤ l.qty ∧ l.sku ∉ objectPrototypeKeys) :
    (computeTotals order).subtotal = JsNum.val (specSubtotal order.items) := by
  rw [computeTotals_subtotal, sumLineTotals_eq order.items h]

/-- Witness of `computeTotals_subtotal_eq_spec`: the sample order, subtotal 204. -/
theorem computeTotals_subtotal_eq_spec_witness :
    specSubtotal sampleOrder.items = 204 ∧
    (computeTotals sampleOrder).subtotal = JsNum.val (specSubtotal sampleOrder.items) :=
  ⟨by simp [specSubtotal, sampleOrder, catalogPrice, menu, List.find?]; norm_num,
    computeTotals_subtotal_eq_spec sampleOrder (by decide)⟩

/-- C7 (counterexample): after `addItem(order, { sku: "PZ01", qty: -1 })` on a fresh
order the only line is `PZ01` with `qty = -1`; `computeTotals` gives the
subtotal 0, while `price * qty` is `-65`. -/
theorem computeTotals_subtotal_negative_qty :
    (addItem (createOrder "ORD-A" 0 12 "Mariam" none) "PZ01" (some (-1))).order.items =
      [{ sku := "PZ01", qty := -1 }] ∧
    (computeTotals
      (addItem (createOrder "ORD-A" 0 12 "Mariam" none) "PZ01" (some (-1))).order).subtotal =
      JsNum.val 0 ∧
    specSubtotal
      (addItem (createOrder "ORD-A" 0 12 "Mariam" none) "PZ01" (some (-1))).order.items =
      -65 ∧
    (computeTotals
      (addItem (createOrder "ORD-A" 0 12 "Mariam" none) "PZ01" (some (-1))).order).subtotal ≠
      JsNum.val (specSubtotal
        (addItem (createOrder "ORD-A" 0 12 "Mariam" none) "PZ01" (some (-1))).order.items) := by
  have hitems : (addItem (createOrder "ORD-A" 0 12 "Mariam" none) "PZ01"
      (some (-1))).order.items = [{ sku := "PZ01", qty := -1 }] := by decide
  have hsub : (computeTotals (addItem (createOrder "ORD-A" 0 12 "Mariam" none) "PZ01"
      (some (-1))).order).subtotal = JsNum.val 0 := by
    rw [computeTotals_subtotal, hitems]
    simp [sumLineTotals, lineTotal, getItem, menuGet, menu, List.lookup, JsNum.add]
  have hspec : specSubtotal (addItem (createOrder "ORD-A" 0 12 "Mariam" none) "PZ01"
      (some (-1))).order.items = -65 := by
    rw [hitems]
    simp [specSubtotal, catalogPrice, menu, List.find?]
  refine ⟨hitems, hsub, hspec, ?_⟩
  rw [hsub, hspec]
  intro hc
  injection hc with hc
  norm_num at hc

/-- On a subtotal that is a number the discount is a number. -/
theorem computeDiscount_val (s : ℚ) (coupon : Option String) :
    ∃ d : ℚ, computeDiscount (JsNum.val s) coupon = JsNum.val d := by
  unfold computeDiscount
  split
  · exact ⟨_, rfl⟩
  · exact ⟨_, rfl⟩
  · exact ⟨_, rfl⟩
  · exact ⟨_, rfl⟩

/-- In exact arithmetic: `computeTotals` returns the subtotal as the sum of `lineTotal` over the lines,
the discount as `computeDiscount` of that subtotal and the coupon of the order,
and, with `afterDiscount = max(0, subtotal - discount)`, the taxes as
`afterDiscount * 1/10`, the service as `afterDiscount * 1/20` and the total as
`afterDiscount + taxes + service`; when the subtotal is a number all five are
numbers, given by these formulas in exact rational arithmetic. -/
theorem computeTotals_exact_formula (order : Order) :
    (computeTotals order).subtotal = sumLineTotals order.items ∧
    (computeTotals order).discount =
      computeDiscount (computeTotals order).subtotal order.coupon ∧
    (computeTotals order).taxes =
      JsNum.mul (JsNum.max (JsNum.val 0)
        (JsNum.sub (computeTotals order).subtotal (computeTotals order).discount))
        (JsNum.val (1 / 10)) ∧
    (computeTotals order).service =
      JsNum.mul (JsNum.max (JsNum.val 0)
        (JsNum.sub (computeTotals order).subtotal (computeTotals order).discount))
        (JsNum.val (1 / 20)) ∧
    (computeTotals order).total =
      JsNum.add (JsNum.add (JsNum.max (JsNum.val 0)
        (JsNum.sub (computeTotals order).subtotal (computeTotals order).discount))
        (computeTotals order).taxes) (computeTotals order).service ∧
    (∀ s : ℚ, (computeTotals order).subtotal = JsNum.val s →
      ∃ d : ℚ, (computeTotals order).discount = JsNum.val d ∧
        (computeTotals order).taxes = JsNum.val (max 0 (s - d) * (1 / 10)) ∧
        (computeTotals order).service = JsNum.val (max 0 (s - d) * (1 / 20)) ∧
        (computeTotals order).total =
          JsNum.val (max 0 (s - d) + max 0 (s - d) * (1 / 10) + max 0 (s - d) * (1 / 20))) := by
  refine ⟨computeTotals_subtotal order, rfl, rfl, rfl, rfl, ?_⟩
  intro s hs
  obtain ⟨d, hd⟩ := computeDiscount_val s order.coupon
  have hdisc : (computeTotals order).discount = JsNum.val d := by
    have h1 : (computeTotals order).discount =
        computeDiscount (computeTotals order).subtotal order.coupon := rfl
    rw [h1, hs, hd]
  have htax : (computeTotals order).taxes =
      JsNum.mul (JsNum.max (JsNum.val 0)
        (JsNum.sub (computeTotals order).subtotal (computeTotals order).discount))
        (JsNum.val (1 / 10)) := rfl
  have hserv : (computeTotals order).service =
      JsNum.mul (JsNum.max (JsNum.val 0)
        (JsNum.sub (computeTotals order).subtotal (computeTotals order).discount))
        (JsNum.val (1 / 20)) := rfl
  have htot : (computeTotals order).total =
      JsNum.add (JsNum.add (JsNum.max (JsNum.val 0)
        (JsNum.sub (computeTotals order).subtotal (computeTotals order).discount))
        (computeTotals order).taxes) (computeTotals order).service := rfl
  refine ⟨d, hdisc, ?_, ?_, ?_⟩
  · rw [htax, hs, hdisc]; rfl
  · rw [hserv, hs, hdisc]; rfl
  · rw [htot, htax, hserv, hs, hdisc]; rfl

/-- In exact arithmetic: the demo flow on `orderA` (coupon WELCOME10; PZ02 x2, DR01 x3, DS01 x1
added, DR01 x1 removed) runs without a throw and leaves the lines
PZ02: 2, DR01: 2, DS01: 1; `computeTotals` on that order gives subtotal 214,
discount 10, taxes 20.4, service 10.2 and total 234.6. -/
theorem demo_flow_exact (id : String) (createdAt : Nat) :
    ∃ order : Order,
      runScript (createOrder id createdAt 12 "Mariam" (some "WELCOME10")) demoCalls =
        some order ∧
      order.items = [{ sku := "PZ02", qty := 2 }, { sku := "DR01", qty := 2 },
        { sku := "DS01", qty := 1 }] ∧
      order.coupon = some "WELCOME10" ∧
      computeTotals order =
        { subtotal := JsNum.val 214, discount := JsNum.val 10, taxes := JsNum.val 20.4,
          service := JsNum.val 10.2, total := JsNum.val 234.6 } := by
  refine ⟨{ createOrder id createdAt 12 "Mariam" (some "WELCOME10") with
    items := [{ sku := "PZ02", qty := 2 }, { sku := "DR01", qty := 2 },
      { sku := "DS01", qty := 1 }] }, ?_, rfl, rfl, ?_⟩
  · simp [runScript, demoCalls, Call.run, addItem, removeItem, createOrder, getItem, menuGet,
      menu, List.lookup, findIndex]
  · simp [computeTotals, createOrder, lineTotal, getItem, menuGet, menu, List.lookup,
      computeDiscount, JsNum.add, JsNum.sub, JsNum.mul, JsNum.min, JsNum.max, TAX_RATE,
      SERVICE_RATE]
    norm_num

/-! ## Removal of a line -/

/-- In exact integer arithmetic: `removeItem` never throws and changes no field other than `items`; when no
line has the sku the order is unchanged; otherwise the first line of the sku has
its `qty` decremented by the given quantity (1 when omitted) and is deleted
exactly when the result is `≤ 0`, the other lines and their order staying as
they were. -/
theorem removeItem_exact (order : Order) (sku : String) (qty : Option ℤ) :
    (removeItem order sku qty).thrown = none ∧
    (removeItem order sku qty).order =
      { order with items := (removeItem order sku qty).order.items } ∧
    ((∀ l ∈ order.items, l.sku ≠ sku) → (removeItem order sku qty).order = order) ∧
    ((∃ l ∈ order.items, l.sku = sku) →
      ∃ pre l post, order.items = pre ++ l :: post ∧ (∀ y ∈ pre, y.sku ≠ sku) ∧
        l.sku = sku ∧
        (l.qty - qty.getD 1 ≤ 0 → (removeItem order sku qty).order.items = pre ++ post) ∧
        (0 < l.qty - qty.getD 1 →
          (removeItem order sku qty).order.items =
            pre ++ { sku := sku, qty := l.qty - qty.getD 1 } :: post)) ∧
    removeItem order sku none = removeItem order sku (some 1) := by
  have hsplit : (∃ l ∈ order.items, l.sku = sku) →
      ∃ pre l post, order.items = pre ++ l :: post ∧ (∀ y ∈ pre, y.sku ≠ sku) ∧
        l.sku = sku := by
    intro hex
    obtain ⟨pre, l, post, hl, hpre, hx⟩ :=
      exists_first_split (fun l : Line => l.sku == sku) order.items (by simpa using hex)
    exact ⟨pre, l, post, hl, by simpa using hpre, by simpa using hx⟩
  refine ⟨?_, ?_, ?_, ?_, rfl⟩
  · by_cases hex : ∃ l ∈ order.items, l.sku = sku
    · obtain ⟨pre, l, post, hl, hpre, hx⟩ := hsplit hex
      rw [removeItem_found order sku qty pre l post hl hpre hx]
    · rw [removeItem_absent order sku qty (by simpa using hex)]
  · by_cases hex : ∃ l ∈ order.items, l.sku = sku
    · obtain ⟨pre, l, post, hl, hpre, hx⟩ := hsplit hex
      rw [removeItem_found order sku qty pre l post hl hpre hx]
    · rw [removeItem_absent order sku qty (by simpa using hex)]
  · intro hno
    rw [removeItem_absent order sku qty hno]
  · intro hex
    obtain ⟨pre, l, post, hl, hpre, hx⟩ := hsplit hex
    refine ⟨pre, l, post, hl, hpre, hx, ?_, ?_⟩
    · intro hle
      rw [removeItem_found order sku qty pre l post hl hpre hx, if_pos hle]
    · intro hpos
      rw [removeItem_found order sku qty pre l post hl hpre hx, if_neg (not_le.mpr hpos)]

/-! ## Kitchen flow -/

/-- A status outside the five has no entry in the table of `setStatus`. -/
theorem lookup_transitions_none (status : String) (h : status ∉ statuses) :
    transitions.lookup status = none := by
  simp only [statuses, List.mem_cons, List.mem_singleton, List.not_mem_nil, or_false,
    not_or] at h
  obtain ⟨h1, h2, h3, h4, h5⟩ := h
  have e1 : (status == "OPEN") = false := by simpa using h1
  have e2 : (status == "SENT_TO_KITCHEN") = false := by simpa using h2
  have e3 : (status == "SERVED") = false := by simpa using h3
  have e4 : (status == "PAID") = false := by simpa using h4
  have e5 : (status == "CANCELLED") = false := by simpa using h5
  simp only [transitions, List.lookup, e1, e2, e3, e4, e5]

/-- A call of `setStatus` either succeeds, changing the status only, or throws and
leaves the order as it was. -/
theorem setStatus_cases (order : Order) (next : String) :
    setStatus order next = { thrown := none, order := { order with status := next } } ∨
    ((setStatus order next).thrown ≠ none ∧ (setStatus order next).order = order) := by
  unfold setStatus
  split
  · split_ifs
    · exact Or.inl rfl
    · exact Or.inr ⟨by simp, rfl⟩
  · split_ifs
    · exact Or.inr ⟨by simp, rfl⟩
    · exact Or.inr ⟨by simp, rfl⟩

/-- Only from OPEN does `setStatus(order, "SENT_TO_KITCHEN")` succeed. -/
theorem setStatus_sent_to_kitchen (order : Order)
    (h : (setStatus order "SENT_TO_KITCHEN").thrown = none) : order.status = "OPEN" := by
  by_cases hs : order.status ∈ statuses
  · rw [setStatus_eq order "SENT_TO_KITCHEN" hs] at h
    by_contra hne
    have hnot : "SENT_TO_KITCHEN" ∉ specAllowedTargets order.status := by
      unfold specAllowedTargets
      rw [if_neg hne]
      split_ifs <;> decide
    rw [if_neg hnot] at h
    exact absurd h (by simp)
  · exfalso
    unfold setStatus at h
    rw [lookup_transitions_none _ hs] at h
    simp only at h
    split_ifs at h

/-- A throw of `setStatus` leaves the order as it was. -/
theorem setStatus_thrown_order (order : Order) (next : String)
    (h : (setStatus order next).thrown ≠ none) : (setStatus order next).order = order := by
  rcases setStatus_cases order next with hc | ⟨_, hc⟩
  · rw [hc] at h
    exact absurd rfl h
  · exact hc

/-- Whatever the status, if it is not OPEN then `sendToKitchen` throws and leaves
the order and the kitchen queue as they were. -/
theorem sendToKitchen_throws_of_not_open (queue : List KitchenTicket) (order : Order)
    (hne : order.status ≠ "OPEN") :
    (sendToKitchen queue order).thrown = (setStatus order "SENT_TO_KITCHEN").thrown ∧
    (sendToKitchen queue order).thrown ≠ none ∧
    (sendToKitchen queue order).order = order ∧
    (sendToKitchen queue order).queue = queue := by
  have hthrown : (setStatus order "SENT_TO_KITCHEN").thrown ≠ none :=
    fun h => hne (setStatus_sent_to_kitchen order h)
  obtain ⟨e, he⟩ := Option.ne_none_iff_exists'.mp hthrown
  have hord := setStatus_thrown_order order "SENT_TO_KITCHEN" hthrown
  simp only [sendToKitchen, he, hord]
  simp

/-- C12: on an order whose status is one of the five and is not OPEN,
`sendToKitchen` throws the invalid-transition error and leaves the kitchen queue
and the order unchanged. -/
theorem sendToKitchen_not_open_raises (queue : List KitchenTicket) (order : Order)
    (h5 : order.status ∈ statuses) (hne : order.status ≠ "OPEN") :
    (sendToKitchen queue order).thrown =
      some (Err.invalidTransition order.status "SENT_TO_KITCHEN") ∧
    (sendToKitchen queue order).order = order ∧
    (sendToKitchen queue order).queue = queue := by
  obtain ⟨hthrown, _, hord, hq⟩ := sendToKitchen_throws_of_not_open queue order hne
  refine ⟨?_, hord, hq⟩
  rw [hthrown, setStatus_eq order "SENT_TO_KITCHEN" h5]
  have hnot : "SENT_TO_KITCHEN" ∉ specAllowedTargets order.status := by
    unfold specAllowedTargets
    rw [if_neg hne]
    split_ifs <;> decide
  rw [if_neg hnot]

/-- Witness of `sendToKitchen_not_open_raises`: the sample order once SERVED, with
the sample queue. -/
theorem sendToKitchen_not_open_raises_witness :
    (sendToKitchen sampleQueue { sampleOrder with status := "SERVED" }).thrown =
      some (Err.invalidTransition "SERVED" "SENT_TO_KITCHEN") ∧
    (sendToKitchen sampleQueue { sampleOrder with status := "SERVED" }).order =
      { sampleOrder with status := "SERVED" } ∧
    (sendToKitchen sampleQueue { sampleOrder with status := "SERVED" }).queue = sampleQueue :=
  sendToKitchen_not_open_raises sampleQueue { sampleOrder with status := "SERVED" }
    (by decide) (by decide)

/-- C13: on an order in status SENT_TO_KITCHEN `markServed` does not throw and sets
the status to SERVED, nothing else of the order changing; the queue loses the
first ticket whose id is the id of the order, the other tickets keeping their
order, and is unchanged when no ticket has that id. -/
theorem markServed_removes_first_ticket (queue : List KitchenTicket) (order : Order)
    (h : order.status = "SENT_TO_KITCHEN") :
    (markServed queue order).thrown = none ∧
    (markServed queue order).order = { order with status := "SERVED" } ∧
    ((∀ t ∈ queue, t.id ≠ order.id) → (markServed queue order).queue = queue) ∧
    ((∃ t ∈ queue, t.id = order.id) →
      ∃ pre t post, queue = pre ++ t :: post ∧ (∀ y ∈ pre, y.id ≠ order.id) ∧
        t.id = order.id ∧ (markServed queue order).queue = pre ++ post) := by
  have hs : order.status ∈ statuses := by rw [h]; decide
  have hset : setStatus order "SERVED" =
      { thrown := none, order := { order with status := "SERVED" } } := by
    rw [setStatus_eq order "SERVED" hs, h]
    rfl
  have hnone : (∀ t ∈ queue, t.id ≠ order.id) →
      markServed queue order =
        { thrown := none, order := { order with status := "SERVED" }, queue := queue } := by
    intro hno
    have hfind : findIndex (fun t : KitchenTicket => t.id == order.id) queue = none :=
      (findIndex_eq_none _ _).mpr (by simpa using hno)
    simp only [markServed, hset, hfind]
  have hsome : ∀ pre t post, queue = pre ++ t :: post → (∀ y ∈ pre, y.id ≠ order.id) →
      t.id = order.id →
      markServed queue order =
        { thrown := none, order := { order with status := "SERVED" },
          queue := pre ++ post } := by
    intro pre t post hq hpre ht
    have hfind : findIndex (fun t : KitchenTicket => t.id == order.id) queue =
        some pre.length := by
      rw [hq]
      exact findIndex_append _ pre t post (by simpa using hpre) (by simpa using ht)
    simp only [markServed, hset, hfind]
    rw [hq, eraseIdx_append_cons]
  have hsplit : (∃ t ∈ queue, t.id = order.id) →
      ∃ pre t post, queue = pre ++ t :: post ∧ (∀ y ∈ pre, y.id ≠ order.id) ∧
        t.id = order.id := by
    intro hex
    obtain ⟨pre, t, post, hq, hpre, hx⟩ :=
      exists_first_split (fun t : KitchenTicket => t.id == order.id) queue
        (by simpa using hex)
    exact ⟨pre, t, post, hq, by simpa using hpre, by simpa using hx⟩
  refine ⟨?_, ?_, ?_, ?_⟩
  · by_cases hex : ∃ t ∈ queue, t.id = order.id
    · obtain ⟨pre, t, post, hq, hpre, ht⟩ := hsplit hex
      rw [hsome pre t post hq hpre ht]
    · rw [hnone (by simpa using hex)]
  · by_cases hex : ∃ t ∈ queue, t.id = order.id
    · obtain ⟨pre, t, post, hq, hpre, ht⟩ := hsplit hex
      rw [hsome pre t post hq hpre ht]
    · rw [hnone (by simpa using hex)]
  · intro hno
    rw [hnone hno]
  · intro hex
    obtain ⟨pre, t, post, hq, hpre, ht⟩ := hsplit hex
    exact ⟨pre, t, post, hq, hpre, ht, by rw [hsome pre t post hq hpre ht]⟩

/-- Witness of `markServed_removes_first_ticket`: the sample order, sent to the
kitchen, is served; its ticket, the second of the sample queue, is removed. -/
theorem markServed_removes_first_ticket_witness :
    (markServed sampleQueue { sampleOrder with status := "SENT_TO_KITCHEN" }).queue =
      sampleQueue.take 1 ∧
    (markServed sampleQueue { sampleOrder with status := "SENT_TO_KITCHEN" }).thrown = none ∧
    (markServed sampleQueue { sampleOrder with status := "SENT_TO_KITCHEN" }).order =
      { sampleOrder with status := "SERVED" } :=
  ⟨by decide,
    (markServed_removes_first_ticket sampleQueue
      { sampleOrder with status := "SENT_TO_KITCHEN" } rfl).1,
    (markServed_removes_first_ticket sampleQueue
      { sampleOrder with status := "SENT_TO_KITCHEN" } rfl).2.1⟩

/-- The ticket item of a line whose sku is a catalog key. -/
theorem ticketItem_of_mem_menuKeys (l : Line) (h : l.sku ∈ menuKeys) :
    ticketItem l = Except.ok (specTicketItem l) ∧
    ∃ m : MenuItem, m ∈ menu.map Prod.snd ∧ m.sku = l.sku ∧
      specTicketItem l =
        { sku := l.sku, name := some m.name, category := some m.category, qty := l.qty } := by
  obtain ⟨sku, qty⟩ := l
  simp only [menuKeys, menu, List.map_cons, List.map_nil, List.mem_cons, List.mem_singleton,
    List.not_mem_nil, or_false] at h
  rcases h with h | h | h | h | h | h <;> subst h <;>
    exact ⟨rfl, _, by simp [menu], rfl, rfl⟩

/-- The ticket items of lines whose skus are catalog keys. -/
theorem ticketItems_of_catalog (items : List Line) (h : ∀ l ∈ items, l.sku ∈ menuKeys) :
    ticketItems items = Except.ok (items.map specTicketItem) := by
  induction items with
  | nil => rfl
  | cons a as ih =>
    have ha := (ticketItem_of_mem_menuKeys a (h a (List.mem_cons_self _ _))).1
    have has := ih (fun l hl => h l (List.mem_cons_of_mem _ hl))
    simp only [ticketItems, ha, has, List.map_cons]

/-- C17: on an order in status OPEN whose lines all have catalog skus,
`sendToKitchen` does not throw, sets the status to SENT_TO_KITCHEN and appends
one ticket at the end of the queue; the ticket carries the id, table and server
of the order, one ticket item per line in line order with the sku and qty of the
line and the name and category of the catalog, and a meta object made of the
status, already SENT_TO_KITCHEN, the coupon and the creation time. -/
theorem sendToKitchen_appends_ticket (queue : List KitchenTicket) (order : Order)
    (h : order.status = "OPEN") (hs : ∀ l ∈ order.items, l.sku ∈ menuKeys) :
    sendToKitchen queue order =
      { thrown := none,
        order := { order with status := "SENT_TO_KITCHEN" },
        queue := queue ++
          [{ id := order.id, table := order.table, server := order.server,
             ticketItems := order.items.map specTicketItem,
             meta := { status := "SENT_TO_KITCHEN", coupon := order.coupon,
                       createdAt := order.createdAt } }] } ∧
    (order.items.map specTicketItem).length = order.items.length ∧
    ∀ l ∈ order.items, ∃ m : MenuItem, m ∈ menu.map Prod.snd ∧ m.sku = l.sku ∧
      specTicketItem l =
        { sku := l.sku, name := some m.name, category := some m.category, qty := l.qty } := by
  have hst : order.status ∈ statuses := by rw [h]; decide
  have hset : setStatus order "SENT_TO_KITCHEN" =
      { thrown := none, order := { order with status := "SENT_TO_KITCHEN" } } := by
    rw [setStatus_eq order "SENT_TO_KITCHEN" hst, h]
    rfl
  refine ⟨?_, by simp, fun l hl => (ticketItem_of_mem_menuKeys l (hs l hl)).2⟩
  simp only [sendToKitchen, hset, toKitchenTicket, ticketItems_of_catalog order.items hs]

/-- Witness of `sendToKitchen_appends_ticket`: the sample order joins an empty queue. -/
theorem sendToKitchen_appends_ticket_witness :
    (sendToKitchen [] sampleOrder).queue = sampleQueue.drop 1 ∧
    sendToKitchen [] sampleOrder =
      { thrown := none,
        order := { sampleOrder with status := "SENT_TO_KITCHEN" },
        queue := [] ++
          [{ id := sampleOrder.id, table := sampleOrder.table, server := sampleOrder.server,
             ticketItems := sampleOrder.items.map specTicketItem,
             meta := { status := "SENT_TO_KITCHEN", coupon := sampleOrder.coupon,
                       createdAt := sampleOrder.createdAt } }] } :=
  ⟨by decide, (sendToKitchen_appends_ticket [] sampleOrder rfl (by decide)).1⟩

/-! ## Reporting: absent catalog entries -/

/-- The helper `lineTotal` gives 0 for a line whose sku resolves to nothing. -/
theorem lineTotal_unresolved (l : Line) (h : getItem l.sku = none) :
    lineTotal l = JsNum.val 0 := by
  simp [lineTotal, h]

/-- C14 (failing input): the sku `XX99` resolves to nothing; `lineTotal` gives 0 for
its line, but `orderReport` on an order with that line throws a `TypeError`.
An order holding the line `toString` that `addItem` accepts makes `orderReport`
throw too, and the total of that line is `NaN`. -/
theorem orderReport_throws_on_absent_sku (toFixed2 : JsNum → String) :
    getItem "XX99" = none ∧
    lineTotal { sku := "XX99", qty := 1 } = JsNum.val 0 ∧
    orderReport toFixed2 { sampleOrder with items := [{ sku := "XX99", qty := 1 }] } =
      Except.error Err.typeError ∧
    orderReport toFixed2
        (addItem (createOrder "ORD-A" 0 12 "Mariam" none) "toString" none).order =
      Except.error Err.typeError ∧
    lineTotal { sku := "toString", qty := 1 } = JsNum.nan := by
  refine ⟨by decide, by decide, rfl, rfl, by decide⟩

/-! ## Discount policy -/

/-- The discount for the coupon WELCOME10 on a subtotal that is a number. -/
theorem computeDiscount_welcome10 (s : ℚ) :
    computeDiscount (JsNum.val s) (some "WELCOME10") = JsNum.val (min 10 (s * (1 / 10))) := rfl

/-- The discount for the coupon DRINKS5. -/
theorem computeDiscount_drinks5 (subtotal : JsNum) :
    computeDiscount subtotal (some "DRINKS5") = JsNum.val 5 := rfl

/-- The discount without coupon. -/
theorem computeDiscount_none (subtotal : JsNum) :
    computeDiscount subtotal none = JsNum.val 0 := rfl

/-- The discount for a coupon string that is neither WELCOME10 nor DRINKS5. -/
theorem computeDiscount_other (subtotal : JsNum) (c : String) (h1 : c ≠ "WELCOME10")
    (h2 : c ≠ "DRINKS5") : computeDiscount subtotal (some c) = JsNum.val 0 := by
  unfold computeDiscount
  split
  · rename_i heq; exact absurd (Option.some.inj heq) h1
  · rename_i heq; exact absurd (Option.some.inj heq) h2
  · rfl
  · rfl

/-- In exact arithmetic: for a non-negative subtotal `computeDiscount` returns 0 when the coupon is
absent, `min(10, subtotal / 10)` for WELCOME10, 5 for DRINKS5 when
`subtotal ≥ 5`, and 0 for every other coupon string. -/
theorem computeDiscount_exact_policy (s : ℚ) (hs : 0 ≤ s) :
    computeDiscount (JsNum.val s) none = JsNum.val 0 ∧
    computeDiscount (JsNum.val s) (some "WELCOME10") = JsNum.val (min 10 (s / 10)) ∧
    (5 ≤ s → computeDiscount (JsNum.val s) (some "DRINKS5") = JsNum.val 5) ∧
    (∀ c : String, c ≠ "WELCOME10" → c ≠ "DRINKS5" →
      computeDiscount (JsNum.val s) (some c) = JsNum.val 0) := by
  have _ := hs
  refine ⟨rfl, ?_, fun _ => rfl, fun c h1 h2 => computeDiscount_other _ c h1 h2⟩
  rw [computeDiscount_welcome10, mul_one_div]

/-! ## Uniqueness of the lines by sku -/

/-- C16: on an order whose lines are unique by sku, the lines are still unique by
sku after an `addItem` call and after a `removeItem` call, whatever the
arguments and whether the call returns or throws. -/
theorem items_stay_unique (order : Order) (sku : String) (qty : Option ℤ)
    (h : (order.items.map Line.sku).Nodup) :
    ((addItem order sku qty).order.items.map Line.sku).Nodup ∧
    ((removeItem order sku qty).order.items.map Line.sku).Nodup := by
  constructor
  · cases hg : getItem sku with
    | none => rw [addItem_unresolved order sku qty hg]; exact h
    | some v =>
      have hg2 : getItem sku ≠ none := by simp [hg]
      by_cases hex : ∃ l ∈ order.items, (fun l : Line => l.sku == sku) l = true
      · obtain ⟨pre, l, post, hl, hpre, hx⟩ := exists_first_split _ order.items hex
        have hx2 : l.sku = sku := by simpa using hx
        rw [addItem_found order sku qty pre l post hg2 hl (by simpa using hpre) hx2]
        rw [hl] at h
        simpa [hx2] using h
      · have hno : ∀ y ∈ order.items, y.sku ≠ sku := by simpa using hex
        rw [addItem_absent order sku qty hg2 hno]
        simp only [List.map_append, List.map_cons, List.map_nil]
        refine List.Nodup.append h (List.nodup_singleton _) ?_
        intro x hx1 hx2
        simp only [List.mem_singleton] at hx2
        subst hx2
        obtain ⟨y, hy, hyx⟩ := List.mem_map.mp hx1
        exact hno y hy hyx
  · by_cases hex : ∃ l ∈ order.items, (fun l : Line => l.sku == sku) l = true
    · obtain ⟨pre, l, post, hl, hpre, hx⟩ := exists_first_split _ order.items hex
      have hx2 : l.sku = sku := by simpa using hx
      rw [removeItem_found order sku qty pre l post hl (by simpa using hpre) hx2]
      rw [hl] at h
      by_cases hle : l.qty - qty.getD 1 ≤ 0
      · simp only [if_pos hle]
        refine h.sublist (List.Sublist.map _ ?_)
        exact List.Sublist.append (List.Sublist.refl _) (List.sublist_cons_self _ _)
      · simp only [if_neg hle]
        simpa [hx2] using h
    · rw [removeItem_absent order sku qty (by simpa using hex)]
      exact h

/-- Witness of `items_stay_unique`: a dessert added to, and one asked off, the
sample order. -/
theorem items_stay_unique_witness :
    ((addItem sampleOrder "DS01" none).order.items.map Line.sku).Nodup ∧
    ((removeItem sampleOrder "DS01" none).order.items.map Line.sku).Nodup :=
  items_stay_unique sampleOrder "DS01" none (by decide)

/-! ## Monotonicity of the bill -/

/-- The amount after discount grows with the subtotal, for a fixed coupon. -/
theorem afterDiscount_mono (coupon : Option String) (s1 s2 d1 d2 : ℚ)
    (h1 : computeDiscount (JsNum.val s1) coupon = JsNum.val d1)
    (h2 : computeDiscount (JsNum.val s2) coupon = JsNum.val d2) (hle : s1 ≤ s2) :
    max 0 (s1 - d1) ≤ max 0 (s2 - d2) := by
  apply max_le_max le_rfl
  cases coupon with
  | none =>
    rw [computeDiscount_none] at h1 h2
    injection h1 with h1
    injection h2 with h2
    rw [← h1, ← h2]
    linarith
  | some c =>
    by_cases hw : c = "WELCOME10"
    · subst hw
      rw [computeDiscount_welcome10] at h1 h2
      injection h1 with h1
      injection h2 with h2
      rw [← h1, ← h2]
      rcases le_total 10 (s1 * (1 / 10)) with ha | ha <;>
        rcases le_total 10 (s2 * (1 / 10)) with hb | hb
      · rw [min_eq_left ha, min_eq_left hb]; linarith
      · rw [min_eq_left ha, min_eq_right hb]; linarith
      · rw [min_eq_right ha, min_eq_left hb]; linarith
      · rw [min_eq_right ha, min_eq_right hb]; linarith
    · by_cases hd : c = "DRINKS5"
      · subst hd
        rw [computeDiscount_drinks5] at h1 h2
        injection h1 with h1
        injection h2 with h2
        rw [← h1, ← h2]
        linarith
      · rw [computeDiscount_other _ c hw hd] at h1 h2
        injection h1 with h1
        injection h2 with h2
        rw [← h1, ← h2]
        linarith

/-- The total of `computeTotals` when the subtotal is a number. -/
theorem computeTotals_total_of_val (order : Order) (s d : ℚ)
    (hs : (computeTotals order).subtotal = JsNum.val s)
    (hd : computeDiscount (JsNum.val s) order.coupon = JsNum.val d) :
    (computeTotals order).total =
      JsNum.val (max 0 (s - d) + max 0 (s - d) * (1 / 10) + max 0 (s - d) * (1 / 20)) := by
  have hdisc : (computeTotals order).discount = JsNum.val d := by
    have h1 : (computeTotals order).discount =
        computeDiscount (computeTotals order).subtotal order.coupon := rfl
    rw [h1, hs, hd]
  have htot : (computeTotals order).total =
      JsNum.add (JsNum.add (JsNum.max (JsNum.val 0)
        (JsNum.sub (computeTotals order).subtotal (computeTotals order).discount))
        (JsNum.mul (JsNum.max (JsNum.val 0)
          (JsNum.sub (computeTotals order).subtotal (computeTotals order).discount))
          (JsNum.val (1 / 10))))
        (JsNum.mul (JsNum.max (JsNum.val 0)
          (JsNum.sub (computeTotals order).subtotal (computeTotals order).discount))
          (JsNum.val (1 / 20))) := rfl
  rw [htot, hs, hdisc]
  rfl

/-- The total of `computeTotals` when the subtotal is `NaN`. -/
theorem computeTotals_total_of_nan (order : Order)
    (hs : (computeTotals order).subtotal = JsNum.nan) :
    (computeTotals order).total = JsNum.nan := by
  have htot : (computeTotals order).total =
      JsNum.add (JsNum.add (JsNum.max (JsNum.val 0)
        (JsNum.sub (computeTotals order).subtotal (computeTotals order).discount))
        (JsNum.mul (JsNum.max (JsNum.val 0)
          (JsNum.sub (computeTotals order).subtotal (computeTotals order).discount))
          (JsNum.val (1 / 10))))
        (JsNum.mul (JsNum.max (JsNum.val 0)
          (JsNum.sub (computeTotals order).subtotal (computeTotals order).discount))
          (JsNum.val (1 / 20))) := rfl
  rw [htot, hs]
  simp [JsNum.sub, JsNum.max, JsNum.add]

/-- The total of `computeTotals` is never a negative number. -/
theorem computeTotals_total_nonneg (order : Order) (t : ℚ)
    (h : (computeTotals order).total = JsNum.val t) : 0 ≤ t := by
  cases hs : (computeTotals order).subtotal with
  | nan =>
    rw [computeTotals_total_of_nan order hs] at h
    exact absurd h (by simp)
  | val s =>
    obtain ⟨d, hd⟩ := computeDiscount_val s order.coupon
    rw [computeTotals_total_of_val order s d hs hd] at h
    injection h with h
    have hm : (0 : ℚ) ≤ max 0 (s - d) := le_max_left _ _
    rw [← h]
    positivity

/-- The total grows with the subtotal, for a fixed coupon. -/
theorem computeTotals_total_mono (o1 o2 : Order) (s1 s2 : ℚ)
    (hc : o1.coupon = o2.coupon)
    (h1 : (computeTotals o1).subtotal = JsNum.val s1)
    (h2 : (computeTotals o2).subtotal = JsNum.val s2) (hle : s1 ≤ s2) :
    ∃ t1 t2 : ℚ, (computeTotals o1).total = JsNum.val t1 ∧
      (computeTotals o2).total = JsNum.val t2 ∧ t1 ≤ t2 ∧ 0 ≤ t1 := by
  obtain ⟨d1, hd1⟩ := computeDiscount_val s1 o1.coupon
  obtain ⟨d2, hd2⟩ := computeDiscount_val s2 o2.coupon
  have hm : max 0 (s1 - d1) ≤ max 0 (s2 - d2) :=
    afterDiscount_mono o1.coupon s1 s2 d1 d2 hd1 (by rw [hc]; exact hd2) hle
  have ht1 := computeTotals_total_of_val o1 s1 d1 h1 hd1
  refine ⟨_, _, ht1, computeTotals_total_of_val o2 s2 d2 h2 hd2, ?_,
    computeTotals_total_nonneg o1 _ ht1⟩
  linarith

/-- The sum of the line totals of two lists put end to end. -/
theorem sumLineTotals_append (a b : List Line) :
    sumLineTotals (a ++ b) = JsNum.add (sumLineTotals a) (sumLineTotals b) := by
  induction a with
  | nil =>
    cases hb : sumLineTotals b <;> simp [sumLineTotals, JsNum.add] at hb ⊢ <;> simp [hb]
  | cons x xs ih =>
    simp only [sumLineTotals, List.cons_append, List.map_cons, List.foldr_cons] at ih ⊢
    rw [ih, jsAdd_assoc]

/-- The sum of the line totals of a list with a first line. -/
theorem sumLineTotals_cons (x : Line) (xs : List Line) :
    sumLineTotals (x :: xs) = JsNum.add (lineTotal x) (sumLineTotals xs) := rfl

/-- The total of a line with a catalog sku and a positive quantity: a non-negative
price times the quantity. -/
theorem lineTotal_catalog (sku : String) (h : sku ∈ menuKeys) :
    ∃ p : ℚ, 0 ≤ p ∧ ∀ qty : ℤ, 0 < qty →
      lineTotal { sku := sku, qty := qty } = JsNum.val (p * qty) := by
  have hproto : sku ∉ objectPrototypeKeys := by
    simp only [menuKeys, menu, List.map_cons, List.map_nil, List.mem_cons,
      List.mem_singleton, List.not_mem_nil, or_false] at h
    rcases h with h | h | h | h | h | h <;> subst h <;> decide
  have hprice : 0 ≤ (catalogPrice sku).getD 0 := by
    simp only [menuKeys, menu, List.map_cons, List.map_nil, List.mem_cons,
      List.mem_singleton, List.not_mem_nil, or_false] at h
    rcases h with h | h | h | h | h | h <;> subst h <;>
      simp [catalogPrice, menu, List.find?]
  exact ⟨_, hprice, fun qty hq => lineTotal_eq ⟨sku, qty⟩ (le_of_lt hq) hproto⟩

/-- Adding a positive quantity of a catalog item adds a non-negative amount to the
sum of the line totals, on an order whose lines have positive quantities. -/
theorem addItem_sumLineTotals (order : Order) (sku : String) (q : ℤ)
    (hs : sku ∈ menuKeys) (hq : 0 < q) (hp : ∀ l ∈ order.items, 0 < l.qty) :
    ∃ δ : ℚ, 0 ≤ δ ∧
      sumLineTotals (addItem order sku (some q)).order.items =
        JsNum.add (sumLineTotals order.items) (JsNum.val δ) := by
  have hg := getItem_ne_none_of_mem_menuKeys sku hs
  obtain ⟨p, hp0, hline⟩ := lineTotal_catalog sku hs
  have hq' : (0 : ℚ) < q := by exact_mod_cast hq
  refine ⟨p * q, by positivity, ?_⟩
  by_cases hex : ∃ l ∈ order.items, (fun l : Line => l.sku == sku) l = true
  · obtain ⟨pre, l, post, hl, hpre, hx⟩ := exists_first_split _ order.items hex
    have hx2 : l.sku = sku := by simpa using hx
    have hlpos : 0 < l.qty := hp l (by rw [hl]; simp)
    rw [addItem_found order sku (some q) pre l post hg hl (by simpa using hpre) hx2]
    have hleq : l = { sku := sku, qty := l.qty } := by
      cases l; simp_all
    simp only [Option.getD_some]
    rw [hl, sumLineTotals_append, sumLineTotals_append, sumLineTotals_cons,
      sumLineTotals_cons, hline (l.qty + q) (by omega), hleq, hline l.qty hlpos]
    cases sumLineTotals pre <;> cases sumLineTotals post <;> simp [JsNum.add]
    ring
  · have hno : ∀ y ∈ order.items, y.sku ≠ sku := by simpa using hex
    rw [addItem_absent order sku (some q) hg hno]
    simp only [Option.getD_some]
    rw [sumLineTotals_append, sumLineTotals_cons, hline q hq]
    cases sumLineTotals order.items <;> simp [sumLineTotals, JsNum.add]

/-- The call `addItem` leaves the coupon as it was. -/
theorem addItem_coupon (order : Order) (sku : String) (qty : Option ℤ) :
    (addItem order sku qty).order.coupon = order.coupon := by
  unfold addItem
  simp only
  split
  · rfl
  · split <;> rfl

/-- C18: for two orders with the same coupon whose subtotals are numbers
`s1 ≤ s2`, the totals are numbers `t1 ≤ t2`, and `t1` is not negative; no
total is ever a negative number; and adding a positive quantity of a catalog
item to an order whose lines have positive quantities does not make the total
smaller: the new total is not `<` the old one, and both are numbers, the old
one at most the new one, when the old subtotal is a number. -/
theorem total_monotone_in_subtotal (o1 o2 : Order) (s1 s2 : ℚ)
    (hc : o1.coupon = o2.coupon)
    (h1 : (computeTotals o1).subtotal = JsNum.val s1)
    (h2 : (computeTotals o2).subtotal = JsNum.val s2) (hle : s1 ≤ s2) :
    (∃ t1 t2 : ℚ, (computeTotals o1).total = JsNum.val t1 ∧
      (computeTotals o2).total = JsNum.val t2 ∧ t1 ≤ t2 ∧ 0 ≤ t1) ∧
    (∀ (order : Order) (t : ℚ), (computeTotals order).total = JsNum.val t → 0 ≤ t) ∧
    (∀ (order : Order) (sku : String) (q : ℤ), sku ∈ menuKeys → 0 < q →
      (∀ l ∈ order.items, 0 < l.qty) →
      JsNum.lt (computeTotals (addItem order sku (some q)).order).total
        (computeTotals order).total = false ∧
      (∀ s : ℚ, (computeTotals order).subtotal = JsNum.val s →
        ∃ t t' : ℚ, (computeTotals order).total = JsNum.val t ∧
          (computeTotals (addItem order sku (some q)).order).total = JsNum.val t' ∧
          t ≤ t')) := by
  refine ⟨computeTotals_total_mono o1 o2 s1 s2 hc h1 h2 hle, computeTotals_total_nonneg, ?_⟩
  intro order sku q hs hq hp
  obtain ⟨δ, hδ, hsum⟩ := addItem_sumLineTotals order sku q hs hq hp
  have hgrow : ∀ s : ℚ, (computeTotals order).subtotal = JsNum.val s →
      ∃ t t' : ℚ, (computeTotals order).total = JsNum.val t ∧
        (computeTotals (addItem order sku (some q)).order).total = JsNum.val t' ∧
        t ≤ t' := by
    intro s hsub
    have hsub' : (computeTotals (addItem order sku (some q)).order).subtotal =
        JsNum.val (s + δ) := by
      rw [computeTotals_subtotal] at hsub ⊢
      rw [hsum, hsub]
      rfl
    obtain ⟨t, t', ht, ht', hle', _⟩ :=
      computeTotals_total_mono order (addItem order sku (some q)).order s (s + δ)
        (addItem_coupon order sku (some q)).symm hsub hsub' (by linarith)
    exact ⟨t, t', ht, ht', hle'⟩
  refine ⟨?_, hgrow⟩
  cases hsub : (computeTotals order).subtotal with
  | nan =>
    rw [computeTotals_total_of_nan order hsub]
    cases (computeTotals (addItem order sku (some q)).order).total <;> rfl
  | val s =>
    obtain ⟨t, t', ht, ht', hle'⟩ := hgrow s hsub
    rw [ht, ht']
    simp only [JsNum.lt, decide_eq_false_iff_not, not_lt]
    exact hle'

/-- Witness of `total_monotone_in_subtotal`: the sample order before and after two
more juices, subtotals 204 and 240. -/
theorem total_monotone_in_subtotal_witness :
    (computeTotals sampleOrder).subtotal = JsNum.val 204 ∧
    (computeTotals (addItem sampleOrder "DR01" (some 2)).order).subtotal = JsNum.val 240 ∧
    ∃ t1 t2 : ℚ, (computeTotals sampleOrder).total = JsNum.val t1 ∧
      (computeTotals (addItem sampleOrder "DR01" (some 2)).order).total = JsNum.val t2 ∧
      t1 ≤ t2 ∧ 0 ≤ t1 := by
  have h1 : (computeTotals sampleOrder).subtotal = JsNum.val 204 := by
    simp [computeTotals, sampleOrder, lineTotal, getItem, menuGet, menu, List.lookup,
      JsNum.add, JsNum.mul]
    norm_num
  have h2 : (computeTotals (addItem sampleOrder "DR01" (some 2)).order).subtotal =
      JsNum.val 240 := by
    have hitems : (addItem sampleOrder "DR01" (some 2)).order.items =
        [{ sku := "PZ02", qty := 2 }, { sku := "DR01", qty := 5 }] := by decide
    rw [computeTotals_subtotal, hitems]
    simp [sumLineTotals, lineTotal, getItem, menuGet, menu, List.lookup, JsNum.add, JsNum.mul]
    norm_num
  exact ⟨h1, h2,
    (total_monotone_in_subtotal sampleOrder (addItem sampleOrder "DR01" (some 2)).order 204 240
      (by decide) h1 h2 (by norm_num)).1⟩

/-! ## Double-precision arithmetic: properties -/

/-- The binary exponent of a positive number caught between two powers of 2. -/
theorem int_log_two_eq (x : ℚ) (e : ℤ) (h1 : (2 : ℚ) ^ e ≤ x) (h2 : x < 2 ^ (e + 1)) :
    Int.log 2 x = e := by
  have hx : 0 < x := lt_of_lt_of_le (by positivity) h1
  apply le_antisymm
  · have := (Int.lt_zpow_iff_log_lt (b := 2) (by norm_num) (x := e + 1) hx).mp (by exact_mod_cast h2)
    omega
  · exact (Int.zpow_le_iff_le_log (b := 2) (by norm_num) hx).mp (by exact_mod_cast h1)

/-- Rounding to the nearest integer: a value less than one half away from an
integer rounds to it. -/
theorem roundHalfEven_near (t : ℚ) (r : ℤ) (h : |t - r| < 1 / 2) : roundHalfEven t = r := by
  rw [abs_lt] at h
  obtain ⟨h1, h2⟩ := h
  unfold roundHalfEven
  by_cases hle : (r : ℚ) ≤ t
  · have hf : ⌊t⌋ = r := Int.floor_eq_iff.mpr ⟨hle, by linarith⟩
    rw [hf, if_pos (by linarith)]
  · have hf : ⌊t⌋ = r - 1 := Int.floor_eq_iff.mpr ⟨by push_cast; linarith, by push_cast; linarith⟩
    rw [hf]
    push_cast
    rw [if_neg (by linarith), if_pos (by linarith)]
    ring

/-- Rounding to the nearest integer: a value one half away from an even integer
rounds to it. -/
theorem roundHalfEven_tie (t : ℚ) (r : ℤ) (h : t - r = 1 / 2 ∨ r - t = 1 / 2)
    (heven : r % 2 = 0) : roundHalfEven t = r := by
  unfold roundHalfEven
  rcases h with h | h
  · have hf : ⌊t⌋ = r := Int.floor_eq_iff.mpr ⟨by linarith, by linarith⟩
    rw [hf, if_neg (by linarith), if_neg (by linarith), if_pos heven]
  · have hf : ⌊t⌋ = r - 1 := Int.floor_eq_iff.mpr ⟨by push_cast; linarith, by push_cast; linarith⟩
    rw [hf]
    push_cast
    rw [if_neg (by linarith), if_neg (by linarith), if_neg (by omega)]
    ring

/-- How `Dbl.round` is evaluated: with the binary exponent `e` of `x` and the
rounded significand `r` in hand, and no overflow, the result is `r` units in the
last place. -/
theorem dblRound_eq (x : ℚ) (e r : ℤ) (h1 : (2 : ℚ) ^ e ≤ |x|) (h2 : |x| < 2 ^ (e + 1))
    (hr : roundHalfEven (x / 2 ^ (max e (-1022) - 52)) = r)
    (hlt : (r : ℚ) * 2 ^ (max e (-1022) - 52) < 2 ^ 1024)
    (hgt : -2 ^ 1024 < (r : ℚ) * 2 ^ (max e (-1022) - 52)) :
    Dbl.round x = Dbl.fin (r * 2 ^ (max e (-1022) - 52)) := by
  have hx : x ≠ 0 := by
    intro h0
    rw [h0, abs_zero] at h1
    exact absurd h1 (not_le.mpr (by positivity))
  have hlog : Int.log 2 |x| = e := int_log_two_eq _ e h1 h2
  simp only [Dbl.round, if_neg hx, ulpExponent, hlog, hr]
  rw [if_neg (not_le.mpr hlt), if_neg (not_le.mpr hgt)]


/-- An integer rounds to itself. -/
theorem roundHalfEven_intCast (r : ℤ) : roundHalfEven (r : ℚ) = r :=
  roundHalfEven_near _ r (by simp)

/-- An integer of magnitude at most `2^53` is a double: it rounds to itself. -/
theorem dblRound_int (n : ℤ) (h : SafeInt n) : Dbl.round (n : ℚ) = Dbl.fin n := by
  by_cases h0 : n = 0
  · subst h0
    simp [Dbl.round]
  have hx0 : (n : ℚ) ≠ 0 := by exact_mod_cast h0
  have hpos : (0 : ℚ) < |(n : ℚ)| := abs_pos.mpr hx0
  have habs1 : (1 : ℚ) ≤ |(n : ℚ)| := by
    have : (1 : ℤ) ≤ |n| := Int.one_le_abs h0
    exact_mod_cast this
  have habs2 : |(n : ℚ)| ≤ 2 ^ 53 := by
    have : |n| ≤ 2 ^ 53 := abs_le.mpr h
    exact_mod_cast this
  have h1 := Int.zpow_log_le_self (b := 2) (by norm_num) hpos
  have h2 := Int.lt_zpow_succ_log_self (b := 2) (by norm_num) |(n : ℚ)|
  have he0 : 0 ≤ Int.log 2 |(n : ℚ)| :=
    (Int.zpow_le_iff_le_log (b := 2) (by norm_num) hpos).mp (by simpa using habs1)
  have he53 : Int.log 2 |(n : ℚ)| < 54 :=
    (Int.lt_zpow_iff_log_lt (b := 2) (by norm_num) hpos).mp
      (lt_of_le_of_lt habs2 (by norm_num))
  generalize he : Int.log 2 |(n : ℚ)| = e at h1 h2 he0 he53
  push_cast at h1 h2
  have hbig : (-(2 : ℚ) ^ 1024 < n) ∧ ((n : ℚ) < 2 ^ 1024) := by
    have := abs_le.mp habs2
    constructor
    · linarith [this.1, show (2 : ℚ) ^ 53 < 2 ^ 1024 by norm_num]
    · linarith [this.2, show (2 : ℚ) ^ 53 < 2 ^ 1024 by norm_num]
  by_cases hle : e ≤ 52
  · obtain ⟨m, hm⟩ : ∃ m : ℕ, (m : ℤ) = 52 - e := ⟨(52 - e).toNat, Int.toNat_of_nonneg (by omega)⟩
    have hk : max e (-1022) - 52 = -(m : ℤ) := by
      rw [max_eq_left (by omega)]; omega
    have hval : ((n * 2 ^ m : ℤ) : ℚ) * 2 ^ (max e (-1022) - 52) = n := by
      rw [hk, zpow_neg, zpow_natCast]
      push_cast
      field_simp
    have hr : roundHalfEven ((n : ℚ) / 2 ^ (max e (-1022) - 52)) = n * 2 ^ m := by
      rw [hk, zpow_neg, zpow_natCast, div_inv_eq_mul]
      have : (n : ℚ) * 2 ^ m = ((n * 2 ^ m : ℤ) : ℚ) := by push_cast; ring
      rw [this, roundHalfEven_intCast]
    rw [dblRound_eq (n : ℚ) e (n * 2 ^ m) h1 h2 hr (by rw [hval]; exact hbig.2)
      (by rw [hval]; exact hbig.1), hval]
  · have he53' : e = 53 := by omega
    subst he53'
    have habs : |(n : ℚ)| = 2 ^ 53 := le_antisymm habs2 (by
      have h1' : (2 : ℚ) ^ (53 : ℤ) ≤ |(n : ℚ)| := h1
      norm_num at h1'
      linarith)
    have hk : max (53 : ℤ) (-1022) - 52 = 1 := by norm_num
    rcases abs_eq (by positivity : (0 : ℚ) ≤ 2 ^ 53) |>.mp habs with hn | hn
    · rw [dblRound_eq (n : ℚ) 53 (2 ^ 52) h1 h2
        (by rw [hk, hn]; exact roundHalfEven_near _ _ (by norm_num))
        (by rw [hk]; norm_num) (by rw [hk]; norm_num), hk, hn]
      norm_num
    · rw [dblRound_eq (n : ℚ) 53 (-2 ^ 52) h1 h2
        (by rw [hk, hn]; exact roundHalfEven_near _ _ (by norm_num))
        (by rw [hk]; norm_num) (by rw [hk]; norm_num), hk, hn]
      norm_num

/-- Sums of integers that stay within `2^53` in magnitude are exact. -/
theorem dblAdd_int (a b : ℤ) (h : SafeInt (a + b)) :
    Dbl.add (Dbl.fin a) (Dbl.fin b) = Dbl.fin ((a + b : ℤ) : ℚ) := by
  have := dblRound_int (a + b) h
  push_cast at this ⊢
  exact this

/-- Differences of integers that stay within `2^53` in magnitude are exact. -/
theorem dblSub_int (a b : ℤ) (h : SafeInt (a - b)) :
    Dbl.sub (Dbl.fin a) (Dbl.fin b) = Dbl.fin ((a - b : ℤ) : ℚ) := by
  have := dblRound_int (a - b) h
  push_cast at this ⊢
  simp only [Dbl.sub, Dbl.neg, Dbl.add]
  rw [← sub_eq_add_neg]
  exact this

/-- The test `a <= 0` on an integer. -/
theorem dblLeZero_int (a : ℤ) : Dbl.leZero (Dbl.fin a) = decide (a ≤ 0) := by
  simp [Dbl.leZero]

/-! ## The order aggregate in double-precision arithmetic: characterisation -/

/-- The call `addItem` of the engine throws `Unknown SKU` when `menu[sku]`
resolves to nothing. -/
theorem engine_addItem_unresolved (order : Engine.Order) (sku : String) (qty : Option Dbl)
    (h : getItem sku = none) :
    Engine.addItem order sku qty = { thrown := some (Err.unknownSku sku), order := order } := by
  simp [Engine.addItem, h]

/-- The call `addItem` of the engine on a sku that resolves and has a line: the
quantity of the first such line becomes the rounded sum. -/
theorem engine_addItem_found (order : Engine.Order) (sku : String) (qty : Option Dbl)
    (pre : List Engine.Line) (l : Engine.Line) (post : List Engine.Line)
    (h : getItem sku ≠ none) (hitems : order.items = pre ++ l :: post)
    (hpre : ∀ y ∈ pre, y.sku ≠ sku) (hl : l.sku = sku) :
    Engine.addItem order sku qty =
      { thrown := none,
        order := { order with
          items := pre ++
            { sku := sku, qty := Dbl.add l.qty (qty.getD (Dbl.fin 1)) } :: post } } := by
  obtain ⟨v, hv⟩ := Option.ne_none_iff_exists'.mp h
  have hfind : findIndex (fun l : Engine.Line => l.sku == sku) order.items =
      some pre.length := by
    rw [hitems]
    exact findIndex_append _ pre l post (by simpa using hpre) (by simpa using hl)
  simp only [Engine.addItem, hv, hfind]
  rw [hitems, modify_append_cons, hl]

/-- The call `addItem` of the engine on a sku that resolves and has no line: a line
is appended. -/
theorem engine_addItem_absent (order : Engine.Order) (sku : String) (qty : Option Dbl)
    (h : getItem sku ≠ none) (hnone : ∀ y ∈ order.items, y.sku ≠ sku) :
    Engine.addItem order sku qty =
      { thrown := none,
        order := { order with
          items := order.items ++ [{ sku := sku, qty := qty.getD (Dbl.fin 1) }] } } := by
  obtain ⟨v, hv⟩ := Option.ne_none_iff_exists'.mp h
  have hfind : findIndex (fun l : Engine.Line => l.sku == sku) order.items = none :=
    (findIndex_eq_none _ _).mpr (by simpa using hnone)
  simp only [Engine.addItem, hv, hfind]

/-- The call `removeItem` of the engine on a sku that has no line returns the order
as it was. -/
theorem engine_removeItem_absent (order : Engine.Order) (sku : String) (qty : Option Dbl)
    (hnone : ∀ y ∈ order.items, y.sku ≠ sku) :
    Engine.removeItem order sku qty = { thrown := none, order := order } := by
  have hfind : findIndex (fun l : Engine.Line => l.sku == sku) order.items = none :=
    (findIndex_eq_none _ _).mpr (by simpa using hnone)
  simp only [Engine.removeItem, hfind]

/-- The call `removeItem` of the engine on a sku that has a line: the quantity of the
first such line becomes the rounded difference, and the line is deleted when
that is `<= 0`. -/
theorem engine_removeItem_found (order : Engine.Order) (sku : String) (qty : Option Dbl)
    (pre : List Engine.Line) (l : Engine.Line) (post : List Engine.Line)
    (hitems : order.items = pre ++ l :: post)
    (hpre : ∀ y ∈ pre, y.sku ≠ sku) (hl : l.sku = sku) :
    Engine.removeItem order sku qty =
      { thrown := none,
        order := { order with
          items := if Dbl.leZero (Dbl.sub l.qty (qty.getD (Dbl.fin 1))) = true then pre ++ post
            else pre ++
              { sku := sku, qty := Dbl.sub l.qty (qty.getD (Dbl.fin 1)) } :: post } } := by
  have hfind : findIndex (fun l : Engine.Line => l.sku == sku) order.items =
      some pre.length := by
    rw [hitems]
    exact findIndex_append _ pre l post (by simpa using hpre) (by simpa using hl)
  simp only [Engine.removeItem, hfind]
  rw [hitems, getElem?_append_cons]
  simp only [set_append_cons, eraseIdx_append_cons, hl]
  split_ifs <;> rfl

/-- The default quantity 1 and an integer quantity, as the engine holds them. -/
theorem getD_map_fin (qty : Option ℤ) :
    (qty.map (fun q : ℤ => Dbl.fin q)).getD (Dbl.fin 1) = Dbl.fin ((qty.getD 1 : ℤ) : ℚ) := by
  cases qty <;> simp

/-- On integer quantities whose sum on the line of the sku stays within `2^53`,
the `addItem` of the engine does what `addItem` does in exact arithmetic. -/
theorem engine_addItem_toEngine (order : Order) (sku : String) (qty : Option ℤ)
    (hsum : ∀ l ∈ order.items, l.sku = sku → SafeInt (l.qty + qty.getD 1)) :
    Engine.addItem order.toEngine sku (qty.map (fun q : ℤ => Dbl.fin q)) =
      (addItem order sku qty).toEngine := by
  cases hg : getItem sku with
  | none =>
    rw [engine_addItem_unresolved _ _ _ hg, addItem_unresolved order sku qty hg]
    rfl
  | some v =>
    have hg2 : getItem sku ≠ none := by simp [hg]
    by_cases hex : ∃ l ∈ order.items, (fun l : Line => l.sku == sku) l = true
    · obtain ⟨pre, l, post, hl, hpre, hx⟩ := exists_first_split _ order.items hex
      have hx2 : l.sku = sku := by simpa using hx
      have hpre2 : ∀ y ∈ pre, y.sku ≠ sku := by simpa using hpre
      have hsafe : SafeInt (l.qty + qty.getD 1) := hsum l (by rw [hl]; simp) hx2
      rw [addItem_found order sku qty pre l post hg2 hl hpre2 hx2]
      rw [engine_addItem_found order.toEngine sku _ (pre.map Line.toEngine) l.toEngine
        (post.map Line.toEngine) hg2 (by simp [Order.toEngine, hl])
        (by
          intro y hy
          obtain ⟨z, hz, rfl⟩ := List.mem_map.mp hy
          exact hpre2 z hz)
        hx2]
      simp only [getD_map_fin, Line.toEngine, dblAdd_int _ _ hsafe, Outcome.toEngine,
        Order.toEngine, List.map_append, List.map_cons]
    · have hno : ∀ y ∈ order.items, y.sku ≠ sku := by simpa using hex
      rw [addItem_absent order sku qty hg2 hno]
      rw [engine_addItem_absent order.toEngine sku _ hg2
        (by
          intro y hy
          obtain ⟨z, hz, rfl⟩ := List.mem_map.mp hy
          exact hno z hz)]
      simp only [getD_map_fin, Line.toEngine, Outcome.toEngine, Order.toEngine,
        List.map_append, List.map_cons, List.map_nil]

/-- On integer quantities whose difference on the line of the sku stays within
`2^53`, the `removeItem` of the engine does what `removeItem` does in exact
arithmetic. -/
theorem engine_removeItem_toEngine (order : Order) (sku : String) (qty : Option ℤ)
    (hdiff : ∀ l ∈ order.items, l.sku = sku → SafeInt (l.qty - qty.getD 1)) :
    Engine.removeItem order.toEngine sku (qty.map (fun q : ℤ => Dbl.fin q)) =
      (removeItem order sku qty).toEngine := by
  by_cases hex : ∃ l ∈ order.items, (fun l : Line => l.sku == sku) l = true
  · obtain ⟨pre, l, post, hl, hpre, hx⟩ := exists_first_split _ order.items hex
    have hx2 : l.sku = sku := by simpa using hx
    have hpre2 : ∀ y ∈ pre, y.sku ≠ sku := by simpa using hpre
    have hsafe : SafeInt (l.qty - qty.getD 1) := hdiff l (by rw [hl]; simp) hx2
    rw [removeItem_found order sku qty pre l post hl hpre2 hx2]
    rw [engine_removeItem_found order.toEngine sku _ (pre.map Line.toEngine) l.toEngine
      (post.map Line.toEngine) (by simp [Order.toEngine, hl])
      (by
        intro y hy
        obtain ⟨z, hz, rfl⟩ := List.mem_map.mp hy
        exact hpre2 z hz)
      hx2]
    simp only [getD_map_fin, Line.toEngine, dblSub_int _ _ hsafe, dblLeZero_int,
      decide_eq_true_eq, Outcome.toEngine, Order.toEngine]
    by_cases hle : l.qty - qty.getD 1 ≤ 0
    · simp only [if_pos hle, List.map_append]
    · simp only [if_neg hle, List.map_append, List.map_cons, Line.toEngine]
  · have hno : ∀ y ∈ order.items, y.sku ≠ sku := by simpa using hex
    rw [removeItem_absent order sku qty hno]
    rw [engine_removeItem_absent order.toEngine sku _
      (by
        intro y hy
        obtain ⟨z, hz, rfl⟩ := List.mem_map.mp hy
        exact hno z hz)]
    rfl

/-! ## Quantities beyond the safe integers -/

/-- The integer `2^53 + 1` is not a double: it lies half-way between `2^53` and
`2^53 + 2` and rounds to `2^53`, whose significand is even. -/
theorem dblRound_two53_succ : Dbl.round 9007199254740993 = Dbl.fin 9007199254740992 := by
  rw [dblRound_eq _ 53 4503599627370496 (by norm_num [abs_of_pos]) (by norm_num [abs_of_pos])
    (roundHalfEven_tie _ _ (by norm_num) (by norm_num)) (by norm_num) (by norm_num)]
  norm_num

/-- C10 (counterexample): in double arithmetic, `addItem(order, { sku: "PZ01" })` on
an order whose line PZ01 has `qty = 2^53` leaves the order as it was: the sum
`2^53 + 1` rounds to `2^53`, so the line is not incremented by 1. -/
theorem engine_addItem_loses_increment :
    "PZ01" ∈ menuKeys ∧
    Engine.addItem
        (Order.toEngine { sampleOrder with items := [{ sku := "PZ01", qty := 2 ^ 53 }] })
        "PZ01" (some (Dbl.fin 1)) =
      { thrown := none,
        order := Order.toEngine
          { sampleOrder with items := [{ sku := "PZ01", qty := 2 ^ 53 }] } } ∧
    Dbl.fin (((2 ^ 53 : ℤ) : ℚ)) ≠ Dbl.fin (((2 ^ 53 + 1 : ℤ) : ℚ)) := by
  refine ⟨by decide, ?_, ?_⟩
  · rw [engine_addItem_found _ "PZ01" _ [] { sku := "PZ01", qty := Dbl.fin ((2 ^ 53 : ℤ) : ℚ) } []
      (by decide) rfl (by simp) rfl]
    simp only [Option.getD_some, Dbl.add, List.nil_append]
    have hsum : (((2 ^ 53 : ℤ) : ℚ)) + 1 = 9007199254740993 := by norm_num
    rw [hsum, dblRound_two53_succ]
    have hval : (9007199254740992 : ℚ) = ((2 ^ 53 : ℤ) : ℚ) := by norm_num
    rw [hval]
    rfl
  · intro h
    injection h with h
    norm_num at h

/-- C10 (as amended): on an order whose line quantities are integers of magnitude at
most `2^53`, with a catalog sku and an integer quantity of magnitude at most
`2^53` such that the incremented quantity of a line of the sku stays within
`2^53` in magnitude, the `addItem` of the engine does what `addItem` does in
exact arithmetic: it does not throw and changes no field other than `items`;
when a line for the sku exists, the first such line has its `qty` incremented
by the given quantity, every other line, the line order and the length staying
as they were; otherwise the line `{ sku, qty }` is appended after the existing
lines; an omitted `qty` counts as 1. -/
theorem addItem_merges_or_appends (order : Order) (sku : String) (qty : Option ℤ)
    (h : sku ∈ menuKeys) (_hlines : ∀ l ∈ order.items, SafeInt l.qty)
    (_hq : SafeInt (qty.getD 1))
    (hsum : ∀ l ∈ order.items, l.sku = sku → SafeInt (l.qty + qty.getD 1)) :
    Engine.addItem order.toEngine sku (qty.map (fun q : ℤ => Dbl.fin q)) =
      (addItem order sku qty).toEngine ∧
    (addItem order sku qty).thrown = none ∧
    (addItem order sku qty).order =
      { order with items := (addItem order sku qty).order.items } ∧
    ((∃ l ∈ order.items, l.sku = sku) →
      ∃ pre l post, order.items = pre ++ l :: post ∧ (∀ y ∈ pre, y.sku ≠ sku) ∧
        l.sku = sku ∧
        (addItem order sku qty).order.items =
          pre ++ { sku := sku, qty := l.qty + qty.getD 1 } :: post ∧
        (addItem order sku qty).order.items.length = order.items.length) ∧
    ((∀ l ∈ order.items, l.sku ≠ sku) →
      (addItem order sku qty).order.items =
        order.items ++ [{ sku := sku, qty := qty.getD 1 }]) ∧
    Engine.addItem order.toEngine sku none =
      Engine.addItem order.toEngine sku (some (Dbl.fin 1)) := by
  obtain ⟨h1, h2, h3, h4, _⟩ := addItem_exact order sku qty h
  exact ⟨engine_addItem_toEngine order sku qty hsum, h1, h2, h3, h4, rfl⟩

/-- Witness of `addItem_merges_or_appends`: two more juices on the sample order. -/
theorem addItem_merges_or_appends_witness :
    "DR01" ∈ menuKeys ∧
    (addItem sampleOrder "DR01" (some 2)).order.items =
      [{ sku := "PZ02", qty := 2 }, { sku := "DR01", qty := 5 }] ∧
    Engine.addItem sampleOrder.toEngine "DR01" ((some 2).map (fun q : ℤ => Dbl.fin q)) =
      (addItem sampleOrder "DR01" (some 2)).toEngine :=
  ⟨by decide, by decide,
    (addItem_merges_or_appends sampleOrder "DR01" (some 2) (by decide)
      (by
        intro l hl
        simp only [sampleOrder, List.mem_cons, List.mem_singleton, List.not_mem_nil,
          or_false] at hl
        rcases hl with rfl | rfl <;> exact ⟨by norm_num, by norm_num⟩)
      ⟨by norm_num, by norm_num⟩
      (by
        intro l hl _
        simp only [sampleOrder, List.mem_cons, List.mem_singleton, List.not_mem_nil,
          or_false] at hl
        rcases hl with rfl | rfl <;> exact ⟨by norm_num, by norm_num⟩)).1⟩

/-- C11 (counterexample): in double arithmetic, `removeItem(order, { sku: "PZ01" })`
on an order whose line PZ01 has `qty = 2^53 + 2` leaves `qty = 2^53`: the
difference `2^53 + 1` rounds to `2^53`, so the line is not decremented by 1. -/
theorem engine_removeItem_loses_decrement :
    Engine.removeItem
        (Order.toEngine
          { sampleOrder with items := [{ sku := "PZ01", qty := 9007199254740994 }] })
        "PZ01" (some (Dbl.fin 1)) =
      { thrown := none,
        order := Order.toEngine
          { sampleOrder with items := [{ sku := "PZ01", qty := 9007199254740992 }] } } ∧
    Dbl.fin (((9007199254740992 : ℤ) : ℚ)) ≠ Dbl.fin (((9007199254740994 - 1 : ℤ) : ℚ)) := by
  constructor
  · rw [engine_removeItem_found _ "PZ01" _ []
      { sku := "PZ01", qty := Dbl.fin ((9007199254740994 : ℤ) : ℚ) } [] rfl (by simp) rfl]
    have hdiff : Dbl.sub (Dbl.fin ((9007199254740994 : ℤ) : ℚ)) (Dbl.fin 1) =
        Dbl.fin ((9007199254740992 : ℤ) : ℚ) := by
      simp only [Dbl.sub, Dbl.neg, Dbl.add]
      have hval : (((9007199254740994 : ℤ) : ℚ)) + -1 = 9007199254740993 := by norm_num
      rw [hval, dblRound_two53_succ]
      norm_num
    have hpos : Dbl.leZero (Dbl.fin ((9007199254740992 : ℤ) : ℚ)) = false := by
      simp [Dbl.leZero]
    simp only [Option.getD_some, hdiff, hpos, List.nil_append]
    rfl
  · intro h
    injection h with h
    norm_num at h

/-- C11 (as amended): on an order whose line quantities are integers of magnitude at
most `2^53`, with an integer quantity of magnitude at most `2^53` such that the
decremented quantity of a line of the sku stays within `2^53` in magnitude, the
`removeItem` of the engine does what `removeItem` does in exact arithmetic: it
never throws and changes no field other than `items`; when no line has the sku
the order is unchanged; otherwise the first line of the sku has its `qty`
decremented by the given quantity (1 when omitted) and is deleted exactly when
the result is `≤ 0`, the other lines and their order staying as they were. -/
theorem removeItem_decrements_or_deletes (order : Order) (sku : String) (qty : Option ℤ)
    (_hlines : ∀ l ∈ order.items, SafeInt l.qty) (_hq : SafeInt (qty.getD 1))
    (hdiff : ∀ l ∈ order.items, l.sku = sku → SafeInt (l.qty - qty.getD 1)) :
    Engine.removeItem order.toEngine sku (qty.map (fun q : ℤ => Dbl.fin q)) =
      (removeItem order sku qty).toEngine ∧
    (removeItem order sku qty).thrown = none ∧
    (removeItem order sku qty).order =
      { order with items := (removeItem order sku qty).order.items } ∧
    ((∀ l ∈ order.items, l.sku ≠ sku) → (removeItem order sku qty).order = order) ∧
    ((∃ l ∈ order.items, l.sku = sku) →
      ∃ pre l post, order.items = pre ++ l :: post ∧ (∀ y ∈ pre, y.sku ≠ sku) ∧
        l.sku = sku ∧
        (l.qty - qty.getD 1 ≤ 0 → (removeItem order sku qty).order.items = pre ++ post) ∧
        (0 < l.qty - qty.getD 1 →
          (removeItem order sku qty).order.items =
            pre ++ { sku := sku, qty := l.qty - qty.getD 1 } :: post)) ∧
    Engine.removeItem order.toEngine sku none =
      Engine.removeItem order.toEngine sku (some (Dbl.fin 1)) := by
  obtain ⟨h1, h2, h3, h4, _⟩ := removeItem_exact order sku qty
  exact ⟨engine_removeItem_toEngine order sku qty hdiff, h1, h2, h3, h4, rfl⟩

/-- Witness of `removeItem_decrements_or_deletes`: one juice off the sample order. -/
theorem removeItem_decrements_or_deletes_witness :
    (removeItem sampleOrder "DR01" none).order.items =
      [{ sku := "PZ02", qty := 2 }, { sku := "DR01", qty := 2 }] ∧
    Engine.removeItem sampleOrder.toEngine "DR01" ((none : Option ℤ).map (fun q : ℤ => Dbl.fin q)) =
      (removeItem sampleOrder "DR01" none).toEngine :=
  ⟨by decide,
    (removeItem_decrements_or_deletes sampleOrder "DR01" none
      (by
        intro l hl
        simp only [sampleOrder, List.mem_cons, List.mem_singleton, List.not_mem_nil,
          or_false] at hl
        rcases hl with rfl | rfl <;> exact ⟨by norm_num, by norm_num⟩)
      ⟨by norm_num, by norm_num⟩
      (by
        intro l hl _
        simp only [sampleOrder, List.mem_cons, List.mem_singleton, List.not_mem_nil,
          or_false] at hl
        rcases hl with rfl | rfl <;> exact ⟨by norm_num, by norm_num⟩)).1⟩

/-- C6 (counterexample): in double arithmetic, on an order whose only line is PZ01
with `qty = 1`, `addItem` and then `removeItem` of PZ01 with `qty = 2^53` leave
no line at all: `1 + 2^53` rounds to `2^53`, and `2^53 - 2^53 = 0` deletes the
line. -/
theorem engine_roundtrip_loses_line :
    (Engine.addItem
        (Order.toEngine { sampleOrder with items := [{ sku := "PZ01", qty := 1 }] })
        "PZ01" (some (Dbl.fin 9007199254740992))).order =
      Order.toEngine
        { sampleOrder with items := [{ sku := "PZ01", qty := 9007199254740992 }] } ∧
    Engine.removeItem
        (Engine.addItem
          (Order.toEngine { sampleOrder with items := [{ sku := "PZ01", qty := 1 }] })
          "PZ01" (some (Dbl.fin 9007199254740992))).order
        "PZ01" (some (Dbl.fin 9007199254740992)) =
      { thrown := none, order := Order.toEngine { sampleOrder with items := [] } } ∧
    (Order.toEngine { sampleOrder with items := [] }).items ≠
      (Order.toEngine { sampleOrder with items := [{ sku := "PZ01", qty := 1 }] }).items := by
  have hadd : (Engine.addItem
        (Order.toEngine { sampleOrder with items := [{ sku := "PZ01", qty := 1 }] })
        "PZ01" (some (Dbl.fin 9007199254740992))).order =
      Order.toEngine
        { sampleOrder with items := [{ sku := "PZ01", qty := 9007199254740992 }] } := by
    rw [engine_addItem_found _ "PZ01" _ [] { sku := "PZ01", qty := Dbl.fin ((1 : ℤ) : ℚ) } []
      (by decide) rfl (by simp) rfl]
    simp only [Option.getD_some, Dbl.add, List.nil_append]
    have hsum : (((1 : ℤ) : ℚ)) + 9007199254740992 = 9007199254740993 := by norm_num
    rw [hsum, dblRound_two53_succ]
    have hval : (9007199254740992 : ℚ) = ((9007199254740992 : ℤ) : ℚ) := by norm_num
    rw [hval]
    rfl
  refine ⟨hadd, ?_, ?_⟩
  · rw [hadd]
    rw [engine_removeItem_found _ "PZ01" _ []
      { sku := "PZ01", qty := Dbl.fin ((9007199254740992 : ℤ) : ℚ) } [] rfl (by simp) rfl]
    have hdiff : Dbl.sub (Dbl.fin ((9007199254740992 : ℤ) : ℚ)) (Dbl.fin 9007199254740992) =
        Dbl.fin 0 := by
      simp only [Dbl.sub, Dbl.neg, Dbl.add]
      have hval : (((9007199254740992 : ℤ) : ℚ)) + -9007199254740992 = 0 := by norm_num
      rw [hval]
      simp [Dbl.round]
    have hzero : Dbl.leZero (Dbl.fin 0) = true := by simp [Dbl.leZero]
    simp only [Option.getD_some, hdiff, hzero, List.nil_append]
    rfl
  · simp [Order.toEngine]

/-- C6 (as amended): on an order whose lines are unique by sku with positive integer
quantities of at most `2^53`, for a catalog sku and a positive integer `q` of at
most `2^53` such that the incremented quantity of a line of the sku is at most
`2^53`, `addItem` followed by `removeItem` with the same sku and `q` returns
normally twice and restores the order, in the engine as in exact arithmetic, so
`order.items` is exactly its prior sequence of lines. -/
theorem addItem_removeItem_roundtrip (order : Order) (sku : String) (q : ℤ)
    (hu : (order.items.map Line.sku).Nodup) (hp : ∀ l ∈ order.items, 0 < l.qty)
    (hs : sku ∈ menuKeys) (hq : 0 < q)
    (hlines : ∀ l ∈ order.items, SafeInt l.qty) (hqs : SafeInt q)
    (hsum : ∀ l ∈ order.items, l.sku = sku → SafeInt (l.qty + q)) :
    (Engine.addItem order.toEngine sku (some (Dbl.fin q))).thrown = none ∧
    Engine.removeItem (Engine.addItem order.toEngine sku (some (Dbl.fin q))).order sku
        (some (Dbl.fin q)) =
      { thrown := none, order := order.toEngine } ∧
    (removeItem (addItem order sku (some q)).order sku (some q)).order.items =
      order.items := by
  obtain ⟨hadd, hrem, hback, hitems⟩ := roundtrip_exact order sku q hu hp hs hq
  have hg := getItem_ne_none_of_mem_menuKeys sku hs
  have hE : Engine.addItem order.toEngine sku (some (Dbl.fin q)) =
      (addItem order sku (some q)).toEngine :=
    engine_addItem_toEngine order sku (some q) hsum
  have hdiff : ∀ l ∈ (addItem order sku (some q)).order.items, l.sku = sku →
      SafeInt (l.qty - (some q).getD 1) := by
    have hsmall : ∀ l ∈ order.items, SafeInt (l.qty - q) := by
      intro l hl
      have h1 := hlines l hl
      have h2 := hp l hl
      unfold SafeInt at h1 hqs ⊢
      constructor <;> omega
    by_cases hex : ∃ l ∈ order.items, (fun l : Line => l.sku == sku) l = true
    · obtain ⟨pre, l, post, hl, hpre, hx⟩ := exists_first_split _ order.items hex
      rw [addItem_found order sku (some q) pre l post hg hl (by simpa using hpre)
        (by simpa using hx)]
      intro l' hl' _
      simp only [List.mem_append, List.mem_cons] at hl'
      simp only [Option.getD_some]
      rcases hl' with hl' | rfl | hl'
      · exact hsmall l' (by rw [hl]; simp [hl'])
      · have := hlines l (by rw [hl]; simp)
        simpa using this
      · exact hsmall l' (by rw [hl]; simp [hl'])
    · have hno : ∀ y ∈ order.items, y.sku ≠ sku := by simpa using hex
      rw [addItem_absent order sku (some q) hg hno]
      intro l' hl' _
      simp only [List.mem_append, List.mem_singleton] at hl'
      simp only [Option.getD_some]
      rcases hl' with hl' | rfl
      · exact hsmall l' hl'
      · simp only [sub_self]
        exact ⟨by norm_num, by norm_num⟩
  have hE2 := engine_removeItem_toEngine (addItem order sku (some q)).order sku (some q) hdiff
  refine ⟨?_, ?_, hitems⟩
  · rw [hE]
    exact hadd
  · rw [hE]
    show Engine.removeItem (addItem order sku (some q)).order.toEngine sku
      (some (Dbl.fin q)) = _
    rw [show (some (Dbl.fin (q : ℚ)) : Option Dbl) =
      (some q).map (fun q : ℤ => Dbl.fin q) from rfl, hE2]
    simp only [Outcome.toEngine, hrem, hback]

/-- Witness of `addItem_removeItem_roundtrip`: two juices on and off the sample order. -/
theorem addItem_removeItem_roundtrip_witness :
    (Engine.addItem sampleOrder.toEngine "DR01" (some (Dbl.fin ((2 : ℤ) : ℚ)))).thrown = none ∧
    Engine.removeItem
        (Engine.addItem sampleOrder.toEngine "DR01" (some (Dbl.fin ((2 : ℤ) : ℚ)))).order "DR01"
        (some (Dbl.fin ((2 : ℤ) : ℚ))) =
      { thrown := none, order := sampleOrder.toEngine } ∧
    (removeItem (addItem sampleOrder "DR01" (some 2)).order "DR01" (some 2)).order.items =
      sampleOrder.items :=
  addItem_removeItem_roundtrip sampleOrder "DR01" 2 (by decide) (by decide) (by decide)
    (by decide)
    (by
      intro l hl
      simp only [sampleOrder, List.mem_cons, List.mem_singleton, List.not_mem_nil,
        or_false] at hl
      rcases hl with rfl | rfl <;> exact ⟨by norm_num, by norm_num⟩)
    ⟨by norm_num, by norm_num⟩
    (by
      intro l hl _
      simp only [sampleOrder, List.mem_cons, List.mem_singleton, List.not_mem_nil,
        or_false] at hl
      rcases hl with rfl | rfl <;> exact ⟨by norm_num, by norm_num⟩)

/-! ## Rounding error -/

/-- Rounding to the nearest integer moves a value by at most one half. -/
theorem roundHalfEven_error (t : ℚ) : |(roundHalfEven t : ℚ) - t| ≤ 1 / 2 := by
  have h1 : (⌊t⌋ : ℚ) ≤ t := Int.floor_le t
  have h2 : t < ⌊t⌋ + 1 := Int.lt_floor_add_one t
  unfold roundHalfEven
  rw [abs_le]
  split_ifs with ha hb hc
  · constructor <;> linarith
  · push_cast; constructor <;> linarith
  · constructor <;> linarith
  · push_cast; constructor <;> linarith

/-- The value `Dbl.round` settles on before it tests for overflow differs from the
exact value by at most `2^-53` of its magnitude, or by `2^-1075` among the
subnormal numbers. -/
theorem rounded_error (x : ℚ) (hx : x ≠ 0) :
    |(roundHalfEven (x / 2 ^ ulpExponent x) : ℚ) * 2 ^ ulpExponent x - x| ≤
      |x| * 2 ^ (-53 : ℤ) + 2 ^ (-1075 : ℤ) := by
  have hpow : (0 : ℚ) < 2 ^ ulpExponent x := by positivity
  have herr := roundHalfEven_error (x / 2 ^ ulpExponent x)
  have hsplit : (roundHalfEven (x / 2 ^ ulpExponent x) : ℚ) * 2 ^ ulpExponent x - x =
      ((roundHalfEven (x / 2 ^ ulpExponent x) : ℚ) - x / 2 ^ ulpExponent x) *
        2 ^ ulpExponent x := by
    field_simp
  rw [hsplit, abs_mul, abs_of_pos hpow]
  have hstep : |(roundHalfEven (x / 2 ^ ulpExponent x) : ℚ) - x / 2 ^ ulpExponent x| *
      2 ^ ulpExponent x ≤ 1 / 2 * 2 ^ ulpExponent x :=
    mul_le_mul_of_nonneg_right herr (le_of_lt hpow)
  refine le_trans hstep ?_
  have habs : (0 : ℚ) < |x| := abs_pos.mpr hx
  have hlog := Int.zpow_log_le_self (b := 2) (by norm_num) habs
  push_cast at hlog
  have hnn1 : (0 : ℚ) ≤ |x| * 2 ^ (-53 : ℤ) := by positivity
  have hnn2 : (0 : ℚ) ≤ 2 ^ (-1075 : ℤ) := by positivity
  unfold ulpExponent
  by_cases hnorm : (-1022 : ℤ) ≤ Int.log 2 |x|
  · rw [max_eq_left hnorm]
    have hk : (1 / 2 : ℚ) * 2 ^ (Int.log 2 |x| - 52) = 2 ^ Int.log 2 |x| * 2 ^ (-53 : ℤ) := by
      rw [show Int.log 2 |x| - 52 = Int.log 2 |x| + (-52) by ring,
        zpow_add₀ (by norm_num : (2 : ℚ) ≠ 0)]
      norm_num
      ring
    rw [hk]
    have : (2 : ℚ) ^ Int.log 2 |x| * 2 ^ (-53 : ℤ) ≤ |x| * 2 ^ (-53 : ℤ) :=
      mul_le_mul_of_nonneg_right hlog (by positivity)
    linarith
  · rw [max_eq_right (by omega)]
    have hk : (1 / 2 : ℚ) * 2 ^ ((-1022 : ℤ) - 52) = 2 ^ (-1075 : ℤ) := by
      rw [show ((-1022 : ℤ) - 52) = -1074 by norm_num,
        show (-1075 : ℤ) = -1074 + (-1) by norm_num,
        zpow_add₀ (by norm_num : (2 : ℚ) ≠ 0)]
      norm_num
    rw [hk]
    linarith

/-- What `Dbl.round` returns on a non-negative value: a non-negative double within
the rounding error of the value, or `Infinity` when the value is at least
`2^1023`. -/
theorem dblRound_nonneg (x : ℚ) (hx : 0 ≤ x) :
    (∃ y : ℚ, Dbl.round x = Dbl.fin y ∧ 0 ≤ y ∧
      |y - x| ≤ x * 2 ^ (-53 : ℤ) + 2 ^ (-1075 : ℤ)) ∨
    (Dbl.round x = Dbl.posInf ∧ 2 ^ 1023 ≤ x) := by
  by_cases h0 : x = 0
  · left
    refine ⟨0, by simp [Dbl.round, h0], le_refl _, ?_⟩
    rw [h0]
    simp only [sub_self, abs_zero, zero_mul, zero_add]
    positivity
  have hpos : 0 < x := lt_of_le_of_ne hx (Ne.symm h0)
  have herr := rounded_error x h0
  rw [abs_of_pos hpos] at herr
  have hsmall : (2 : ℚ) ^ (-1075 : ℤ) < 1 := by
    rw [zpow_neg]
    exact inv_lt_one_of_one_lt₀ (by norm_num)
  have h53 : (2 : ℚ) ^ (-53 : ℤ) = 1 / 9007199254740992 := by norm_num
  have hfloor : (0 : ℤ) ≤ roundHalfEven (x / 2 ^ ulpExponent x) := by
    have ht : (0 : ℚ) ≤ x / 2 ^ ulpExponent x := by positivity
    have hf : (0 : ℤ) ≤ ⌊x / 2 ^ ulpExponent x⌋ := Int.floor_nonneg.mpr ht
    unfold roundHalfEven
    split_ifs <;> omega
  have hy0 : (0 : ℚ) ≤ (roundHalfEven (x / 2 ^ ulpExponent x) : ℚ) * 2 ^ ulpExponent x := by
    have : (0 : ℚ) ≤ (roundHalfEven (x / 2 ^ ulpExponent x) : ℚ) := by exact_mod_cast hfloor
    positivity
  simp only [Dbl.round, if_neg h0]
  by_cases hover : (2 : ℚ) ^ 1024 ≤
      (roundHalfEven (x / 2 ^ ulpExponent x) : ℚ) * 2 ^ ulpExponent x
  · right
    rw [if_pos hover]
    refine ⟨rfl, ?_⟩
    by_contra hlt
    push_neg at hlt
    have h1 := (abs_le.mp herr).2
    have h1024 : (2 : ℚ) ^ 1024 = 2 * 2 ^ 1023 := by norm_num
    rw [h53] at h1
    nlinarith
  · left
    rw [if_neg hover, if_neg (by
      push_neg
      have : (-(2 : ℚ) ^ 1024) < 0 := by norm_num
      linarith)]
    exact ⟨_, rfl, hy0, herr⟩

/-! ## Discount policy in double-precision arithmetic -/

/-- The literal `0.1` denotes the double `3602879701896397 / 2^55`. -/
theorem dblRound_tenth :
    Dbl.round (1 / 10) = Dbl.fin (3602879701896397 / 36028797018963968) := by
  rw [dblRound_eq _ (-4) 7205759403792794 (by norm_num [abs_of_pos])
    (by norm_num [abs_of_pos]) (roundHalfEven_near _ _ (by norm_num [abs_lt]))
    (by norm_num) (by norm_num)]
  norm_num

/-- The literal `0.05` denotes the double `3602879701896397 / 2^56`. -/
theorem dblRound_twentieth :
    Dbl.round (1 / 20) = Dbl.fin (3602879701896397 / 72057594037927936) := by
  rw [dblRound_eq _ (-5) 7205759403792794 (by norm_num [abs_of_pos])
    (by norm_num [abs_of_pos]) (roundHalfEven_near _ _ (by norm_num [abs_lt]))
    (by norm_num) (by norm_num)]
  norm_num

/-- The discount of the engine for the coupon WELCOME10 on a finite subtotal. -/
theorem engine_computeDiscount_welcome10 (s : ℚ) :
    Engine.computeDiscount (Dbl.fin s) (some "WELCOME10") =
      Dbl.min (Dbl.fin 10) (Dbl.round (s * (3602879701896397 / 36028797018963968))) := by
  show Dbl.min (Dbl.fin 10) (Dbl.mul (Dbl.fin s) (Dbl.round (1 / 10))) = _
  rw [dblRound_tenth]
  rfl

/-- The discount of the engine for a coupon string that is neither WELCOME10 nor
DRINKS5. -/
theorem engine_computeDiscount_other (subtotal : Dbl) (c : String) (h1 : c ≠ "WELCOME10")
    (h2 : c ≠ "DRINKS5") : Engine.computeDiscount subtotal (some c) = Dbl.fin 0 := by
  unfold Engine.computeDiscount
  split
  · rename_i heq; exact absurd (Option.some.inj heq) h1
  · rename_i heq; exact absurd (Option.some.inj heq) h2
  · rfl
  · rfl

/-- A non-negative value times a rate `(1 + 2^-54) / n`, rounded and capped: the
result is within `2^-52` of the `n`-th of the value, relatively, or within
`2^-1075` among the subnormal numbers. -/
theorem rounded_product_error (a c r : ℚ) (ha : 0 ≤ a) (hr : 0 ≤ r)
    (hc : c = r * (1 + 2 ^ (-54 : ℤ))) :
    (∃ y : ℚ, Dbl.round (a * c) = Dbl.fin y ∧ 0 ≤ y ∧
      |y - a * r| ≤ a * r * 2 ^ (-52 : ℤ) + 2 ^ (-1075 : ℤ)) ∨
    (Dbl.round (a * c) = Dbl.posInf ∧ 2 ^ 1022 ≤ a * r) := by
  have h54 : (2 : ℚ) ^ (-54 : ℤ) = 1 / 18014398509481984 := by norm_num
  have h53 : (2 : ℚ) ^ (-53 : ℤ) = 1 / 9007199254740992 := by norm_num
  have h52 : (2 : ℚ) ^ (-52 : ℤ) = 1 / 4503599627370496 := by norm_num
  have har : 0 ≤ a * r := mul_nonneg ha hr
  have hx : a * c = a * r * (1 + 1 / 18014398509481984) := by rw [hc, h54]; ring
  have hx0 : 0 ≤ a * c := by rw [hx]; positivity
  rcases dblRound_nonneg (a * c) hx0 with ⟨y, hy, hy0, herr⟩ | ⟨hinf, hbig⟩
  · left
    refine ⟨y, hy, hy0, ?_⟩
    rw [h53, hx] at herr
    rw [h52]
    rw [abs_le] at herr ⊢
    constructor <;> nlinarith [herr.1, herr.2]
  · right
    refine ⟨hinf, ?_⟩
    rw [hx] at hbig
    have h1023 : (2 : ℚ) ^ 1023 = 2 * 2 ^ 1022 := by norm_num
    nlinarith

/-- C15 (as amended): for a non-negative finite subtotal the `computeDiscount` of the
engine returns 0 when the coupon is absent, 5 for DRINKS5 when `subtotal ≥ 5`,
0 for every other coupon string, and for WELCOME10 the smaller of 10 and the
product of the subtotal and the double `0.1` rounded to the nearest double: a
number from 0 to 10 that is within `2^-52`, relatively, of
`min(10, subtotal / 10)` (within `2^-1075` among the subnormal numbers). -/
theorem computeDiscount_policy (s : ℚ) (hs : 0 ≤ s) :
    Engine.computeDiscount (Dbl.fin s) none = Dbl.fin 0 ∧
    Engine.computeDiscount (Dbl.fin s) (some "WELCOME10") =
      Dbl.min (Dbl.fin 10) (Dbl.round (s * (3602879701896397 / 36028797018963968))) ∧
    (∃ d : ℚ, Engine.computeDiscount (Dbl.fin s) (some "WELCOME10") = Dbl.fin d ∧
      0 ≤ d ∧ d ≤ 10 ∧
      |d - min 10 (s / 10)| ≤ s / 10 * 2 ^ (-52 : ℤ) + 2 ^ (-1075 : ℤ)) ∧
    (5 ≤ s → Engine.computeDiscount (Dbl.fin s) (some "DRINKS5") = Dbl.fin 5) ∧
    (∀ c : String, c ≠ "WELCOME10" → c ≠ "DRINKS5" →
      Engine.computeDiscount (Dbl.fin s) (some c) = Dbl.fin 0) := by
  refine ⟨rfl, engine_computeDiscount_welcome10 s, ?_, fun _ => rfl,
    fun c h1 h2 => engine_computeDiscount_other _ c h1 h2⟩
  rw [engine_computeDiscount_welcome10]
  have hnn : (0 : ℚ) ≤ s / 10 * 2 ^ (-52 : ℤ) + 2 ^ (-1075 : ℤ) := by positivity
  rcases rounded_product_error s (3602879701896397 / 36028797018963968) (1 / 10) hs
      (by norm_num) (by norm_num) with ⟨y, hy, hy0, herr⟩ | ⟨hinf, hbig⟩
  · rw [hy]
    refine ⟨min 10 y, rfl, le_min (by norm_num) hy0, min_le_left _ _, ?_⟩
    have h1 : |min 10 y - min 10 (s / 10)| ≤ max |(10 : ℚ) - 10| |y - s / 10| :=
      abs_min_sub_min_le_max _ _ _ _
    have h2 : max |(10 : ℚ) - 10| |y - s / 10| = |y - s / 10| := by
      rw [sub_self, abs_zero]
      exact max_eq_right (abs_nonneg _)
    rw [h2] at h1
    have h3 : s * (1 / 10) = s / 10 := by ring
    rw [h3] at herr
    exact le_trans h1 herr
  · rw [hinf]
    refine ⟨10, rfl, by norm_num, le_refl _, ?_⟩
    have hlarge : (10 : ℚ) ≤ s / 10 := by
      have : (10 : ℚ) ≤ 2 ^ 1022 := by norm_num
      linarith
    rw [min_eq_left hlarge, sub_self, abs_zero]
    exact hnn

/-- The discount of the engine on the subtotal 214 of the demo order. -/
theorem engine_computeDiscount_214 :
    Engine.computeDiscount (Dbl.fin 214) (some "WELCOME10") = Dbl.fin 10 := by
  rw [engine_computeDiscount_welcome10]
  rw [dblRound_eq _ 4 6023564501608039 (by norm_num [abs_of_pos]) (by norm_num [abs_of_pos])
    (roundHalfEven_near _ _ (by norm_num [abs_lt])) (by norm_num) (by norm_num)]
  simp only [Dbl.min]
  norm_num

/-- Witness of `computeDiscount_policy`: the subtotal 214 of the demo order. -/
theorem computeDiscount_policy_witness :
    Engine.computeDiscount (Dbl.fin 214) (some "WELCOME10") = Dbl.fin 10 ∧
    Engine.computeDiscount (Dbl.fin 214) none = Dbl.fin 0 ∧
    ∃ d : ℚ, Engine.computeDiscount (Dbl.fin 214) (some "WELCOME10") = Dbl.fin d ∧
      0 ≤ d ∧ d ≤ 10 ∧
      |d - min 10 ((214 : ℚ) / 10)| ≤ (214 : ℚ) / 10 * 2 ^ (-52 : ℤ) + 2 ^ (-1075 : ℤ) :=
  ⟨engine_computeDiscount_214, (computeDiscount_policy 214 (by norm_num)).1,
    (computeDiscount_policy 214 (by norm_num)).2.2.1⟩

/-- C15 (counterexample): on the subtotal 33 with the coupon WELCOME10 the engine
returns the double `3.3000000000000003`, which is not `min(10, 33 / 10)`. -/
theorem engine_computeDiscount_33 :
    Engine.computeDiscount (Dbl.fin 33) (some "WELCOME10") =
      Dbl.fin (7430939385161319 / 2251799813685248) ∧
    Dbl.fin (7430939385161319 / 2251799813685248) ≠ Dbl.fin (min 10 (33 / 10)) := by
  constructor
  · rw [engine_computeDiscount_welcome10]
    rw [dblRound_eq _ 1 7430939385161319 (by norm_num [abs_of_pos]) (by norm_num [abs_of_pos])
      (roundHalfEven_near _ _ (by norm_num [abs_lt])) (by norm_num) (by norm_num)]
    simp only [Dbl.min]
    norm_num
  · intro h
    injection h with h
    norm_num at h

/-! ## Totals in double-precision arithmetic -/

/-- The `reduce` of the engine is the left-to-right sum of the line totals. -/
theorem engine_subtotal (order : Engine.Order) :
    (Engine.computeTotals order).subtotal =
      (order.items.map Engine.lineTotal).foldl Dbl.add (Dbl.fin 0) := by
  simp only [Engine.computeTotals, List.foldl_map]

/-- A maximum with 0 that is finite is not negative. -/
theorem dblMax_zero_nonneg (z : Dbl) (a : ℚ) (h : Dbl.max (Dbl.fin 0) z = Dbl.fin a) :
    0 ≤ a := by
  cases z with
  | fin b =>
    simp only [Dbl.max, Dbl.fin.injEq] at h
    rw [← h]
    exact le_max_left _ _
  | posInf => simp [Dbl.max] at h
  | negInf =>
    simp only [Dbl.max, Dbl.fin.injEq] at h
    rw [← h]
  | nan => simp [Dbl.max] at h

/-- The sum `(a + taxes) + service` of the engine for a non-negative `a`, taxes near
`a / 10` and a service near `a / 20`: a non-negative double within `2^-51`,
relatively, of `a * 23 / 20` (within `2^-1072` among the subnormal numbers), or
`Infinity` when `a * 23 / 20` is at least `2^1022`. -/
theorem engine_total_error (a : ℚ) (ha : 0 ≤ a) (T V : Dbl)
    (hT : (∃ t : ℚ, T = Dbl.fin t ∧ 0 ≤ t ∧
        |t - a * (1 / 10)| ≤ a * (1 / 10) * 2 ^ (-52 : ℤ) + 2 ^ (-1075 : ℤ)) ∨
      (T = Dbl.posInf ∧ 2 ^ 1022 ≤ a * (1 / 10)))
    (hV : (∃ v : ℚ, V = Dbl.fin v ∧ 0 ≤ v ∧
        |v - a * (1 / 20)| ≤ a * (1 / 20) * 2 ^ (-52 : ℤ) + 2 ^ (-1075 : ℤ)) ∨
      (V = Dbl.posInf ∧ 2 ^ 1022 ≤ a * (1 / 20))) :
    (∃ w : ℚ, Dbl.add (Dbl.add (Dbl.fin a) T) V = Dbl.fin w ∧ 0 ≤ w ∧
        |w - a * (23 / 20)| ≤ a * (23 / 20) * 2 ^ (-51 : ℤ) + 2 ^ (-1072 : ℤ)) ∨
      (Dbl.add (Dbl.add (Dbl.fin a) T) V = Dbl.posInf ∧ 2 ^ 1022 ≤ a * (23 / 20)) := by
  have h51 : (2 : ℚ) ^ (-51 : ℤ) = 1 / 2251799813685248 := by norm_num
  have h52 : (2 : ℚ) ^ (-52 : ℤ) = 1 / 4503599627370496 := by norm_num
  have h53 : (2 : ℚ) ^ (-53 : ℤ) = 1 / 9007199254740992 := by norm_num
  have h1072 : (2 : ℚ) ^ (-1072 : ℤ) = 8 * 2 ^ (-1075 : ℤ) := by
    rw [show (-1072 : ℤ) = 3 + -1075 from by norm_num, zpow_add₀ (by norm_num)]
    norm_num
  have he0 : (0 : ℚ) < 2 ^ (-1075 : ℤ) := by positivity
  have he1 : (2 : ℚ) ^ (-1075 : ℤ) < 1 := by
    rw [zpow_neg]
    exact inv_lt_one_of_one_lt₀ (by norm_num)
  have h1023 : (2 : ℚ) ^ 1023 = 2 * 2 ^ 1022 := by norm_num
  have hbig : (1000 : ℚ) ≤ 2 ^ 1022 := by norm_num
  rw [h51, h1072]
  rw [h52] at hT hV
  rcases hT with ⟨t, rfl, ht0, hterr⟩ | ⟨rfl, htbig⟩
  · rcases hV with ⟨v, rfl, hv0, hverr⟩ | ⟨rfl, hvbig⟩
    · rw [abs_le] at hterr hverr
      rcases dblRound_nonneg (a + t) (by linarith) with ⟨u, hu, hu0, huerr⟩ | ⟨hu, hubig⟩
      · have hadd1 : Dbl.add (Dbl.fin a) (Dbl.fin t) = Dbl.fin u := hu
        rw [hadd1]
        rw [h53, abs_le] at huerr
        rcases dblRound_nonneg (u + v) (by linarith) with ⟨w, hw, hw0, hwerr⟩ | ⟨hw, hwbig⟩
        · left
          refine ⟨w, hw, hw0, ?_⟩
          rw [h53, abs_le] at hwerr
          rw [abs_le]
          constructor <;> linarith [hterr.1, hterr.2, hverr.1, hverr.2, huerr.1, huerr.2,
            hwerr.1, hwerr.2]
        · right
          refine ⟨hw, ?_⟩
          linarith [hterr.2, hverr.2, huerr.2]
      · have hadd1 : Dbl.add (Dbl.fin a) (Dbl.fin t) = Dbl.posInf := hu
        rw [hadd1]
        right
        refine ⟨rfl, ?_⟩
        linarith [hterr.2]
    · right
      refine ⟨?_, by linarith⟩
      rcases dblRound_nonneg (a + t) (by linarith) with ⟨u, hu, _, _⟩ | ⟨hu, _⟩
      · have hadd1 : Dbl.add (Dbl.fin a) (Dbl.fin t) = Dbl.fin u := hu
        rw [hadd1]
        rfl
      · have hadd1 : Dbl.add (Dbl.fin a) (Dbl.fin t) = Dbl.posInf := hu
        rw [hadd1]
        rfl
  · right
    refine ⟨?_, by linarith⟩
    rcases hV with ⟨v, rfl, _, _⟩ | ⟨rfl, _⟩
    · rfl
    · rfl

/-- C8 (as amended): the `computeTotals` of the engine returns the subtotal as the sum
of `lineTotal` over the lines from left to right, the discount as
`computeDiscount` of that subtotal and the coupon of the order, and, with
`afterDiscount = max(0, subtotal - discount)`, the taxes as
`afterDiscount * 0.1`, the service as `afterDiscount * 0.05` and the total as
`(afterDiscount + taxes) + service`, every operation rounded to the nearest
double; when `afterDiscount` is a finite number `a`, it is not negative, the
taxes and the service are within `2^-52`, relatively, of `a / 10` and `a / 20`
(within `2^-1075` among the subnormal numbers), or `Infinity` when `a / 10`,
respectively `a / 20`, is at least `2^1022`, and the total is within `2^-51`,
relatively, of `a * 23 / 20` (within `2^-1072` among the subnormal numbers), or
`Infinity` when `a * 23 / 20` is at least `2^1022`. -/
theorem computeTotals_formula (order : Engine.Order) :
    (Engine.computeTotals order).subtotal =
      (order.items.map Engine.lineTotal).foldl Dbl.add (Dbl.fin 0) ∧
    (Engine.computeTotals order).discount =
      Engine.computeDiscount (Engine.computeTotals order).subtotal order.coupon ∧
    (Engine.computeTotals order).taxes =
      Dbl.mul (Dbl.max (Dbl.fin 0)
        (Dbl.sub (Engine.computeTotals order).subtotal (Engine.computeTotals order).discount))
        (Dbl.round (1 / 10)) ∧
    (Engine.computeTotals order).service =
      Dbl.mul (Dbl.max (Dbl.fin 0)
        (Dbl.sub (Engine.computeTotals order).subtotal (Engine.computeTotals order).discount))
        (Dbl.round (1 / 20)) ∧
    (Engine.computeTotals order).total =
      Dbl.add (Dbl.add (Dbl.max (Dbl.fin 0)
        (Dbl.sub (Engine.computeTotals order).subtotal (Engine.computeTotals order).discount))
        (Engine.computeTotals order).taxes) (Engine.computeTotals order).service ∧
    (∀ a : ℚ,
      Dbl.max (Dbl.fin 0)
        (Dbl.sub (Engine.computeTotals order).subtotal
          (Engine.computeTotals order).discount) = Dbl.fin a →
      0 ≤ a ∧
      ((∃ t : ℚ, (Engine.computeTotals order).taxes = Dbl.fin t ∧ 0 ≤ t ∧
          |t - a * (1 / 10)| ≤ a * (1 / 10) * 2 ^ (-52 : ℤ) + 2 ^ (-1075 : ℤ)) ∨
        ((Engine.computeTotals order).taxes = Dbl.posInf ∧ 2 ^ 1022 ≤ a * (1 / 10))) ∧
      ((∃ v : ℚ, (Engine.computeTotals order).service = Dbl.fin v ∧ 0 ≤ v ∧
          |v - a * (1 / 20)| ≤ a * (1 / 20) * 2 ^ (-52 : ℤ) + 2 ^ (-1075 : ℤ)) ∨
        ((Engine.computeTotals order).service = Dbl.posInf ∧ 2 ^ 1022 ≤ a * (1 / 20))) ∧
      ((∃ w : ℚ, (Engine.computeTotals order).total = Dbl.fin w ∧ 0 ≤ w ∧
          |w - a * (23 / 20)| ≤ a * (23 / 20) * 2 ^ (-51 : ℤ) + 2 ^ (-1072 : ℤ)) ∨
        ((Engine.computeTotals order).total = Dbl.posInf ∧ 2 ^ 1022 ≤ a * (23 / 20)))) := by
  refine ⟨engine_subtotal order, rfl, rfl, rfl, rfl, ?_⟩
  intro a ha
  have ha0 := dblMax_zero_nonneg _ a ha
  have htax : (Engine.computeTotals order).taxes =
      Dbl.round (a * (3602879701896397 / 36028797018963968)) := by
    show Dbl.mul (Dbl.max (Dbl.fin 0)
      (Dbl.sub (Engine.computeTotals order).subtotal (Engine.computeTotals order).discount))
      (Dbl.round (1 / 10)) = _
    rw [ha, dblRound_tenth]
    rfl
  have hserv : (Engine.computeTotals order).service =
      Dbl.round (a * (3602879701896397 / 72057594037927936)) := by
    show Dbl.mul (Dbl.max (Dbl.fin 0)
      (Dbl.sub (Engine.computeTotals order).subtotal (Engine.computeTotals order).discount))
      (Dbl.round (1 / 20)) = _
    rw [ha, dblRound_twentieth]
    rfl
  have htaxerr := rounded_product_error a (3602879701896397 / 36028797018963968) (1 / 10) ha0
    (by norm_num) (by norm_num)
  have hserverr := rounded_product_error a (3602879701896397 / 72057594037927936) (1 / 20) ha0
    (by norm_num) (by norm_num)
  have htot : (Engine.computeTotals order).total =
      Dbl.add (Dbl.add (Dbl.fin a)
        (Dbl.round (a * (3602879701896397 / 36028797018963968))))
        (Dbl.round (a * (3602879701896397 / 72057594037927936))) := by
    show Dbl.add (Dbl.add (Dbl.max (Dbl.fin 0)
      (Dbl.sub (Engine.computeTotals order).subtotal (Engine.computeTotals order).discount))
      (Engine.computeTotals order).taxes) (Engine.computeTotals order).service = _
    rw [ha, htax, hserv]
  refine ⟨ha0, ?_, ?_, ?_⟩
  · rw [htax]
    exact htaxerr
  · rw [hserv]
    exact hserverr
  · rw [htot]
    exact engine_total_error a ha0 _ _ htaxerr hserverr

/-- A numeral of at most `2^53` is a double. -/
theorem dblRound_ofNat (n : ℕ) [n.AtLeastTwo] (h : n ≤ 2 ^ 53) :
    Dbl.round (OfNat.ofNat n : ℚ) = Dbl.fin (OfNat.ofNat n) := by
  have := dblRound_int (n : ℤ) ⟨le_trans (by norm_num) (Int.natCast_nonneg n),
    by exact_mod_cast h⟩
  rw [Int.cast_natCast, Nat.cast_eq_ofNat] at this
  exact this

/-- The number 1 is a double. -/
theorem dblRound_one : Dbl.round 1 = Dbl.fin 1 := by
  have := dblRound_int 1 ⟨by norm_num, by norm_num⟩
  simpa using this

/-- How the totals of the engine are evaluated once the subtotal, the discount and
the amount after discount are known to be finite. -/
theorem engine_totals_eval (order : Engine.Order) (s d b : ℚ)
    (hs : (Engine.computeTotals order).subtotal = Dbl.fin s)
    (hd : Engine.computeDiscount (Dbl.fin s) order.coupon = Dbl.fin d)
    (hb : Dbl.round (s - d) = Dbl.fin b) :
    Engine.computeTotals order =
      { subtotal := Dbl.fin s, discount := Dbl.fin d,
        taxes := Dbl.round (max 0 b * (3602879701896397 / 36028797018963968)),
        service := Dbl.round (max 0 b * (3602879701896397 / 72057594037927936)),
        total := Dbl.add (Dbl.add (Dbl.fin (max 0 b))
          (Dbl.round (max 0 b * (3602879701896397 / 36028797018963968))))
          (Dbl.round (max 0 b * (3602879701896397 / 72057594037927936))) } := by
  have hdisc : (Engine.computeTotals order).discount = Dbl.fin d := by
    show Engine.computeDiscount (Engine.computeTotals order).subtotal order.coupon = _
    rw [hs, hd]
  have hafter : Dbl.max (Dbl.fin 0)
      (Dbl.sub (Engine.computeTotals order).subtotal (Engine.computeTotals order).discount) =
      Dbl.fin (max 0 b) := by
    rw [hs, hdisc]
    simp only [Dbl.sub, Dbl.neg, Dbl.add]
    rw [← sub_eq_add_neg, hb]
    rfl
  have htax : (Engine.computeTotals order).taxes =
      Dbl.round (max 0 b * (3602879701896397 / 36028797018963968)) := by
    show Dbl.mul (Dbl.max (Dbl.fin 0)
      (Dbl.sub (Engine.computeTotals order).subtotal (Engine.computeTotals order).discount))
      (Dbl.round (1 / 10)) = _
    rw [hafter, dblRound_tenth]
    rfl
  have hserv : (Engine.computeTotals order).service =
      Dbl.round (max 0 b * (3602879701896397 / 72057594037927936)) := by
    show Dbl.mul (Dbl.max (Dbl.fin 0)
      (Dbl.sub (Engine.computeTotals order).subtotal (Engine.computeTotals order).discount))
      (Dbl.round (1 / 20)) = _
    rw [hafter, dblRound_twentieth]
    rfl
  have htot : (Engine.computeTotals order).total =
      Dbl.add (Dbl.add (Dbl.fin (max 0 b))
        (Dbl.round (max 0 b * (3602879701896397 / 36028797018963968))))
        (Dbl.round (max 0 b * (3602879701896397 / 72057594037927936))) := by
    show Dbl.add (Dbl.add (Dbl.max (Dbl.fin 0)
      (Dbl.sub (Engine.computeTotals order).subtotal (Engine.computeTotals order).discount))
      (Engine.computeTotals order).taxes) (Engine.computeTotals order).service = _
    rw [hafter, htax, hserv]
  cases hall : Engine.computeTotals order with
  | mk s' d' t' v' tot' =>
    rw [hall] at hs hdisc htax hserv htot
    simp only at hs hdisc htax hserv htot
    rw [hs, hdisc, htax, hserv, htot]

/-- C8 (counterexample): on an order without coupon whose only line is one DS01, the
subtotal is 28 and the taxes of the engine are the double
`2.8000000000000003`, not `28 * 1/10`. -/
theorem engine_taxes_28 :
    (Engine.computeTotals
      (Order.toEngine
        { sampleOrder with coupon := none, items := [{ sku := "DS01", qty := 1 }] })).subtotal =
      Dbl.fin 28 ∧
    (Engine.computeTotals
      (Order.toEngine
        { sampleOrder with coupon := none, items := [{ sku := "DS01", qty := 1 }] })).taxes =
      Dbl.fin (6305039478318695 / 2251799813685248) ∧
    Dbl.fin (6305039478318695 / 2251799813685248) ≠ Dbl.fin (28 * (1 / 10)) := by
  have h28 : Dbl.round 28 = Dbl.fin 28 := dblRound_ofNat 28 (by norm_num)
  have hsub : (Engine.computeTotals
      (Order.toEngine
        { sampleOrder with coupon := none, items := [{ sku := "DS01", qty := 1 }] })).subtotal =
      Dbl.fin 28 := by
    rw [engine_subtotal]
    simp [Order.toEngine, Line.toEngine, Engine.lineTotal, getItem, menuGet, menu, List.lookup,
      Dbl.leZero, Dbl.mul, h28]
    norm_num [Dbl.add, h28]
  refine ⟨hsub, ?_, ?_⟩
  · rw [engine_totals_eval _ 28 0 28 hsub rfl (by rw [sub_zero, h28])]
    simp only
    rw [max_eq_right (by norm_num : (0 : ℚ) ≤ 28)]
    rw [dblRound_eq _ 1 6305039478318695 (by norm_num [abs_of_pos]) (by norm_num [abs_of_pos])
      (roundHalfEven_near _ _ (by norm_num [abs_lt])) (by norm_num) (by norm_num)]
    norm_num
  · intro h
    injection h with h
    norm_num at h

/-! ## The demo flow in double-precision arithmetic -/

/-- The lines the demo flow leaves in the engine: PZ02: 2, DR01: 2, DS01: 1. -/
theorem engine_demo_lines (id : String) (createdAt : Nat) :
    Engine.runScript (createOrder id createdAt 12 "Mariam" (some "WELCOME10")).toEngine
        Engine.demoCalls =
      some { (createOrder id createdAt 12 "Mariam" (some "WELCOME10")).toEngine with
        items := [{ sku := "PZ02", qty := Dbl.fin 2 }, { sku := "DR01", qty := Dbl.fin 2 },
          { sku := "DS01", qty := Dbl.fin 1 }] } := by
  have h2 : Dbl.round 2 = Dbl.fin 2 := dblRound_ofNat 2 (by norm_num)
  have hsub : Dbl.sub (Dbl.fin 3) (Dbl.fin 1) = Dbl.fin 2 := by
    simp only [Dbl.sub, Dbl.neg, Dbl.add]
    norm_num [h2]
  have hpos : Dbl.leZero (Dbl.fin 2) = false := by simp [Dbl.leZero]
  simp [Engine.runScript, Engine.demoCalls, Engine.Call.run, Engine.addItem,
    Engine.removeItem, createOrder, Order.toEngine, getItem, menuGet, menu, List.lookup,
    findIndex, hsub, hpos]

/-- The totals of the engine on the order the demo flow leaves: subtotal 214,
discount 10, and the doubles `20.400000000000002`, `10.200000000000001` and
`234.6` for the taxes, the service and the total. -/
theorem engine_demo_totals (order : Engine.Order)
    (hitems : order.items = [{ sku := "PZ02", qty := Dbl.fin 2 },
      { sku := "DR01", qty := Dbl.fin 2 }, { sku := "DS01", qty := Dbl.fin 1 }])
    (hcoupon : order.coupon = some "WELCOME10") :
    Engine.computeTotals order =
      { subtotal := Dbl.fin 214, discount := Dbl.fin 10,
        taxes := Dbl.fin (5742089524897383 / 281474976710656),
        service := Dbl.fin (5742089524897383 / 562949953421312),
        total := Dbl.fin (8254253692039987 / 35184372088832) } := by
  have h150 : Dbl.round 150 = Dbl.fin 150 := dblRound_ofNat 150 (by norm_num)
  have h36 : Dbl.round 36 = Dbl.fin 36 := dblRound_ofNat 36 (by norm_num)
  have h28 : Dbl.round 28 = Dbl.fin 28 := dblRound_ofNat 28 (by norm_num)
  have h186 : Dbl.round 186 = Dbl.fin 186 := dblRound_ofNat 186 (by norm_num)
  have h214 : Dbl.round 214 = Dbl.fin 214 := dblRound_ofNat 214 (by norm_num)
  have h204 : Dbl.round 204 = Dbl.fin 204 := dblRound_ofNat 204 (by norm_num)
  have hsub : (Engine.computeTotals order).subtotal = Dbl.fin 214 := by
    rw [engine_subtotal, hitems]
    simp [Engine.lineTotal, getItem, menuGet, menu, List.lookup, Dbl.leZero, Dbl.mul]
    norm_num [Dbl.add, h150, h36, h28, h186, h214]
  have hdisc : Engine.computeDiscount (Dbl.fin 214) order.coupon = Dbl.fin 10 := by
    rw [hcoupon]
    exact engine_computeDiscount_214
  rw [engine_totals_eval order 214 10 204 hsub hdisc (by norm_num [h204])]
  rw [max_eq_right (by norm_num : (0 : ℚ) ≤ 204)]
  have htax : Dbl.round (204 * (3602879701896397 / 36028797018963968)) =
      Dbl.fin (5742089524897383 / 281474976710656) := by
    rw [dblRound_eq _ 4 5742089524897383 (by norm_num [abs_of_pos])
      (by norm_num [abs_of_pos]) (roundHalfEven_near _ _ (by norm_num [abs_lt]))
      (by norm_num) (by norm_num)]
    norm_num
  have hserv : Dbl.round (204 * (3602879701896397 / 72057594037927936)) =
      Dbl.fin (5742089524897383 / 562949953421312) := by
    rw [dblRound_eq _ 3 5742089524897383 (by norm_num [abs_of_pos])
      (by norm_num [abs_of_pos]) (roundHalfEven_near _ _ (by norm_num [abs_lt]))
      (by norm_num) (by norm_num)]
    norm_num
  have hstep1 : Dbl.add (Dbl.fin 204) (Dbl.fin (5742089524897383 / 281474976710656)) =
      Dbl.fin (7895373096733901 / 35184372088832) := by
    simp only [Dbl.add]
    rw [dblRound_eq _ 7 7895373096733901 (by norm_num [abs_of_pos])
      (by norm_num [abs_of_pos]) (roundHalfEven_near _ _ (by norm_num [abs_lt]))
      (by norm_num) (by norm_num)]
    norm_num
  have hstep2 : Dbl.add (Dbl.fin (7895373096733901 / 35184372088832))
      (Dbl.fin (5742089524897383 / 562949953421312)) =
      Dbl.fin (8254253692039987 / 35184372088832) := by
    simp only [Dbl.add]
    rw [dblRound_eq _ 7 8254253692039987 (by norm_num [abs_of_pos])
      (by norm_num [abs_of_pos]) (roundHalfEven_near _ _ (by norm_num [abs_lt]))
      (by norm_num) (by norm_num)]
    norm_num
  rw [htax, hserv, hstep1, hstep2]

/-- C9 (as amended): the demo flow on `orderA` (coupon WELCOME10; PZ02 x2, DR01 x3,
DS01 x1 added, DR01 x1 removed), run in the double-precision arithmetic of the
program, raises nothing and leaves the lines PZ02: 2, DR01: 2, DS01: 1;
`computeTotals` on that order gives subtotal 214 and discount 10 exactly, the
taxes `5742089524897383 / 2^48` (printed `20.400000000000002`), the service
`5742089524897383 / 2^49` (printed `10.200000000000001`) and the total
`8254253692039987 / 2^45`, which is the double nearest to 234.6; taxes, service
and total lie within `10^-14` of 20.4, 10.2 and 234.6. -/
theorem demo_flow_totals (id : String) (createdAt : Nat) :
    ∃ order : Engine.Order,
      Engine.runScript (createOrder id createdAt 12 "Mariam" (some "WELCOME10")).toEngine
        Engine.demoCalls = some order ∧
      order.items = [{ sku := "PZ02", qty := Dbl.fin 2 }, { sku := "DR01", qty := Dbl.fin 2 },
        { sku := "DS01", qty := Dbl.fin 1 }] ∧
      order.coupon = some "WELCOME10" ∧
      Engine.computeTotals order =
        { subtotal := Dbl.fin 214, discount := Dbl.fin 10,
          taxes := Dbl.fin (5742089524897383 / 281474976710656),
          service := Dbl.fin (5742089524897383 / 562949953421312),
          total := Dbl.fin (8254253692039987 / 35184372088832) } ∧
      (Engine.computeTotals order).total = Dbl.round 234.6 ∧
      |(5742089524897383 / 281474976710656 : ℚ) - 20.4| ≤ 1 / 10 ^ 14 ∧
      |(5742089524897383 / 562949953421312 : ℚ) - 10.2| ≤ 1 / 10 ^ 14 ∧
      |(8254253692039987 / 35184372088832 : ℚ) - 234.6| ≤ 1 / 10 ^ 14 := by
  have htot := engine_demo_totals
    { (createOrder id createdAt 12 "Mariam" (some "WELCOME10")).toEngine with
      items := [{ sku := "PZ02", qty := Dbl.fin 2 }, { sku := "DR01", qty := Dbl.fin 2 },
        { sku := "DS01", qty := Dbl.fin 1 }] } rfl rfl
  refine ⟨_, engine_demo_lines id createdAt, rfl, rfl, htot, ?_, ?_, ?_, ?_⟩
  · rw [htot]
    show Dbl.fin (8254253692039987 / 35184372088832) = Dbl.round 234.6
    rw [dblRound_eq _ 7 8254253692039987 (by norm_num [abs_of_pos])
      (by norm_num [abs_of_pos]) (roundHalfEven_near _ _ (by norm_num [abs_lt]))
      (by norm_num) (by norm_num)]
    norm_num
  · rw [abs_le]; constructor <;> norm_num
  · rw [abs_le]; constructor <;> norm_num
  · rw [abs_le]; constructor <;> norm_num

/-- C9 (counterexample): on the order the demo flow leaves, the taxes and the service
the engine returns are neither the rationals 20.4 and 10.2 nor the doubles
nearest to them (the literals `20.4` and `10.2`): each is one unit in the last
place above. -/
theorem engine_demo_taxes_not_exact :
    ∃ order : Engine.Order,
      Engine.runScript (createOrder "A" 0 12 "Mariam" (some "WELCOME10")).toEngine
        Engine.demoCalls = some order ∧
      (Engine.computeTotals order).taxes = Dbl.fin (5742089524897383 / 281474976710656) ∧
      (Engine.computeTotals order).service = Dbl.fin (5742089524897383 / 562949953421312) ∧
      (Engine.computeTotals order).taxes ≠ Dbl.fin 20.4 ∧
      (Engine.computeTotals order).service ≠ Dbl.fin 10.2 ∧
      Dbl.round 20.4 = Dbl.fin (5742089524897382 / 281474976710656) ∧
      Dbl.round 10.2 = Dbl.fin (5742089524897382 / 562949953421312) ∧
      (Engine.computeTotals order).taxes ≠ Dbl.round 20.4 ∧
      (Engine.computeTotals order).service ≠ Dbl.round 10.2 := by
  have htot := engine_demo_totals
    { (createOrder "A" 0 12 "Mariam" (some "WELCOME10")).toEngine with
      items := [{ sku := "PZ02", qty := Dbl.fin 2 }, { sku := "DR01", qty := Dbl.fin 2 },
        { sku := "DS01", qty := Dbl.fin 1 }] } rfl rfl
  have h204 : Dbl.round 20.4 = Dbl.fin (5742089524897382 / 281474976710656) := by
    rw [dblRound_eq _ 4 5742089524897382 (by norm_num [abs_of_pos])
      (by norm_num [abs_of_pos]) (roundHalfEven_near _ _ (by norm_num [abs_lt]))
      (by norm_num) (by norm_num)]
    norm_num
  have h102 : Dbl.round 10.2 = Dbl.fin (5742089524897382 / 562949953421312) := by
    rw [dblRound_eq _ 3 5742089524897382 (by norm_num [abs_of_pos])
      (by norm_num [abs_of_pos]) (roundHalfEven_near _ _ (by norm_num [abs_lt]))
      (by norm_num) (by norm_num)]
    norm_num
  refine ⟨_, engine_demo_lines "A" 0, ?_, ?_, ?_, ?_, h204, h102, ?_, ?_⟩
  · rw [htot]
  · rw [htot]
  · rw [htot]
    intro h
    injection h with h
    norm_num at h
  · rw [htot]
    intro h
    injection h with h
    norm_num at h
  · rw [htot, h204]
    intro h
    injection h with h
    norm_num at h
  · rw [htot, h102]
    intro h
    injection h with h
    norm_num at h

end Restaurant

/-! # Cart checkout: properties -/

namespace Cart

/-- The conversion `n | 0` leaves an integer of the non-negative 32-bit range as
it is. -/
theorem toInt32_of_small (n : ℤ) (h0 : 0 ≤ n) (h1 : n < 2 ^ 31) : toInt32 n = n := by
  unfold toInt32
  norm_num at h1 ⊢
  omega

/-- What the `while` loop computes from any state: it runs some number `k` of
rounds, each moving 10 from the points to the discount; it stops when fewer
than 10 points remain or nothing remains of the items total; and every round
started on a positive remainder with at least 10 points. -/
theorem loyaltyLoop_spec (itemsTotal : ℚ) (d : ℚ) (p : ℤ) :
    ∃ k : ℕ, loyaltyLoop itemsTotal d p = (d + 10 * k, p - 10 * k) ∧
      (p - 10 * k < 10 ∨ itemsTotal - (d + 10 * k) ≤ 0) ∧
      (k = 0 ∨ (0 < itemsTotal - (d + 10 * k - 10) ∧ 0 ≤ p - 10 * (k : ℤ))) := by
  induction d, p using loyaltyLoop.induct itemsTotal with
  | case1 d p hcond ih =>
    obtain ⟨k, hk, hstop, hlast⟩ := ih
    refine ⟨k + 1, ?_, ?_, Or.inr ?_⟩
    · rw [loyaltyLoop, if_pos hcond, hk]
      push_cast
      refine Prod.ext ?_ ?_
      · simp only; ring
      · simp only; ring
    · push_cast
      rcases hstop with h | h
      · left; omega
      · right; linarith
    · push_cast
      rcases hlast with h | ⟨h1, h2⟩
      · subst h
        simp only [Nat.cast_zero, mul_zero, add_zero, sub_zero]
        refine ⟨by linarith [hcond.2], by linarith [hcond.1]⟩
      · exact ⟨by linarith, by omega⟩
  | case2 d p hcond =>
    refine ⟨0, ?_, ?_, Or.inl rfl⟩
    · rw [loyaltyLoop, if_neg hcond]
      simp
    · simp only [Nat.cast_zero, mul_zero, sub_zero, add_zero]
      by_cases h : p ≥ 10
      · right
        have : ¬ (itemsTotal - d > 0) := fun h2 => hcond ⟨h, h2⟩
        linarith
      · left; omega

/-- The loyalty loop as the code runs it: for a non-negative items total and a number of loyalty points
from 0 up to `2^31 - 1`, the `while` loop terminates after some number `k` of
rounds with the discount `10 * k` and `loyaltyPoints - 10 * k ≥ 0` points left,
so the discount is the number of points consumed; it stops once fewer than 10
points remain or the items total is used up, and the discount stays below the
items total plus 10. These are the values `processOrder` returns, with a grand
total that is not negative. -/
theorem loyaltyLoop_rounds (itemsTotal : ℚ) (loyaltyPoints : ℤ)
    (ht : 0 ≤ itemsTotal) (hp : 0 ≤ loyaltyPoints) (hlt : loyaltyPoints < 2 ^ 31) :
    ∃ k : ℕ,
      loyaltyLoop itemsTotal 0 (toInt32 loyaltyPoints) =
        (10 * (k : ℚ), loyaltyPoints - 10 * (k : ℤ)) ∧
      (loyaltyLoop itemsTotal 0 (toInt32 loyaltyPoints)).1 =
        ((loyaltyPoints - (loyaltyLoop itemsTotal 0 (toInt32 loyaltyPoints)).2 : ℤ) : ℚ) ∧
      0 ≤ loyaltyPoints - 10 * (k : ℤ) ∧
      (loyaltyPoints - 10 * (k : ℤ) < 10 ∨ itemsTotal ≤ 10 * k) ∧
      (10 * k : ℚ) < itemsTotal + 10 ∧
      ∀ cart : List CartItem, itemsLoop 0 cart = itemsTotal →
        (processOrder loyaltyPoints cart).totals.loyaltyDiscount = 10 * (k : ℚ) ∧
        (processOrder loyaltyPoints cart).remainingPoints = loyaltyPoints - 10 * (k : ℤ) ∧
        0 ≤ (processOrder loyaltyPoints cart).totals.grandTotal := by
  obtain ⟨k, hk, hstop, hlast⟩ := loyaltyLoop_spec itemsTotal 0 loyaltyPoints
  rw [zero_add] at hk
  have h32 := toInt32_of_small loyaltyPoints hp hlt
  refine ⟨k, by rw [h32, hk], ?_, ?_, ?_, ?_, ?_⟩
  · rw [h32, hk]
    push_cast
    ring
  · rcases hlast with h | ⟨_, h⟩
    · subst h; simpa using hp
    · exact h
  · rcases hstop with h | h
    · exact Or.inl h
    · right; linarith
  · rcases hlast with h | ⟨h, _⟩
    · subst h; simp only [Nat.cast_zero, mul_zero]; linarith
    · linarith
  · intro cart hcart
    have hloop : loyaltyLoop (itemsLoop 0 cart) 0 (toInt32 loyaltyPoints) =
        (10 * (k : ℚ), loyaltyPoints - 10 * (k : ℤ)) := by rw [hcart, h32, hk]
    refine ⟨?_, ?_, ?_⟩
    · show (loyaltyLoop (itemsLoop 0 cart) 0 (toInt32 loyaltyPoints)).1 = 10 * (k : ℚ)
      rw [hloop]
    · show (loyaltyLoop (itemsLoop 0 cart) 0 (toInt32 loyaltyPoints)).2 = _
      rw [hloop]
    · exact le_max_left _ _

/-- Witness of `loyaltyLoop_rounds`: the mock customer and cart of the
script, items total 408 and 37 points: discount 30, 7 points left. -/
theorem loyaltyLoop_rounds_witness :
    itemsLoop 0 cart = 408 ∧
    loyaltyLoop 408 0 (toInt32 37) = (30, 7) ∧
    ∃ k : ℕ,
      loyaltyLoop 408 0 (toInt32 37) = (10 * (k : ℚ), (37 : ℤ) - 10 * (k : ℤ)) ∧
      (loyaltyLoop 408 0 (toInt32 37)).1 =
        (((37 : ℤ) - (loyaltyLoop 408 0 (toInt32 37)).2 : ℤ) : ℚ) ∧
      0 ≤ (37 : ℤ) - 10 * (k : ℤ) ∧
      ((37 : ℤ) - 10 * (k : ℤ) < 10 ∨ (408 : ℚ) ≤ 10 * k) ∧
      (10 * k : ℚ) < 408 + 10 ∧
      ∀ cart : List CartItem, itemsLoop 0 cart = 408 →
        (processOrder 37 cart).totals.loyaltyDiscount = 10 * (k : ℚ) ∧
        (processOrder 37 cart).remainingPoints = (37 : ℤ) - 10 * (k : ℤ) ∧
        0 ≤ (processOrder 37 cart).totals.grandTotal := by
  have h1 : itemsLoop 0 cart = 408 := by
    simp [itemsLoop, cart, computeLineTotal, applyCoupon]
    norm_num
  have h2 : loyaltyLoop 408 0 (toInt32 37) = (30, 7) := by
    simp only [toInt32]
    norm_num
    rw [loyaltyLoop]; norm_num
    rw [loyaltyLoop]; norm_num
    rw [loyaltyLoop]; norm_num
    rw [loyaltyLoop]; norm_num
  exact ⟨h1, h2,
    loyaltyLoop_rounds 408 37 (by norm_num) (by norm_num) (by norm_num)⟩

/-- The conversion `points | 0` wraps: with `2^31` points it gives `-2^31`, the loop
does not run, and the discount 0 is not `loyaltyPoints - remainingPoints`. -/
theorem loyaltyLoop_wrapped_points :
    loyaltyLoop 100 0 (toInt32 2147483648) = (0, -2147483648) ∧
    (loyaltyLoop 100 0 (toInt32 2147483648)).1 ≠
      (((2147483648 : ℤ) - (loyaltyLoop 100 0 (toInt32 2147483648)).2 : ℤ) : ℚ) := by
  have h2 : loyaltyLoop 100 0 (toInt32 2147483648) = (0, -2147483648) := by
    simp only [toInt32]
    norm_num
    rw [loyaltyLoop]; norm_num
  refine ⟨h2, ?_⟩
  rw [h2]; norm_num

/-- C19 (defect): the loop tests `itemsTotal - loyaltyDiscount > 0` before it adds 10,
so the cap its comment announces (`cap so total doesn't go below 0`) is
overshot. For a customer with 10 points and a cart of one line of price 5 and
qty 1, `processOrder` has items total 5, the loop grants the discount 10 and
leaves 0 points, and `itemsTotal - loyaltyDiscount` is `-5`, below 0. -/
theorem loyalty_cap_overshoots :
    (processOrder 10
      [{ sku := "PN-001", name := "Pen", price := 5, qty := 1, coupon := none }]) =
      { ok := true,
        totals := { itemsTotal := 5, shipping := 30, taxes := 1 / 2, loyaltyDiscount := 10,
                    grandTotal := 51 / 2 },
        remainingPoints := 0, attempts := 2 } ∧
    loyaltyLoop 5 0 (toInt32 10) = (10, 0) ∧
    (processOrder 10
      [{ sku := "PN-001", name := "Pen", price := 5, qty := 1, coupon := none }]).totals.itemsTotal -
      (processOrder 10
        [{ sku := "PN-001", name := "Pen", price := 5, qty := 1,
           coupon := none }]).totals.loyaltyDiscount = -5 ∧
    ¬ (0 ≤ (processOrder 10
      [{ sku := "PN-001", name := "Pen", price := 5, qty := 1, coupon := none }]).totals.itemsTotal -
      (processOrder 10
        [{ sku := "PN-001", name := "Pen", price := 5, qty := 1,
           coupon := none }]).totals.loyaltyDiscount) := by
  have hitems : itemsLoop 0
      [{ sku := "PN-001", name := "Pen", price := 5, qty := 1, coupon := none }] = 5 := by
    simp [itemsLoop, computeLineTotal, applyCoupon]
    norm_num
  have hloop : loyaltyLoop 5 0 (toInt32 10) = (10, 0) := by
    simp only [toInt32]
    norm_num
    rw [loyaltyLoop]; norm_num
    rw [loyaltyLoop]; norm_num
  have hpay : paymentLoop 0 = (2, true) := by
    rw [paymentLoop]; norm_num
    rw [paymentLoop]; norm_num
  have hall : processOrder 10
      [{ sku := "PN-001", name := "Pen", price := 5, qty := 1, coupon := none }] =
      { ok := true,
        totals := { itemsTotal := 5, shipping := 30, taxes := 1 / 2, loyaltyDiscount := 10,
                    grandTotal := 51 / 2 },
        remainingPoints := 0, attempts := 2 } := by
    simp only [processOrder, hitems, hloop, hpay]
    norm_num
  refine ⟨hall, hloop, ?_, ?_⟩
  · rw [hall]; norm_num
  · rw [hall]; norm_num

end Cart

/-! # Student notes: properties -/

namespace Students

/-- The clamp of a finite number. -/
theorem clamp20_fin (q : ℚ) : clamp20 (Num.fin q) = Num.fin (max 0 (min 20 q)) := rfl

/-- The clamp of `NaN` is `NaN`, which `isNumber` rejects. -/
theorem clamp20_nan : clamp20 Num.nan = Num.nan ∧ isNumber (clamp20 Num.nan) = false :=
  ⟨rfl, rfl⟩

/-- A clamp that `isNumber` accepts lies in the range 0 to 20. -/
theorem clamp20_inRange (n : Num) (h : isNumber (clamp20 n) = true) : inRange (clamp20 n) := by
  cases n with
  | fin q =>
    rw [clamp20_fin]
    exact ⟨le_max_left _ _, max_le (by norm_num) (min_le_left _ _)⟩
  | nan => exact absurd h (by decide)
  | posInf =>
    show inRange (Num.fin (max 0 20))
    exact ⟨le_max_left _ _, max_le (by norm_num) le_rfl⟩
  | negInf =>
    show inRange (Num.fin 0)
    exact ⟨le_rfl, by norm_num⟩

/-- The grades `addStudent` stores are the grades of the specification. -/
theorem safeGrades_eq_spec {Val : Type} (Number : Val → Num) (grades : List Val) :
    ((grades.map Number).filter isNumber).map clamp20 = specSafeGrades Number grades := by
  induction grades with
  | nil => rfl
  | cons v vs ih =>
    unfold specSafeGrades at ih ⊢
    cases hv : Number v <;>
      simp [List.filterMap_cons, List.filter_cons, hv, isNumber, clamp20_fin, ← ih]

/-- The grades of the specification lie in the range 0 to 20. -/
theorem specSafeGrades_inRange {Val : Type} (Number : Val → Num) (grades : List Val) :
    ∀ g ∈ specSafeGrades Number grades, inRange g := by
  intro g hg
  unfold specSafeGrades at hg
  obtain ⟨v, _, hv⟩ := List.mem_filterMap.mp hg
  cases hn : Number v with
  | fin q =>
    rw [hn] at hv
    simp only [Option.some.injEq] at hv
    rw [← hv]
    exact ⟨le_max_left _ _, max_le (by norm_num) (min_le_left _ _)⟩
  | nan => rw [hn] at hv; exact absurd hv (by simp)
  | posInf => rw [hn] at hv; exact absurd hv (by simp)
  | negInf => rw [hn] at hv; exact absurd hv (by simp)

/-- The call `addStudent` either throws and leaves the list as it was, or appends
one student whose grades are the grades of the specification. -/
theorem addStudent_cases {Val : Type} (Number : Val → Num) (list : List Student)
    (arg : NewStudent Val) :
    ((addStudent Number list arg).thrown ≠ none ∧ (addStudent Number list arg).list = list) ∨
    (∃ (id : ℤ) (name : String), arg.id = some id ∧ arg.name = some name ∧ id ≠ 0 ∧
      name ≠ "" ∧ (∀ s ∈ list, s.id ≠ id) ∧
      addStudent Number list arg =
        { thrown := none,
          list := list ++ [{ id := id, name := name,
                             grades := specSafeGrades Number (arg.grades.getD []) }] }) := by
  unfold addStudent
  split
  · exact Or.inl ⟨by simp, rfl⟩
  · exact Or.inl ⟨by simp, rfl⟩
  · rename_i id name hid hname
    split_ifs with h1 h2
    · exact Or.inl ⟨by simp, rfl⟩
    · exact Or.inl ⟨by simp, rfl⟩
    · right
      simp only [not_or] at h1
      refine ⟨id, name, hid, hname, h1.1, h1.2, ?_, ?_⟩
      · simpa using h2
      · simp only [safeGrades_eq_spec]

/-- The call `addGrade` throws and leaves the list as it was, or pushes one grade of
the range 0 to 20 to the first student of the id. -/
theorem addGrade_cases {Val : Type} (Number : Val → Num) (list : List Student) (id : ℤ)
    (grade : Val) :
    ((addGrade Number list id grade).thrown ≠ none ∧
      (addGrade Number list id grade).list = list) ∨
    (∃ pre s post, list = pre ++ s :: post ∧ (∀ y ∈ pre, y.id ≠ id) ∧ s.id = id ∧
      inRange (clamp20 (Number grade)) ∧
      addGrade Number list id grade =
        { thrown := none,
          list := pre ++ { s with grades := s.grades ++ [clamp20 (Number grade)] } :: post }) := by
  by_cases hex : ∃ s ∈ list, (fun s : Student => s.id == id) s = true
  · obtain ⟨pre, s, post, hl, hpre, hx⟩ := Restaurant.exists_first_split _ list hex
    have hfind : Restaurant.findIndex (fun s : Student => s.id == id) list =
        some pre.length := by
      rw [hl]
      exact Restaurant.findIndex_append _ pre s post hpre hx
    by_cases hnum : isNumber (clamp20 (Number grade)) = true
    · right
      refine ⟨pre, s, post, hl, by simpa using hpre, by simpa using hx,
        clamp20_inRange _ hnum, ?_⟩
      simp only [addGrade, hfind, hnum]
      rw [hl, Restaurant.modify_append_cons]
      rfl
    · left
      simp [addGrade, hfind, hnum]
  · left
    have hfind : Restaurant.findIndex (fun s : Student => s.id == id) list = none :=
      (Restaurant.findIndex_eq_none _ _).mpr (by simpa using hex)
    simp [addGrade, hfind]

/-- What `addGrade` does on a list that holds a student of the id, by the number the
grade converts to: a finite number is clamped and pushed to the first student
of the id, `NaN` is rejected with `Invalid grade`. -/
theorem addGrade_found {Val : Type} (Number : Val → Num) (id : ℤ) (grade : Val)
    (pre : List Student) (s : Student) (post : List Student)
    (hpre : ∀ y ∈ pre, y.id ≠ id) (hs : s.id = id) :
    (∀ q : ℚ, Number grade = Num.fin q →
      addGrade Number (pre ++ s :: post) id grade =
        { thrown := none,
          list := pre ++
            { s with grades := s.grades ++ [Num.fin (max 0 (min 20 q))] } :: post }) ∧
    (Number grade = Num.nan →
      addGrade Number (pre ++ s :: post) id grade =
        { thrown := some StudentErr.invalidGrade, list := pre ++ s :: post }) := by
  have hfind : Restaurant.findIndex (fun s : Student => s.id == id) (pre ++ s :: post) =
      some pre.length :=
    Restaurant.findIndex_append _ pre s post (by simpa using hpre) (by simpa using hs)
  constructor
  · intro q hq
    simp only [addGrade, hfind, hq, clamp20_fin, isNumber]
    rw [Restaurant.modify_append_cons]
    rfl
  · intro hnan
    simp only [addGrade, hfind, hnan, clamp20_nan.1, isNumber]
    rfl

/-- C20: on a list whose stored grades all lie in the range 0 to 20, a call of
`addStudent` or of `addGrade` that returns normally leaves every stored grade
in that range, and a call that throws leaves the list unchanged. `addStudent`
stores the finite grades clamped to the range and drops the others; `addGrade`
pushes a finite grade clamped to the range to the first student of the id and
throws `Invalid grade` on a grade that converts to `NaN`. -/
theorem grades_stay_in_range {Val : Type} (Number : Val → Num) (list : List Student)
    (h : GradesInRange list) :
    (∀ arg : NewStudent Val,
      ((addStudent Number list arg).thrown = none →
        GradesInRange (addStudent Number list arg).list ∧
        ∃ (id : ℤ) (name : String), (addStudent Number list arg).list =
          list ++ [{ id := id, name := name,
                     grades := specSafeGrades Number (arg.grades.getD []) }]) ∧
      ((addStudent Number list arg).thrown ≠ none →
        (addStudent Number list arg).list = list)) ∧
    (∀ (id : ℤ) (grade : Val),
      ((addGrade Number list id grade).thrown = none →
        GradesInRange (addGrade Number list id grade).list) ∧
      ((addGrade Number list id grade).thrown ≠ none →
        (addGrade Number list id grade).list = list) ∧
      ((∃ s ∈ list, s.id = id) → Number grade = Num.nan →
        (addGrade Number list id grade).thrown = some StudentErr.invalidGrade) ∧
      (∀ (q : ℚ) (pre : List Student) (s : Student) (post : List Student),
        Number grade = Num.fin q → list = pre ++ s :: post → (∀ y ∈ pre, y.id ≠ id) →
        s.id = id →
        addGrade Number list id grade =
          { thrown := none,
            list := pre ++
              { s with grades := s.grades ++ [Num.fin (max 0 (min 20 q))] } :: post })) := by
  constructor
  · intro arg
    rcases addStudent_cases Number list arg with ⟨hthrown, hlist⟩ | ⟨id, name, _, _, _, _, _, heq⟩
    · exact ⟨fun hn => absurd hn hthrown, fun _ => hlist⟩
    · refine ⟨fun _ => ⟨?_, id, name, by rw [heq]⟩, fun hne => ?_⟩
      · rw [heq]
        intro s hs g hg
        simp only [List.mem_append, List.mem_singleton] at hs
        rcases hs with hs | rfl
        · exact h s hs g hg
        · exact specSafeGrades_inRange Number _ g hg
      · rw [heq] at hne
        exact absurd rfl hne
  · intro id grade
    refine ⟨?_, ?_, ?_, ?_⟩
    · intro hnone
      rcases addGrade_cases Number list id grade with ⟨hthrown, _⟩ |
        ⟨pre, s, post, hl, _, _, hin, heq⟩
      · exact absurd hnone hthrown
      · rw [heq]
        rw [hl] at h
        intro x hx g hg
        simp only [List.mem_append, List.mem_cons] at hx
        rcases hx with hx | rfl | hx
        · exact h x (by simp [hx]) g hg
        · simp only [List.mem_append, List.mem_singleton] at hg
          rcases hg with hg | rfl
          · exact h s (by simp) g hg
          · exact hin
        · exact h x (by simp [hx]) g hg
    · intro hne
      rcases addGrade_cases Number list id grade with ⟨_, hlist⟩ | ⟨_, _, _, _, _, _, _, heq⟩
      · exact hlist
      · rw [heq] at hne
        exact absurd rfl hne
    · intro hex hnan
      obtain ⟨pre, s, post, hl, hpre, hx⟩ :=
        Restaurant.exists_first_split (fun s : Student => s.id == id) list
          (by simpa using hex)
      rw [hl, (addGrade_found Number id grade pre s post (by simpa using hpre)
        (by simpa using hx)).2 hnan]
    · intro q pre s post hq hl hpre hs
      rw [hl]
      exact (addGrade_found Number id grade pre s post hpre hs).1 q hq

/-- Witness of `grades_stay_in_range`: on the initial students of the script, the
grade 25 for Youssef (id 3) is stored as 20. -/
theorem grades_stay_in_range_witness :
    GradesInRange students ∧
    addGrade (fun v : Num => v) students 3 (Num.fin 25) =
      { thrown := none,
        list := students.take 2 ++
          { id := 3, name := "Youssef",
            grades := [Num.fin 15, Num.fin 13, Num.fin 17, Num.fin 20] } ::
          students.drop 3 } ∧
    GradesInRange (addGrade (fun v : Num => v) students 3 (Num.fin 25)).list := by
  have hin : GradesInRange students := by
    intro s hs g hg
    simp only [students, List.mem_cons, List.mem_singleton, List.not_mem_nil, or_false] at hs
    rcases hs with rfl | rfl | rfl | rfl <;>
      simp only [List.mem_cons, List.mem_singleton, List.not_mem_nil, or_false] at hg <;>
      rcases hg with rfl | rfl | rfl | rfl <;> (constructor <;> norm_num)
  have hthm := grades_stay_in_range (fun v : Num => v) students hin
  have heq : addGrade (fun v : Num => v) students 3 (Num.fin 25) =
      { thrown := none,
        list := students.take 2 ++
          { id := 3, name := "Youssef",
            grades := [Num.fin 15, Num.fin 13, Num.fin 17, Num.fin 20] } ::
          students.drop 3 } := by
    rw [(hthm.2 3 (Num.fin 25)).2.2.2 25 (students.take 2)
      { id := 3, name := "Youssef", grades := [Num.fin 15, Num.fin 13, Num.fin 17] }
      (students.drop 3) rfl rfl (by decide) rfl]
    norm_num
  exact ⟨hin, heq, (hthm.2 3 (Num.fin 25)).1 (by rw [heq])⟩

end Students
